import Mathlib

/-!
# twitchirc: the IRC line parser, the Twitch decoders and the line dispatcher

A shallow embedding of `irc_parser.go`, `twitch_parser.go`, of `connection.go` without the
read loop (`handleLine`, `Join`, `Depart`, `DepartAll`, `Say`, `Write`) and of `sendCaptures`
of `client.go`.

Modelling conventions.

* A Go `string` is the list of its Unicode code points (`Str`); the text is taken to be
  valid UTF-8, so that searching for an ASCII delimiter byte and searching for the
  corresponding code point coincide, and `[]rune(s)` is the list itself.
* A Go function that returns `(value, error)` and may also panic at run time returns a
  `Res`: `ok`, `err` or `panic`.  A Go function without an error result that may panic
  returns an `Option`, `none` standing for the panic.
* A Go `map[string]V` is an association list with pairwise distinct keys, kept in the
  order in which the keys were first inserted.
* The Unicode case tables behind `strings.ToUpper` and `strings.ToLower` are not part of
  the repository; they are the parameters `up` and `low : Char → Char` (the rune maps
  `unicode.ToUpper` and `unicode.ToLower`).
* The socket of a connection is the list of the outcomes of the calls of `conn.Write` to
  come.  The `bufio.Writer` in front of it is modelled with its buffer of 4096 bytes, its
  sticky error and its operations `WriteString` and `Flush`, over the number of bytes of
  the text (the length of its UTF-8 encoding).
-/

namespace TwitchIRC

/-- A Go string, as the sequence of its code points. -/
abbrev Str := List Char

/-- Result of a Go function with signature `(T, error)`; `panic` is a run-time panic
(index or slice bound out of range). -/
inductive Res (ε α : Type) where
  | ok (a : α)
  | err (e : ε)
  | panic
  deriving DecidableEq

/-! ## The pieces of the Go standard library that the parser uses -/

/-- Go `strings.TrimRight(s, cutset)`: drop every trailing code point contained in `cutset`. -/
def TrimRight (s cutset : Str) : Str :=
  s.rdropWhile (fun c => decide (c ∈ cutset))

/-- Go `strings.Index(s, sep)` for a one-character `sep`; `none` is Go's `-1`. -/
def Index : Str → Char → Option Nat
  | [], _ => none
  | x :: xs, c => if x = c then some 0 else (Index xs c).map (· + 1)

/-- Go `strings.SplitN(s, sep, 2)` for a non-empty `sep`: the text before the first
occurrence of `sep` and, when `sep` occurs, the text after it.  The Go result has length 2
exactly when the second component is `some`. -/
def SplitN2 : Str → Str → Str × Option Str
  | [], _ => ([], none)
  | c :: cs, sep =>
    if sep.isPrefixOf (c :: cs) then ([], some ((c :: cs).drop sep.length))
    else
      let r := SplitN2 cs sep
      (c :: r.1, r.2)

/-- Cut a string at every code point satisfying `f`; the separators are dropped and empty
pieces are kept.  The result always has at least one piece. -/
def splitAt (f : Char → Bool) : Str → List Str
  | [] => [[]]
  | c :: cs =>
    if f c then [] :: splitAt f cs
    else
      match splitAt f cs with
      | [] => [[c]]
      | p :: ps => (c :: p) :: ps

/-- Go `strings.Split(s, sep)` for a one-character `sep`. -/
def Split (s : Str) (sep : Char) : List Str :=
  splitAt (fun c => decide (c = sep)) s

/-- Go `strings.FieldsFunc(s, f)`: the maximal non-empty runs of code points not satisfying `f`. -/
def FieldsFunc (s : Str) (f : Char → Bool) : List Str :=
  (splitAt f s).filter (fun p => !p.isEmpty)

/-- Go `strings.ToUpper(s)`, over the rune map `up` (Go's `unicode.ToUpper`). -/
def ToUpper (up : Char → Char) (s : Str) : Str :=
  s.map up

/-- Go `strings.TrimPrefix(s, p)`. -/
def TrimPrefix (s p : Str) : Str :=
  if p.isPrefixOf s then s.drop p.length else s

/-- Go `strings.Count(s, sep)` for a one-character `sep`. -/
def Count (s : Str) (sep : Char) : Nat :=
  s.count sep

/-- The ASCII part of `unicode.ToUpper`: `a`..`z` go to `A`..`Z`, every other code point
is left alone.  Used wherever a concrete line is evaluated. -/
def asciiUpper (c : Char) : Char :=
  if 97 ≤ c.toNat ∧ c.toNat ≤ 122 then Char.ofNat (c.toNat - 32) else c

/-! ## Go maps -/

/-- Go `m[k] = v` on an association list with distinct keys: replace the value of an
existing key in place, append a new key at the end. -/
def mapSet {α : Type} : List (Str × α) → Str → α → List (Str × α)
  | [], k, v => [(k, v)]
  | (k', v') :: m, k, v => if k' = k then (k, v) :: m else (k', v') :: mapSet m k v

/-- Go `v, ok := m[k]`. -/
def mapGet {α : Type} : List (Str × α) → Str → Option α
  | [], _ => none
  | (k', v') :: m, k => if k' = k then some v' else mapGet m k

/-! ## irc_parser.go -/

/-- Go `tagDecodeSlashMap`, as a lookup: `some r` when the rune has an entry. -/
def tagDecodeSlashMap (c : Char) : Option Char :=
  if c = ':' then some ';'
  else if c = 's' then some ' '
  else if c = '\\' then some '\\'
  else if c = 'r' then some '\r'
  else if c = 'n' then some '\n'
  else none

/-- Go `parseTagValue`: the read loop over the runes of `v`.  A backslash consumes the next
rune and writes its replacement from `tagDecodeSlashMap` (or the rune itself when it has
no entry); a backslash with nothing after it ends the loop. -/
def parseTagValue : Str → Str
  | [] => []
  | c :: rest =>
    if c = '\\' then
      match rest with
      | [] => []
      | c2 :: rest2 =>
        (match tagDecodeSlashMap c2 with
          | some replacement => replacement
          | none => c2) :: parseTagValue rest2
    else c :: parseTagValue rest

/-- Go `Tags`, a `map[string]TagValue`. -/
abbrev Tags := List (Str × Str)

/-- One iteration of the loop of `parseTags`. -/
def parseTagsStep (ret : Tags) (tag : Str) : Tags :=
  match SplitN2 tag ['='] with
  | (key, none) => mapSet ret key []
  | (key, some value) => mapSet ret key (parseTagValue value)

/-- Go `parseTags`. -/
def parseTags (line : Str) : Tags :=
  (Split line ';').foldl parseTagsStep []

/-- Go `Tags.GetTag`. -/
def GetTag (t : Tags) (key : Str) : Option Str :=
  mapGet t key

/-- Go `Prefix`. -/
structure Prefix where
  Name : Str
  User : Str
  Host : Str
  deriving DecidableEq

/-- Go `parsePrefix`. -/
def parsePrefix (line : Str) : Prefix :=
  let id : Prefix := { Name := line, User := [], Host := [] }
  let id : Prefix :=
    match SplitN2 id.Name ['@'] with
    | (n, some h) => { id with Name := n, Host := h }
    | (_, none) => id
  match SplitN2 id.Name ['!'] with
  | (n, some u) => { id with Name := n, User := u }
  | (_, none) => id

set_option linter.dupNamespace false in
/-- Go `Message`.  `Params` of length 0 stands for both the nil and the empty slice. -/
structure Message where
  Tags : Tags
  Prefix : Prefix
  Command : Str
  Params : List Str
  Message : Str
  deriving DecidableEq

/-- The four parse errors of `irc_parser.go`. -/
inductive ParseError where
  | ErrZeroLengthMessage
  | ErrMissingDataAfterPrefix
  | ErrMissingDataAfterTags
  | ErrMissingCommand
  deriving DecidableEq

/-- Lines 203-234 of `parseMessage`: split off the trailing parameter at the first `" :"`,
cut the rest into fields, append the trailing parameter, take the first field as the
command and the others as the parameters. -/
def parseFields (up : Char → Char) (c : Message) (line : Str) : Res ParseError Message :=
  let split := SplitN2 line [' ', ':']
  let params := FieldsFunc split.1 (fun r => decide (r = ' '))
  match params with
  | [] => Res.err ParseError.ErrMissingCommand
  | first :: more =>
    -- `c.Params[0]` is `first`, before and after the append of the trailing parameter
    let rest :=
      match split.2 with
      | some trailing => more ++ [trailing]
      | none => more
    Res.ok { c with Command := ToUpper up first, Params := rest }

/-- Lines 192-201 of `parseMessage` followed by the rest: `line[0]` is read without a
length check, so an empty `line` panics here. -/
def parseAfterTags (up : Char → Char) (c : Message) (line : Str) : Res ParseError Message :=
  match line with
  | [] => Res.panic
  | ch :: _ =>
    if ch = ':' then
      match Index line ' ' with
      | none => Res.err ParseError.ErrMissingDataAfterPrefix
      | some loc =>
        parseFields up { c with Prefix := parsePrefix ((line.take loc).drop 1) } (line.drop (loc + 1))
    else parseFields up c line

/-- The record `parseMessage` starts from: `&Message{Tags: Tags{}, Prefix: &Prefix{},
Message: line}`. -/
def emptyMessage (line : Str) : Message :=
  { Tags := [], Prefix := { Name := [], User := [], Host := [] }, Command := [], Params := [],
    Message := line }

/-- Go `parseMessage`. -/
def parseMessage (up : Char → Char) (line : Str) : Res ParseError Message :=
  let line := TrimRight line ['\r', '\n']
  if line.length = 0 then Res.err ParseError.ErrZeroLengthMessage
  else
    let c : Message := emptyMessage line
    if line.head? = some '@' then
      match Index line ' ' with
      | none => Res.err ParseError.ErrMissingDataAfterTags
      | some loc =>
        parseAfterTags up { c with Tags := parseTags ((line.take loc).drop 1) } (line.drop (loc + 1))
    else parseAfterTags up c line

/-! ## strconv.Atoi -/

/-- Go `int` is 64 bits wide: the value of an integer expression, wrapped to the range
`-2^63 .. 2^63-1`. -/
def wrapInt (i : Int) : Int :=
  (i + 2 ^ 63) % 2 ^ 64 - 2 ^ 63

/-- Outcome of the digit loop of `strconv.ParseUint(s, 10, 64)`. -/
inductive UintRes where
  | val (n : Nat)
  | invalid
  | outOfRange
  deriving DecidableEq

/-- The digit loop of `strconv.ParseUint(s, 10, 64)`, `n` being the value read so far: a
code point that is not a digit is a syntax error, a value that leaves 64 bits is a range
error, and whichever comes first ends the loop. -/
def parseUintLoop : Str → Nat → UintRes
  | [], n => UintRes.val n
  | c :: cs, n =>
    if ¬ (48 ≤ c.toNat ∧ c.toNat ≤ 57) then UintRes.invalid
    else if n ≥ (2 ^ 64 - 1) / 10 + 1 then UintRes.outOfRange
    else if n * 10 + (c.toNat - 48) > 2 ^ 64 - 1 then UintRes.outOfRange
    else parseUintLoop cs (n * 10 + (c.toNat - 48))

/-- Go `strconv.Atoi(s)`: the value and whether the returned error is non-nil.  An optional
sign, then decimal digits; a syntax error gives 0, a range error gives the nearest bound
of `int`.  (For fewer than 19 characters Go takes a fast path that computes the same.) -/
def Atoi (s : Str) : Int × Bool :=
  match s with
  | [] => (0, true)
  | c :: cs =>
    let neg := decide (c = '-')
    let digits := if c = '+' ∨ c = '-' then cs else c :: cs
    match digits with
    | [] => (0, true)
    | d :: ds =>
      match parseUintLoop (d :: ds) 0 with
      | UintRes.invalid => (0, true)
      | UintRes.outOfRange => if neg then (-(2 ^ 63), true) else (2 ^ 63 - 1, true)
      | UintRes.val un =>
        if ¬ neg ∧ un ≥ 2 ^ 63 then (2 ^ 63 - 1, true)
        else if neg ∧ un > 2 ^ 63 then (-(2 ^ 63), true)
        else if neg then (-(un : Int), false)
        else ((un : Int), false)

/-! ## twitch_parser.go: emotes -/

/-- Go `Emote`. -/
structure Emote where
  Name : Str
  ID : Str
  Count : Int
  deriving DecidableEq

/-- Go slice expression `runes[lo:hi]` on `runes := []rune(message)`.  The bounds are checked
against the capacity of the slice, which is its length plus the `spare` zeroed slots the
runtime allocated beyond it (an implementation matter, any number is possible); `none` is
the panic "slice bounds out of range". -/
def sliceRunes (runes : Str) (spare : Nat) (lo hi : Int) : Option Str :=
  if 0 ≤ lo ∧ lo ≤ hi ∧ hi ≤ ((runes.length + spare : Nat) : Int) then
    some (((runes ++ List.replicate spare (Char.ofNat 0)).take hi.toNat).drop lo.toNat)
  else none

/-- The body of the loop of `parseEmotes`, for the group `v`.  `split[1]` and `pair[1]` are
read without a length check, and the slice expression is bounds-checked: `none` is a panic. -/
def parseEmote (runes : Str) (spare : Nat) (v : Str) : Option Emote :=
  match SplitN2 v [':'] with
  | (_, none) => none
  | (id, some ranges) =>
    let pairs := SplitN2 ranges [',']
    match SplitN2 pairs.1 ['-'] with
    | (_, none) => none
    | (first, some last) =>
      let firstIndex := (Atoi first).1
      let lastIndex := (Atoi last).1
      let lastIndex :=
        if wrapInt (lastIndex + 1) > (runes.length : Int) then wrapInt (lastIndex - 1) else lastIndex
      match sliceRunes runes spare firstIndex (wrapInt (lastIndex + 1)) with
      | none => none
      | some name => some { Name := name, ID := id, Count := (Count ranges ',' : Int) + 1 }

/-- The loop of `parseEmotes` over the groups: it stops at the first group that panics. -/
def parseEmotesLoop (runes : Str) (spare : Nat) : List Str → Option (List Emote)
  | [] => some []
  | v :: vs =>
    match parseEmote runes spare v with
    | none => none
    | some emote =>
      match parseEmotesLoop runes spare vs with
      | none => none
      | some emotes => some (emote :: emotes)

/-- Go `parseEmotes(emoteString, message)`; `spare` is the spare capacity of
`[]rune(message)`. -/
def parseEmotes (spare : Nat) (emoteString message : Str) : Option (List Emote) :=
  if emoteString = [] then some []
  else parseEmotesLoop message spare (Split emoteString '/')

/-! ## handler.go and connection.go: dispatching one line -/

/-- A Go `error` value of this library: one of the parse errors, an error raised outside
the library (by a handler or by the socket), or `errors.Wrap(cause, context)`. -/
inductive Error where
  | parse (e : ParseError)
  | external (text : String)
  | wrap (cause : Error) (context : String)
  deriving DecidableEq

/-- Go `errors.Cause`: the innermost wrapped error. -/
def Error.cause : Error → Error
  | Error.wrap c _ => c.cause
  | e => e

/-- Go `Config`. -/
structure Config where
  UseTLS : Bool
  AutoPing : Bool
  CaptureTags : Bool
  CaptureCommands : Bool
  CaptureMembership : Bool
  deriving DecidableEq

/-- A Go `Handler`: what its `HandleIRC` returns for a message (`none` is nil). -/
abbrev Handler := Message → Option Error

/-- What a connection does that can be observed from outside: bytes that reach the socket
and handler invocations.  One call of `write` contributes at most one event: `wrote line`
when every byte of the line has reached the socket, `wrotePart sent line` when only the
first `sent` bytes of the line have (`0 < sent`), nothing when no byte has. -/
inductive Event where
  | wrote (bytes : Str)
  | ircHandler (msg : Message)
  | channelHandler (key : Str) (msg : Message)
  | wrotePart (sent : Nat) (line : Str)
  deriving DecidableEq

/-- Go `Connection`, without the lock and the reader.  `sock` is the socket `conn` as the
writer `w` sees it: the outcomes of the calls of `conn.Write` to come, `none` for a call
that accepts all its bytes and returns nil, `some (k, e)` for a call that accepts `k` of its
bytes (all of them when it has fewer) and returns the error `e`; after the list is used up
every call succeeds.  A call that accepts fewer bytes and returns nil counts, as in
`bufio`, as one that fails with `io.ErrShortWrite`.  `werr` is the sticky error of the
`bufio.Writer` `w` (its field `err`); the buffer of `w` is empty between two calls of
`write`, each of which ends with a `Flush` or leaves `werr` set, and the bytes that
`Client.Connect` left in it are not part of the model.  `trace` lists the events so far,
oldest first.  `ircHandler` is never nil, as `Client.Connect` guarantees. -/
structure Connection where
  config : Config
  channelHandler : List (Str × Handler)
  ircHandler : Handler
  sock : List (Option (Nat × Error))
  trace : List Event
  werr : Option Error := none

/-- Go `utf8.RuneLen` on a valid code point: the number of bytes of its UTF-8 encoding. -/
def RuneLen (r : Char) : Nat :=
  if r.toNat < 128 then 1
  else if r.toNat < 2048 then 2
  else if r.toNat < 65536 then 3
  else 4

/-- Go `len(s)` of a string: the number of its bytes. -/
def byteLen (s : Str) : Nat :=
  (s.map RuneLen).sum

/-- Go `bufio`: the size of the buffer that `bufio.NewWriter` allocates. -/
def defaultBufSize : Nat :=
  4096

/-- Go `conn.Write(p)` for `len(p) = len`: the number of bytes accepted, the error, and the
outcomes that are left. -/
def connWrite (sock : List (Option (Nat × Error))) (len : Nat) :
    Nat × Option Error × List (Option (Nat × Error)) :=
  match sock with
  | some (k, e) :: later => (min k len, some e, later)
  | none :: later => (len, none, later)
  | [] => (len, none, [])

/-- The `bufio.Writer` `c.w` with the socket under it, during one call of `write`: `n` bytes
are buffered (`b.n`), `err` is the sticky error (`b.err`), `sock` is the socket, and `sent`
counts the bytes that the socket has accepted during the call.  The buffered bytes are
always the next bytes of the line being written, so only their number is kept. -/
structure BufWriter where
  n : Nat
  err : Option Error
  sock : List (Option (Nat × Error))
  sent : Nat

/-- Go `bufio.Writer.Flush`.  The branch `n < b.n && err == nil` (short write) is covered by
the convention on `sock`. -/
def BufWriter.Flush (b : BufWriter) : BufWriter × Option Error :=
  match b.err with
  | some e => (b, some e)
  | none =>
    if b.n = 0 then (b, none)
    else
      match connWrite b.sock b.n with
      | (n, some e, later) =>
        ({ n := b.n - n, err := some e, sock := later, sent := b.sent + n }, some e)
      | (n, none, later) => ({ n := 0, err := none, sock := later, sent := b.sent + n }, none)

/-- The loop `for len(s) > b.Available() && b.err == nil` of `bufio.Writer.WriteString`, on
the number `len` of bytes of `s` that are left: fill the buffer (`copy` takes
`b.Available()` bytes), flush, go on with the rest.  The sockets of `Client.Connect`
(`*net.TCPConn`, `*tls.Conn`) have no `WriteString` method, so the loop never forwards the
string to the socket directly.  The first argument bounds the number of iterations; the
result is the writer and the number of bytes still to copy. -/
def BufWriter.writeLoop : Nat → BufWriter → Nat → BufWriter × Nat
  | 0, b, len => (b, len)
  | fuel + 1, b, len =>
    if len > defaultBufSize - b.n ∧ b.err = none then
      let n := defaultBufSize - b.n
      BufWriter.writeLoop fuel ({ b with n := b.n + n }).Flush.1 (len - n)
    else (b, len)

/-- Go `bufio.Writer.WriteString(s)` for `len(s) = len`.  The loop runs at most `len + 1`
times: once if the buffer is full, and then every iteration takes the whole buffer from
`s`. -/
def BufWriter.WriteString (b : BufWriter) (len : Nat) : BufWriter × Option Error :=
  match BufWriter.writeLoop (len + 1) b len with
  | (b, rest) =>
    match b.err with
    | some e => (b, some e)
    | none => ({ b with n := b.n + rest }, none)

/-- The event of one call of `write` for `line`, when the socket has accepted `sent` bytes
during the call. -/
def wireEvents (line : Str) (sent : Nat) : List Event :=
  if sent = 0 then []
  else if sent < byteLen line then [Event.wrotePart sent line]
  else [Event.wrote line]

/-- The context `fmt.Sprintf("connection.write: could not write message %s", message)` of the
error of `write` when `WriteString` fails. -/
def writeErrorContext (message : Str) : String :=
  "connection.write: could not write message " ++ String.mk message

/-- Go `Connection.Write` with `Connection.write` inlined: `WriteString` of the message and
CR LF into the buffered writer, then `Flush`; each of the two steps returns its error
wrapped with its own context. -/
def Connection.Write (c : Connection) (message : Str) : Connection × Option Error :=
  let line := message ++ ['\r', '\n']
  let b : BufWriter := { n := 0, err := c.werr, sock := c.sock, sent := 0 }
  match b.WriteString (byteLen line) with
  | (b, some err) =>
    ({ c with sock := b.sock, werr := b.err, trace := c.trace ++ wireEvents line b.sent },
      some (Error.wrap err (writeErrorContext message)))
  | (b, none) =>
    match b.Flush with
    | (b, some err) =>
      ({ c with sock := b.sock, werr := b.err, trace := c.trace ++ wireEvents line b.sent },
        some (Error.wrap err "connection.write: could not flush buffer"))
    | (b, none) =>
      ({ c with sock := b.sock, werr := b.err, trace := c.trace ++ wireEvents line b.sent },
        none)

/-- Go `Connection.sendPong`. -/
def Connection.sendPong (c : Connection) : Connection × Option Error :=
  c.Write "PONG :tmi.twitch.tv".toList

/-- Lines 84-103 of `handleLine`: routing of the parsed message.  `msg.Params[0]` is read
without a length check. -/
def Connection.route (c : Connection) (msg : Message) : Connection × Res Error Unit :=
  match msg.Params with
  | [] => (c, Res.panic)
  | p0 :: _ =>
    let stream := TrimPrefix p0 ['#']
    let r : Connection × Option Error :=
      if stream = "tmi.twitch.tv".toList ∨ msg.Command = "WHISPER".toList then
        ({ c with trace := c.trace ++ [Event.ircHandler msg] }, c.ircHandler msg)
      else (c, none)
    match r with
    | (c, some e) =>
      (c, Res.err (Error.wrap e
        "connection.handleLine: could not handle message with the provided irc handler"))
    | (c, none) =>
      match mapGet c.channelHandler stream with
      | some chatHandler =>
        let c := { c with trace := c.trace ++ [Event.channelHandler stream msg] }
        match chatHandler msg with
        | some e =>
          (c, Res.err (Error.wrap e
            "connection.handleLine: could not handle message with the provided chat handler"))
        | none => (c, Res.ok ())
      | none => (c, Res.ok ())

/-- Go `Connection.handleLine`. -/
def Connection.handleLine (up : Char → Char) (c : Connection) (line : Str) :
    Connection × Res Error Unit :=
  match parseMessage up line with
  | Res.panic => (c, Res.panic)
  | Res.err e =>
    (c, Res.err (Error.wrap (Error.parse e) "connection.handleLine: could not parse message"))
  | Res.ok msg =>
    if c.config.AutoPing ∧ msg.Command = "PING".toList then
      match c.sendPong with
      | (c, some e) => (c, Res.err e)
      | (c, none) => c.route msg
    else c.route msg

/-! ## twitch_parser.go: timestamps, badges and the typed messages -/

/-- Go `strconv.ParseInt(s, 10, 64)`: the value and whether the returned error is non-nil.
With a 64-bit `int` this is the computation of `strconv.Atoi`. -/
def ParseInt (s : Str) : Int × Bool :=
  Atoi s

/-- Go `strings.TrimLeft(s, cutset)`: drop every leading code point contained in `cutset`. -/
def TrimLeft (s cutset : Str) : Str :=
  s.dropWhile (fun c => decide (c ∈ cutset))

/-- Go `time.Time`, as far as this library produces it: the zero value `time.Time{}` and
`time.Unix(0, nsec)`, the instant `nsec` nanoseconds after the Unix epoch.  The two never
coincide: the zero value lies more than `2^63` nanoseconds before the epoch. -/
inductive Time where
  | zero
  | unix (nsec : Int)
  deriving DecidableEq

/-- Go `parseTime`.  The product `time64*1e6` is an `int64` product and wraps. -/
def parseTime (timeTag : Str) : Time :=
  if timeTag = [] then Time.zero
  else Time.unix (wrapInt ((ParseInt timeTag).1 * 1000000))

/-- The body of the loop of `parseBadges`, for the entry `badge`: `pair[1]` is read without a
length check (`none` is the panic), and the error of `strconv.Atoi` is dropped. -/
def parseBadgesStep (badges : List (Str × Int)) (badge : Str) : Option (List (Str × Int)) :=
  match SplitN2 badge ['/'] with
  | (_, none) => none
  | (name, some version) => some (mapSet badges name (Atoi version).1)

/-- The loop of `parseBadges` over the entries: it stops at the first entry that panics. -/
def parseBadgesLoop : List Str → List (Str × Int) → Option (List (Str × Int))
  | [], badges => some badges
  | badge :: rest, badges =>
    match parseBadgesStep badges badge with
    | none => none
    | some badges => parseBadgesLoop rest badges

/-- Go `parseBadges`; `none` is a panic. -/
def parseBadges (badgesTag : Str) : Option (List (Str × Int)) :=
  parseBadgesLoop (Split badgesTag ',') []

/-- Go `User`.  `Badges` is `none` for the nil map. -/
structure User where
  ID : Str
  DisplayName : Str
  Name : Str
  Color : Str
  Badges : Option (List (Str × Int))
  deriving DecidableEq

/-- Go `PrivateMessage`.  `Emotes` is `none` for the nil slice. -/
structure PrivateMessage where
  ID : Str
  RoomID : Str
  User : User
  Emotes : Option (List Emote)
  Text : Str
  Channel : Str
  Time : Time
  Raw : Message
  deriving DecidableEq

/-- Go `WhisperMessage`.  `Emotes` is `none` for the nil slice. -/
structure WhisperMessage where
  MessageID : Str
  ThreadID : Str
  User : User
  Emotes : Option (List Emote)
  Text : Str
  Raw : Message
  deriving DecidableEq

/-- Go `ClearChatMessage`. -/
structure ClearChatMessage where
  TargetUserID : Str
  RoomID : Str
  TargetUser : Str
  Time : Time
  BanDuration : Int
  Channel : Str
  Raw : Message
  deriving DecidableEq

/-- The value a field has after the guarded assignment `if v, ok := message.GetTag(key); ok`
then `field = v`: the tag, or the empty string the field started with. -/
def tagOrEmpty (message : Message) (key : Str) : Str :=
  match GetTag message.Tags key with
  | some v => v
  | none => []

/-- The block on the `badges` tag in `parsePrivateMessage` and `parseWhisper`: the outer
`none` is a panic of `parseBadges`, the inner `none` the nil map that is left when the tag
is absent or empty. -/
def decodeBadgesTag (message : Message) : Option (Option (List (Str × Int))) :=
  match GetTag message.Tags "badges".toList with
  | some badges =>
    if badges ≠ [] then
      match parseBadges badges with
      | none => none
      | some m => some (some m)
    else some none
  | none => some none

/-- The block on the `emotes` tag in `parsePrivateMessage` and `parseWhisper`: the outer
`none` is a panic (of `parseEmotes`, or of `message.Params[1]`), the inner `none` the nil
slice that is left when the tag is absent or empty. -/
def decodeEmotesTag (spare : Nat) (message : Message) : Option (Option (List Emote)) :=
  match GetTag message.Tags "emotes".toList with
  | some emotes =>
    if emotes ≠ [] then
      match message.Params with
      | _ :: text :: _ =>
        (match parseEmotes spare emotes text with
          | none => none
          | some es => some (some es))
      | _ => none
    else some none
  | none => some none

/-- The block on the `tmi-sent-ts` tag: the field keeps the zero `time.Time` when the tag is
absent. -/
def decodeTimeTag (message : Message) : Time :=
  match GetTag message.Tags "tmi-sent-ts".toList with
  | some t => parseTime t
  | none => Time.zero

/-- Go `parsePrivateMessage`; `spare` is the spare capacity of the rune slice made by
`parseEmotes`.  The error result is always nil. -/
def parsePrivateMessage (spare : Nat) (message : Message) : Res Error PrivateMessage :=
  match decodeBadgesTag message with
  | none => Res.panic
  | some badges =>
    match decodeEmotesTag spare message with
    | none => Res.panic
    | some emotes =>
      match message.Params with
      | p0 :: p1 :: _ =>
        Res.ok
          { ID := tagOrEmpty message "id".toList,
            RoomID := tagOrEmpty message "room-id".toList,
            User :=
              { ID := tagOrEmpty message "user-id".toList,
                DisplayName := tagOrEmpty message "display-name".toList,
                Name := message.Prefix.User,
                Color := tagOrEmpty message "color".toList,
                Badges := badges },
            Emotes := emotes,
            Text := p1,
            Channel := TrimPrefix p0 ['#'],
            Time := decodeTimeTag message,
            Raw := message }
      | _ => Res.panic

/-- Go `parseWhisper`.  The error result is always nil. -/
def parseWhisper (spare : Nat) (message : Message) : Res Error WhisperMessage :=
  match decodeBadgesTag message with
  | none => Res.panic
  | some badges =>
    match decodeEmotesTag spare message with
    | none => Res.panic
    | some emotes =>
      match message.Params with
      | _ :: p1 :: _ =>
        Res.ok
          { MessageID := tagOrEmpty message "message-id".toList,
            ThreadID := tagOrEmpty message "thread-id".toList,
            User :=
              { ID := tagOrEmpty message "user-id".toList,
                DisplayName := tagOrEmpty message "display-name".toList,
                Name := message.Prefix.User,
                Color := tagOrEmpty message "color".toList,
                Badges := badges },
            Emotes := emotes,
            Text := p1,
            Raw := message }
      | _ => Res.panic

/-- Go `parseClearChat`.  The error result is always nil, and nothing in it can panic. -/
def parseClearChat (message : Message) : Res Error ClearChatMessage :=
  let clearchatMessage : ClearChatMessage :=
    { TargetUserID := tagOrEmpty message "target-user-id".toList,
      RoomID := tagOrEmpty message "room-id".toList,
      TargetUser := [],
      Time := decodeTimeTag message,
      BanDuration :=
        (match GetTag message.Tags "ban-duration".toList with
          | some rawBanDuration => (Atoi rawBanDuration).1
          | none => 0),
      Channel := [],
      Raw := message }
  match message.Params with
  | p0 :: p1 :: _ =>
    Res.ok { clearchatMessage with Channel := TrimLeft p0 ['#'], TargetUser := p1 }
  | _ => Res.ok clearchatMessage

/-! ## connection.go: joining channels -/

/-- Go `strings.ToLower(s)`, over the rune map `low` (Go's `unicode.ToLower`). -/
def ToLower (low : Char → Char) (s : Str) : Str :=
  s.map low

/-- The ASCII part of `unicode.ToLower`: `A`..`Z` go to `a`..`z`, every other code point
is left alone.  Used wherever a concrete channel name is evaluated. -/
def asciiLower (c : Char) : Char :=
  if 65 ≤ c.toNat ∧ c.toNat ≤ 90 then Char.ofNat (c.toNat + 32) else c

/-- The context `fmt.Sprintf("connection.Join: could not join channel %s", channels)` of the
error of `Join`: Go prints a slice of strings between brackets, separated by spaces. -/
def joinErrorContext (channels : List Str) : String :=
  "connection.Join: could not join channel [" ++
    String.mk (List.intercalate [' '] channels) ++ "]"

/-- The loop of `Join` over the channels still to be joined; `channels` is the whole
argument, for the error message. -/
def joinLoop (low : Char → Char) (channels : List Str) (handler : Handler) :
    List Str → Connection → Connection × Option Error
  | [], c => (c, none)
  | ch :: rest, c =>
    let ch := ToLower low ch
    match mapGet c.channelHandler ch with
    | some _ => joinLoop low channels handler rest c
    | none =>
      let c := { c with channelHandler := mapSet c.channelHandler ch handler }
      match c.Write ("JOIN #".toList ++ ch) with
      | (c, some err) => (c, some (Error.wrap err (joinErrorContext channels)))
      | (c, none) => joinLoop low channels handler rest c

/-- Go `Connection.Join`.  A nil `handler` (`none`) is replaced by an empty
`ChannelHandler`, whose `HandleIRC` returns nil on every message. -/
def Connection.Join (low : Char → Char) (c : Connection) (channels : List Str)
    (handler : Option Handler) : Connection × Option Error :=
  let handler : Handler :=
    match handler with
    | some h => h
    | none => fun _ => none
  joinLoop low channels handler channels c

/-- Go `Connection.JoinOne`. -/
def Connection.JoinOne (low : Char → Char) (c : Connection) (channel : Str)
    (handler : Option Handler) : Connection × Option Error :=
  c.Join low [channel] handler

/-! ## connection.go: leaving channels and saying -/

/-- Go `delete(m, k)`: the map without the key `k`. -/
def mapDelete {α : Type} (m : List (Str × α)) (k : Str) : List (Str × α) :=
  m.filter (fun e => decide (e.1 ≠ k))

/-- The context `fmt.Sprintf("connection.Depart could not depart %s", channel)` of the error
of `Depart`. -/
def departErrorContext (channel : Str) : String :=
  "connection.Depart could not depart " ++ String.mk channel

/-- Go `Connection.Depart`: write the PART line, then delete the handler. -/
def Connection.Depart (low : Char → Char) (c : Connection) (channel : Str) :
    Connection × Option Error :=
  let channel := ToLower low channel
  match c.Write ("PART #".toList ++ channel) with
  | (c, some err) => (c, some (Error.wrap err (departErrorContext channel)))
  | (c, none) => ({ c with channelHandler := mapDelete c.channelHandler channel }, none)

/-- The loop `for v := range c.channelHandler` of `DepartAll` over the keys in the order in
which the range visits them.  The range runs over the live map: a key that an earlier
`Depart` has deleted before the range reaches it is not produced. -/
def departAllLoop (low : Char → Char) : List Str → Connection → Connection × Option Error
  | [], c => (c, none)
  | v :: rest, c =>
    match mapGet c.channelHandler v with
    | none => departAllLoop low rest c
    | some _ =>
      match c.Depart low v with
      | (c, some err) => (c, some err)
      | (c, none) => departAllLoop low rest c

/-- Go `Connection.DepartAll`.  Go leaves the iteration order of a map unspecified: `order`
is the order in which the range visits the keys of the registry. -/
def Connection.DepartAll (low : Char → Char) (order : List Str) (c : Connection) :
    Connection × Option Error :=
  departAllLoop low order c

/-- Go `Connection.Say`. -/
def Connection.Say (low : Char → Char) (c : Connection) (channel text : Str) :
    Connection × Option Error :=
  let channel := ToLower low channel
  c.Write ("PRIVMSG #".toList ++ channel ++ " :".toList ++ text)

/-! ## client.go: the capability request -/

/-- Go `strings.Join(elems, sep)`. -/
def Join (elems : List Str) (sep : Str) : Str :=
  List.intercalate sep elems

/-- Go `Client`. -/
structure Client where
  nick : Str
  pass : Str
  config : Config

/-- Go `NewClient`. -/
def NewClient (nick pass : Str) (conf : Config) : Client :=
  { nick := nick, pass := pass, config := conf }

/-- Go `NewAnonymousClient`. -/
def NewAnonymousClient (conf : Config) : Client :=
  { nick := "justinfan123123".toList, pass := "oauth:123123123".toList, config := conf }

/-- The `io.Writer` handed to `sendCaptures`, as the function sees it: `calls` lists the byte
strings passed to `Write` so far, oldest first, and `results` the errors that the calls to
come return (`none`: nil; after the list is used up every call returns nil). -/
structure Writer where
  results : List (Option Error)
  calls : List Str

/-- Go `w.Write(p)` on an `io.Writer`. -/
def Writer.Write (w : Writer) (p : Str) : Writer × Option Error :=
  match w.results with
  | r :: later => ({ results := later, calls := w.calls ++ [p] }, r)
  | [] => ({ w with calls := w.calls ++ [p] }, none)

/-- Go `Client.sendCaptures`. -/
def Client.sendCaptures (c : Client) (w : Writer) : Writer × Option Error :=
  let captures : List Str := []
  let captures :=
    if c.config.CaptureTags then captures ++ ["twitch.tv/tags".toList] else captures
  let captures :=
    if c.config.CaptureCommands then captures ++ ["twitch.tv/commands".toList] else captures
  let captures :=
    if c.config.CaptureMembership then captures ++ ["twitch.tv/membership".toList] else captures
  if captures.length > 0 then
    let captureString := Join captures [' ']
    let captureString := "CAP REQ :".toList ++ captureString ++ ['\r', '\n']
    match w.Write captureString with
    | (w, some err) => (w, some (Error.wrap err "client.sendCaptures: could not send captures"))
    | (w, none) => (w, none)
  else (w, none)

/-! ## Specification-side definitions

Definitions that follow the wording of the specification, or that build the inputs the
claims quantify over.  None of them is used by the embedding of the code above. -/

/-- The replacement the specification's unescape table gives for the character that follows
a backslash: `:` gives `;`, `s` a space, a backslash a backslash, `r` CR, `n` LF, anything
else itself. -/
def unescapeChar (c : Char) : Char :=
  if c = ':' then ';'
  else if c = 's' then ' '
  else if c = '\\' then '\\'
  else if c = 'r' then '\r'
  else if c = 'n' then '\n'
  else c

/-- The reference unescape of the specification as a left-to-right scan; `pending` tells
that the previous character was a backslash not yet consumed.  A pending backslash at the
end of the value is dropped. -/
def unescapeScan : Bool → Str → Str
  | _, [] => []
  | true, c :: cs => unescapeChar c :: unescapeScan false cs
  | false, c :: cs => if c = '\\' then unescapeScan true cs else c :: unescapeScan false cs

/-- The reference unescape of a tag value. -/
def unescapeRef (v : Str) : Str :=
  unescapeScan false v

/-- A prefix with three empty fields. -/
def emptyPrefix : Prefix :=
  { Name := [], User := [], Host := [] }

/-- The message that the line `PING :tmi.twitch.tv` parses to. -/
def pingMessage : Message :=
  { Tags := [], Prefix := { Name := [], User := [], Host := [] }, Command := "PING".toList,
    Params := ["tmi.twitch.tv".toList], Message := "PING :tmi.twitch.tv".toList }

/-- One entry of a tag block as it is written on the wire: `key=value`, or the key alone. -/
def renderTag (e : Str × Option Str) : Str :=
  match e.2 with
  | some v => e.1 ++ '=' :: v
  | none => e.1

/-- A tag block as it is written on the wire: the entries joined by `;`. -/
def renderTags (es : List (Str × Option Str)) : Str :=
  List.intercalate [';'] (es.map renderTag)

/-- The map entry the specification gives for a written tag entry: the key with the
unescaped value, or with the empty string when the entry has no `=`. -/
def tagEntry (e : Str × Option Str) : Str × Str :=
  match e.2 with
  | some v => (e.1, parseTagValue v)
  | none => (e.1, [])

/-- The message that the line `@a=1;b PING :tmi.twitch.tv` parses to. -/
def taggedPingMessage : Message :=
  { Tags := [("a".toList, "1".toList), ("b".toList, [])],
    Prefix := { Name := [], User := [], Host := [] }, Command := "PING".toList,
    Params := ["tmi.twitch.tv".toList], Message := "@a=1;b PING :tmi.twitch.tv".toList }

/-- Consuming a block: when `s` starts with `mark`, the block runs up to the first space,
and it and the separating space are taken off; otherwise `s` is left as it is. -/
def consumeBlock (mark : Char) (s : Str) : Str :=
  if s.head? = some mark then (s.dropWhile (fun c => decide (c ≠ ' '))).drop 1 else s

/-- The remainder of a line: the line without its trailing CR and LF, after the tag block
and then the prefix block are consumed. -/
def remainder (line : Str) : Str :=
  consumeBlock ':' (consumeBlock '@' (TrimRight line ['\r', '\n']))

/-- The field list of a line: the space-delimited tokens of the part of the remainder
before the first ` :`. -/
def fieldList (line : Str) : List Str :=
  FieldsFunc (SplitN2 (remainder line) [' ', ':']).1 (fun r => decide (r = ' '))

/-- The trailing parameter of a line: the part of the remainder after the first ` :`, when
there is one. -/
def trailingParameter (line : Str) : Option Str :=
  (SplitN2 (remainder line) [' ', ':']).2

/-- The message that the line `:nick!u@h privmsg  #chan extra :hello :world` parses to. -/
def lowerCaseCommandMessage : Message :=
  { Tags := [],
    Prefix := { Name := "nick".toList, User := "u".toList, Host := "h".toList },
    Command := "PRIVMSG".toList,
    Params := ["#chan".toList, "extra".toList, "hello :world".toList],
    Message := ":nick!u@h privmsg  #chan extra :hello :world".toList }

/-- The wire form `@T :P C p1 ... pn :t` of a line with tag block `T`, prefix `P`, command
token `C`, middle parameters `ps` and trailing text `t`. -/
def wireLine (T P C : Str) (ps : List Str) (t : Str) : Str :=
  "@".toList ++ T ++ " :".toList ++ P ++ " ".toList ++ C ++
    (ps.map (fun p => " ".toList ++ p)).flatten ++ " :".toList ++ t

/-- A decimal numeral: a non-empty text of ASCII digits. -/
def isDecimal (s : Str) : Prop :=
  s ≠ [] ∧ ∀ c ∈ s, 48 ≤ c.toNat ∧ c.toNat ≤ 57

instance (s : Str) : Decidable (isDecimal s) := by
  unfold isDecimal
  exact inferInstance

/-- The integer a decimal numeral denotes. -/
def decimalValue (s : Str) : Nat :=
  s.foldl (fun n c => n * 10 + (c.toNat - 48)) 0

/-- One group `id:s1-e1,s2-e2,...,sk-ek` of an emotes tag: the id, the first range and the
other ranges, each bound as it is written. -/
structure EmoteGroup where
  id : Str
  first : Str × Str
  more : List (Str × Str)

/-- A range as written: `start-end`. -/
def renderRange (r : Str × Str) : Str :=
  r.1 ++ '-' :: r.2

/-- A group as written: the id, a colon, the ranges joined by commas. -/
def renderGroup (g : EmoteGroup) : Str :=
  g.id ++ ':' :: List.intercalate [','] ((g.first :: g.more).map renderRange)

/-- An emotes tag as written: the groups joined by `/`. -/
def renderEmotes (gs : List EmoteGroup) : Str :=
  List.intercalate ['/'] (gs.map renderGroup)

/-- The emote the specification gives for a group: the code points of the text from the
first start through the first end inclusive, the id, and the number of ranges. -/
def expectedEmote (message : Str) (g : EmoteGroup) : Emote :=
  { Name := (message.take (decimalValue g.first.2 + 1)).drop (decimalValue g.first.1),
    ID := g.id,
    Count := (g.more.length : Int) + 1 }

/-- The groups of the emotes tag `302213289:0-11,27-38/302242139:13-25`. -/
def pickleGroups : List EmoteGroup :=
  [{ id := "302213289".toList, first := ("0".toList, "11".toList),
     more := [("27".toList, "38".toList)] },
   { id := "302242139".toList, first := ("13".toList, "25".toList), more := [] }]

/-- The message that the whisper line `:bar!bar@bar.tmi.twitch.tv WHISPER foo :hi` parses to. -/
def whisperMessage : Message :=
  { Tags := [],
    Prefix := { Name := "bar".toList, User := "bar".toList, Host := "bar.tmi.twitch.tv".toList },
    Command := "WHISPER".toList, Params := ["foo".toList, "hi".toList],
    Message := ":bar!bar@bar.tmi.twitch.tv WHISPER foo :hi".toList }

/-- A connection on which the channel `foo` is joined; both its channel handler and its
generic handler accept every message. -/
def fooConnection : Connection :=
  { config := { UseTLS := false, AutoPing := false, CaptureTags := false,
                CaptureCommands := false, CaptureMembership := false },
    channelHandler := [("foo".toList, fun _ => none)],
    ircHandler := fun _ => none,
    sock := [],
    trace := [] }

/-- An ASCII digit. -/
def isDigitChar (c : Char) : Bool :=
  decide (48 ≤ c.toNat ∧ c.toNat ≤ 57)

/-- A text without its leading sign, if it has one. -/
def unsignedPart (s : Str) : Str :=
  match s with
  | [] => []
  | c :: r => if c = '+' ∨ c = '-' then r else c :: r

/-- Whether a text starts with a minus sign. -/
def isNegative (s : Str) : Bool :=
  match s with
  | [] => false
  | c :: _ => decide (c = '-')

/-- A decimal integer as written: an optional sign and a decimal numeral. -/
def isInteger (s : Str) : Prop :=
  isDecimal (unsignedPart s)

instance (s : Str) : Decidable (isInteger s) := by
  unfold isInteger
  exact inferInstance

/-- The integer a written decimal integer denotes. -/
def integerValue (s : Str) : Int :=
  if isNegative s then -(decimalValue (unsignedPart s) : Int) else (decimalValue (unsignedPart s) : Int)

/-- The nearest value of a 64-bit Go `int`. -/
def nearestInt (i : Int) : Int :=
  if i < -(2 ^ 63) then -(2 ^ 63) else if i > 2 ^ 63 - 1 then 2 ^ 63 - 1 else i

/-- The digits a text has between its optional sign and its first other character. -/
def leadingDigits (s : Str) : Str :=
  (unsignedPart s).takeWhile isDigitChar

/-- What a tag integer decodes to when the error of `strconv.Atoi` is dropped: a written
decimal integer gives its value, or the nearest bound of `int` when the value does not fit;
a text that is not a decimal integer gives 0, unless its leading digits already exceed 64
bits, in which case it gives the bound of `int` on the side of its sign. -/
def decodeInt (s : Str) : Int :=
  if isInteger s then nearestInt (integerValue s)
  else if decimalValue (leadingDigits s) ≥ 2 ^ 64 then
    (if isNegative s then -(2 ^ 63) else 2 ^ 63 - 1)
  else 0

/-- One badge as written in the badges tag: `name/version`. -/
def renderBadge (e : Str × Str) : Str :=
  e.1 ++ '/' :: e.2

/-- A badges tag as written: the badges joined by commas. -/
def renderBadges (es : List (Str × Str)) : Str :=
  List.intercalate [','] (es.map renderBadge)

/-- The message that the line of the repository's test constant `timeout` parses to. -/
def timeoutMessage : Message :=
  { Tags := [("ban-duration".toList, "10".toList), ("room-id".toList, "530594933".toList),
             ("target-user-id".toList, "12427".toList),
             ("tmi-sent-ts".toList, "1591726290782".toList)],
    Prefix := { Name := "tmi.twitch.tv".toList, User := [], Host := [] },
    Command := "CLEARCHAT".toList,
    Params := ["#julezdev".toList, "test".toList],
    Message := ("@ban-duration=10;room-id=530594933;target-user-id=12427;" ++
      "tmi-sent-ts=1591726290782 :tmi.twitch.tv CLEARCHAT #julezdev :test").toList }

/-- A CLEARCHAT message whose ban duration is written with twenty digits. -/
def largeBanMessage : Message :=
  { Tags := [("ban-duration".toList, "99999999999999999999".toList)],
    Prefix := { Name := "tmi.twitch.tv".toList, User := [], Host := [] },
    Command := "CLEARCHAT".toList,
    Params := ["#julezdev".toList, "test".toList],
    Message := "@ban-duration=99999999999999999999 :tmi.twitch.tv CLEARCHAT #julezdev :test".toList }

/-- The message that the full-channel clear `:tmi.twitch.tv CLEARCHAT #julezdev` parses to. -/
def fullClearMessage : Message :=
  { Tags := [],
    Prefix := { Name := "tmi.twitch.tv".toList, User := [], Host := [] },
    Command := "CLEARCHAT".toList,
    Params := ["#julezdev".toList],
    Message := ":tmi.twitch.tv CLEARCHAT #julezdev".toList }

/-- The badges field decoded from a message: `b` is the nil map when the `badges` tag is
absent or empty, and otherwise the map that `parseBadges` returns on the tag; there is no
such `b` when `parseBadges` panics on the tag. -/
def badgesResult (message : Message) (b : Option (List (Str × Int))) : Prop :=
  (tagOrEmpty message "badges".toList = [] ∧ b = none) ∨
    (tagOrEmpty message "badges".toList ≠ [] ∧
      ∃ m, parseBadges (tagOrEmpty message "badges".toList) = some m ∧ b = some m)

/-- The emotes field decoded from a message with text `text`: `e` is the nil slice when the
`emotes` tag is absent or empty, and otherwise the emotes that `parseEmotes` returns on the
tag and the text; there is no such `e` when `parseEmotes` panics on them. -/
def emotesResult (spare : Nat) (message : Message) (text : Str) (e : Option (List Emote)) : Prop :=
  (tagOrEmpty message "emotes".toList = [] ∧ e = none) ∨
    (tagOrEmpty message "emotes".toList ≠ [] ∧
      ∃ es, parseEmotes spare (tagOrEmpty message "emotes".toList) text = some es ∧ e = some es)

/-- The message that the line of the repository's test constant `privEmote` parses to. -/
def privEmoteMessage : Message :=
  { Tags := [("badge-info".toList, []), ("badges".toList, "broadcaster/1".toList),
             ("client-nonce".toList, "ca3248e0c8cae6f2dcf913ceed1bc6be".toList),
             ("color".toList, "#FFFFFF".toList), ("display-name".toList, "julezdev".toList),
             ("emotes".toList, "302213289:0-11,27-38/302242139:13-25".toList),
             ("flags".toList, []),
             ("id".toList, "5bb550d4-bd15-4a96-9de2-c0298b2d01a9".toList),
             ("mod".toList, "0".toList), ("room-id".toList, "530594933".toList),
             ("subscriber".toList, "0".toList),
             ("tmi-sent-ts".toList, "1591719487292".toList), ("turbo".toList, "0".toList),
             ("user-id".toList, "530594933".toList), ("user-type".toList, [])],
    Prefix := { Name := "julezdev".toList, User := "julezdev".toList,
                Host := "julezdev.tmi.twitch.tv".toList },
    Command := "PRIVMSG".toList,
    Params := ["#julezdev".toList, "ratirlPickle ratirlPopcorn ratirlPickle test test".toList],
    Message := ("@badge-info=;badges=broadcaster/1;" ++
      "client-nonce=ca3248e0c8cae6f2dcf913ceed1bc6be;color=#FFFFFF;display-name=julezdev;" ++
      "emotes=302213289:0-11,27-38/302242139:13-25;flags=;" ++
      "id=5bb550d4-bd15-4a96-9de2-c0298b2d01a9;mod=0;room-id=530594933;subscriber=0;" ++
      "tmi-sent-ts=1591719487292;turbo=0;user-id=530594933;user-type= " ++
      ":julezdev!julezdev@julezdev.tmi.twitch.tv PRIVMSG #julezdev " ++
      ":ratirlPickle ratirlPopcorn ratirlPickle test test").toList }

/-- A PRIVMSG whose badges tag `x` has no `/`. -/
def badBadgesMessage : Message :=
  { Tags := [("badges".toList, "x".toList)],
    Prefix := { Name := "a".toList, User := "b".toList, Host := "c".toList },
    Command := "PRIVMSG".toList,
    Params := ["#chan".toList, "hi".toList],
    Message := "@badges=x :a!b@c PRIVMSG #chan :hi".toList }

/-- The message that the line of the repository's test constant `whisperEmote` parses to:
a whisper with an empty badges tag. -/
def whisperEmoteMessage : Message :=
  { Tags := [("badges".toList, []), ("color".toList, "#FFFFFF".toList),
             ("display-name".toList, "shaymin_fakezz".toList),
             ("emotes".toList, "302213289:0-11".toList), ("message-id".toList, "7".toList),
             ("thread-id".toList, "61083508_530594933".toList), ("turbo".toList, "0".toList),
             ("user-id".toList, "61083508".toList), ("user-type".toList, [])],
    Prefix := { Name := "shaymin_fakezz".toList, User := "shaymin_fakezz".toList,
                Host := "shaymin_fakezz.tmi.twitch.tv".toList },
    Command := "WHISPER".toList,
    Params := ["julezdev".toList, "ratirlPickle test".toList],
    Message := ("@badges=;color=#FFFFFF;display-name=shaymin_fakezz;emotes=302213289:0-11;" ++
      "message-id=7;thread-id=61083508_530594933;turbo=0;user-id=61083508;user-type= " ++
      ":shaymin_fakezz!shaymin_fakezz@shaymin_fakezz.tmi.twitch.tv WHISPER julezdev " ++
      ":ratirlPickle test").toList }

/-- A whisper without a badges tag whose emotes tag `x` has no `:`. -/
def badEmotesWhisper : Message :=
  { Tags := [("emotes".toList, "x".toList)],
    Prefix := { Name := "a".toList, User := "b".toList, Host := "c".toList },
    Command := "WHISPER".toList,
    Params := ["julezdev".toList, "hi".toList],
    Message := "@emotes=x :a!b@c WHISPER julezdev :hi".toList }

/-- The PrivateMessage the specification describes for a message with first parameter `p0`
and second parameter `p1`, given the decoded badges `b` and emotes `e`. -/
def expectedPrivateMessage (message : Message) (p0 p1 : Str) (b : Option (List (Str × Int)))
    (e : Option (List Emote)) : PrivateMessage :=
  { ID := tagOrEmpty message "id".toList,
    RoomID := tagOrEmpty message "room-id".toList,
    User := { ID := tagOrEmpty message "user-id".toList,
              DisplayName := tagOrEmpty message "display-name".toList,
              Name := message.Prefix.User,
              Color := tagOrEmpty message "color".toList,
              Badges := b },
    Emotes := e,
    Text := p1,
    Channel := TrimPrefix p0 ['#'],
    Time := parseTime (tagOrEmpty message "tmi-sent-ts".toList),
    Raw := message }

/-- The WhisperMessage the specification describes for a message with second parameter
`p1`, given the decoded badges `b` and emotes `e`: Text is the second parameter, MessageID
and ThreadID are the tags `message-id` and `thread-id`, User.Name is the user of the
prefix. -/
def expectedWhisperMessage (message : Message) (p1 : Str) (b : Option (List (Str × Int)))
    (e : Option (List Emote)) : WhisperMessage :=
  { MessageID := tagOrEmpty message "message-id".toList,
    ThreadID := tagOrEmpty message "thread-id".toList,
    User := { ID := tagOrEmpty message "user-id".toList,
              DisplayName := tagOrEmpty message "display-name".toList,
              Name := message.Prefix.User,
              Color := tagOrEmpty message "color".toList,
              Badges := b },
    Emotes := e,
    Text := p1,
    Raw := message }

/-- A tag that is absent or has the empty value. -/
def tagAbsentOrEmpty (message : Message) (key : Str) : Prop :=
  GetTag message.Tags key = none ∨ GetTag message.Tags key = some []

/-- The bytes of the automatic reply to a PING. -/
def pongBytes : Str :=
  "PONG :tmi.twitch.tv\r\n".toList

/-- An automatic PONG is due for a parsed message: AutoPing is on and the command is PING. -/
def pongDue (c : Connection) (msg : Message) : Prop :=
  c.config.AutoPing = true ∧ msg.Command = "PING".toList

instance (c : Connection) (msg : Message) : Decidable (pongDue c msg) := by
  unfold pongDue
  exact inferInstance

/-- The next write of a line that fits the buffer fails: the writer has failed before, or the
socket refuses the next call. -/
def nextWriteFails (c : Connection) : Prop :=
  c.werr ≠ none ∨ ∃ f later, c.sock = some f :: later

/-- The number of calls of `conn.Write` that a successful `write` of `line` makes: one for
each full buffer and one for the rest. -/
def connWrites (line : Str) : Nat :=
  (byteLen line - 1) / defaultBufSize + 1

/-- The write of `message` succeeds: the writer has not failed before and the socket accepts
each of the calls that the write makes. -/
def writeSucceeds (c : Connection) (message : Str) : Prop :=
  c.werr = none ∧ ∀ o ∈ c.sock.take (connWrites (message ++ ['\r', '\n'])), o = none

instance (c : Connection) (message : Str) : Decidable (writeSucceeds c message) := by
  unfold writeSucceeds
  exact inferInstance

/-- The events of the automatic PONG when it is written successfully. -/
def pongEvents (c : Connection) (msg : Message) : List Event :=
  if pongDue c msg then [Event.wrote pongBytes] else []

/-- The writes of a trace, oldest first: its events without the handler invocations. -/
def writesOf : List Event → List Event
  | [] => []
  | Event.wrote b :: t => Event.wrote b :: writesOf t
  | Event.wrotePart n l :: t => Event.wrotePart n l :: writesOf t
  | _ :: t => writesOf t

/-- The routing key of a parameter: the parameter without one leading `#`. -/
def routingKey (p0 : Str) : Str :=
  TrimPrefix p0 ['#']

/-- A connection with automatic PONG whose socket refuses the next write, and on which the
channel `foo` is joined. -/
def brokenSocketConnection : Connection :=
  { config := { UseTLS := false, AutoPing := true, CaptureTags := false,
                CaptureCommands := false, CaptureMembership := false },
    channelHandler := [("foo".toList, fun _ => none)],
    ircHandler := fun _ => none,
    sock := [some (0, Error.external "write: broken pipe")],
    trace := [] }

/-- A connection with automatic PONG whose buffered writer has failed before: an earlier
write was refused by the socket with `write: broken pipe`. -/
def failedWriterConnection : Connection :=
  { config := { UseTLS := false, AutoPing := true, CaptureTags := false,
                CaptureCommands := false, CaptureMembership := false },
    channelHandler := [("foo".toList, fun _ => none)],
    ircHandler := fun _ => none,
    sock := [],
    trace := [],
    werr := some (Error.external "write: broken pipe") }

/-- The message that the line `PING #foo` parses to. -/
def channelPingMessage : Message :=
  { Tags := [], Prefix := { Name := [], User := [], Host := [] }, Command := "PING".toList,
    Params := ["#foo".toList], Message := "PING #foo".toList }

/-- The message that the line `:bar!bar@bar.tmi.twitch.tv PRIVMSG #foo :hi` parses to. -/
def fooPrivmsg : Message :=
  { Tags := [],
    Prefix := { Name := "bar".toList, User := "bar".toList, Host := "bar.tmi.twitch.tv".toList },
    Command := "PRIVMSG".toList, Params := ["#foo".toList, "hi".toList],
    Message := ":bar!bar@bar.tmi.twitch.tv PRIVMSG #foo :hi".toList }

/-- A connection with automatic PONG and a working socket, with no channel joined. -/
def autoPingConnection : Connection :=
  { config := { UseTLS := false, AutoPing := true, CaptureTags := false,
                CaptureCommands := false, CaptureMembership := false },
    channelHandler := [],
    ircHandler := fun _ => none,
    sock := [],
    trace := [] }

/-- A connection on which the channel `foo` is joined with a handler that fails on every
message with the error `must fail`. -/
def failingHandlerConnection : Connection :=
  { config := { UseTLS := false, AutoPing := false, CaptureTags := false,
                CaptureCommands := false, CaptureMembership := false },
    channelHandler := [("foo".toList, fun _ => some (Error.external "must fail"))],
    ircHandler := fun _ => none,
    sock := [],
    trace := [] }

/-- A fresh connection, as `Client.Connect` returns it: no channel joined, empty generic
handler, working socket. -/
def freshConnection : Connection :=
  { config := { UseTLS := false, AutoPing := false, CaptureTags := false,
                CaptureCommands := false, CaptureMembership := false },
    channelHandler := [],
    ircHandler := fun _ => none,
    sock := [],
    trace := [] }

/-- The message that the line `PRIVMSG #Foo :x` parses to. -/
def mixedCasePrivmsg : Message :=
  { Tags := [], Prefix := { Name := [], User := [], Host := [] }, Command := "PRIVMSG".toList,
    Params := ["#Foo".toList, "x".toList], Message := "PRIVMSG #Foo :x".toList }

/-- The message that the line `PRIVMSG #foo :x` parses to. -/
def lowerCasePrivmsg : Message :=
  { Tags := [], Prefix := { Name := [], User := [], Host := [] }, Command := "PRIVMSG".toList,
    Params := ["#foo".toList, "x".toList], Message := "PRIVMSG #foo :x".toList }

/-- The names of the enabled capability extensions, in the fixed order tags, commands,
membership. -/
def enabledExtensions (tags commands membership : Bool) : List Str :=
  ([(tags, "twitch.tv/tags".toList), (commands, "twitch.tv/commands".toList),
    (membership, "twitch.tv/membership".toList)].filter (fun e => e.1)).map (fun e => e.2)

/-- The lines of the capability request: none when no extension is enabled, otherwise the one
line `CAP REQ :` followed by the enabled names joined by single spaces and CR LF. -/
def captureRequest (tags commands membership : Bool) : List Str :=
  if tags || commands || membership then
    ["CAP REQ :".toList ++ List.intercalate " ".toList (enabledExtensions tags commands membership)
      ++ "\r\n".toList]
  else []

/-- A configuration with the three capture flags as given and the other flags off. -/
def captureConfig (tags commands membership : Bool) : Config :=
  { UseTLS := false, AutoPing := false, CaptureTags := tags, CaptureCommands := commands,
    CaptureMembership := membership }

/-- A writer that accepts every write and has not been written to. -/
def emptyWriter : Writer :=
  { results := [], calls := [] }

/-- Every write to the socket that is still to come succeeds: the writer has not failed
before and the socket accepts every call. -/
def allWritesSucceed (c : Connection) : Prop :=
  c.werr = none ∧ ∀ o ∈ c.sock, o = none

instance (c : Connection) : Decidable (allWritesSucceed c) := by
  unfold allWritesSucceed
  exact inferInstance

/-- The handler `Join` registers: the one given, or the empty `ChannelHandler` for nil. -/
def handlerOrDefault (handler : Option Handler) : Handler :=
  match handler with
  | some h => h
  | none => fun _ => none

/-- The bytes of the line that joins the channel with key `k`. -/
def joinLine (k : Str) : Str :=
  ("JOIN #".toList ++ k) ++ ['\r', '\n']

/-- The bytes of the line that leaves the channel with key `k`. -/
def partLine (k : Str) : Str :=
  ("PART #".toList ++ k) ++ ['\r', '\n']

/-- The number of calls of `conn.Write` that successful writes of the lines `lines` make. -/
def connWritesOf (lines : List Str) : Nat :=
  (lines.map connWrites).sum

/-- The writes of the lines `lines`, one after the other, all succeed: the writer has not
failed before, unless there is no line to write, and the socket accepts each of the calls
that the writes make. -/
def writesSucceed (c : Connection) (lines : List Str) : Prop :=
  (lines ≠ [] → c.werr = none) ∧ ∀ o ∈ c.sock.take (connWritesOf lines), o = none

instance (c : Connection) (lines : List Str) : Decidable (writesSucceed c lines) := by
  unfold writesSucceed
  exact inferInstance

/-- The keys a call of `Join` adds to a registry with the keys `keys`, in the order in which
it adds them: going through the names in list order, the lower-casing of each name that is
not yet a key. -/
def joinedKeys (low : Char → Char) (keys : List Str) : List Str → List Str
  | [] => []
  | name :: rest =>
    if ToLower low name ∈ keys then joinedKeys low keys rest
    else ToLower low name :: joinedKeys low (keys ++ [ToLower low name]) rest

/-- A handler that accepts every message. -/
def firstHandler : Handler :=
  fun _ => none

/-- A handler that fails on every message. -/
def secondHandler : Handler :=
  fun _ => some (Error.external "second handler")

/-- A fresh connection whose socket accepts one write and refuses the next. -/
def secondWriteFailsConnection : Connection :=
  { config := { UseTLS := false, AutoPing := false, CaptureTags := false,
                CaptureCommands := false, CaptureMembership := false },
    channelHandler := [],
    ircHandler := fun _ => none,
    sock := [none, some (0, Error.external "write: broken pipe")],
    trace := [] }

/-- A connection on which the channels `foo` and `bar` are joined, with a working socket. -/
def twoChannelConnection : Connection :=
  { config := { UseTLS := false, AutoPing := false, CaptureTags := false,
                CaptureCommands := false, CaptureMembership := false },
    channelHandler := [("foo".toList, firstHandler), ("bar".toList, firstHandler)],
    ircHandler := fun _ => none,
    sock := [],
    trace := [] }

/-- A connection on which the channels `foo` and `bar` are joined and whose socket accepts
one write and refuses the next. -/
def twoChannelBrokenConnection : Connection :=
  { config := { UseTLS := false, AutoPing := false, CaptureTags := false,
                CaptureCommands := false, CaptureMembership := false },
    channelHandler := [("foo".toList, firstHandler), ("bar".toList, firstHandler)],
    ircHandler := fun _ => none,
    sock := [none, some (0, Error.external "write: broken pipe")],
    trace := [] }

/-- The bytes of the line that says `text` in the channel with the lower-cased name `lc`. -/
def sayBytes (lc text : Str) : Str :=
  ("PRIVMSG #".toList ++ lc ++ " :".toList ++ text) ++ ['\r', '\n']

/-- The Message that the line of `sayBytes` parses to. -/
def sayMessage (lc text : Str) : Message :=
  { Tags := [], Prefix := { Name := [], User := [], Host := [] }, Command := "PRIVMSG".toList,
    Params := ['#' :: lc, text], Message := "PRIVMSG #".toList ++ lc ++ " :".toList ++ text }

/-- The PrivateMessage decoded from the Message of `sayMessage`: channel and text, no tag. -/
def sayPrivateMessage (lc text : Str) : PrivateMessage :=
  { ID := [], RoomID := [],
    User := { ID := [], DisplayName := [], Name := [], Color := [], Badges := none },
    Emotes := none, Text := text, Channel := lc, Time := Time.zero,
    Raw := sayMessage lc text }

/-! ## Lemmas on the string functions -/

theorem SplitN2_char_none (a : Str) (x : Char) (h : x ∉ a) : SplitN2 a [x] = (a, none) := by
  induction a with
  | nil => rfl
  | cons c cs ih =>
    simp only [List.mem_cons, not_or] at h
    simp [SplitN2, List.isPrefixOf, ih h.2, Ne.symm h.1]
    exact h.1

theorem SplitN2_char_append (a b : Str) (x : Char) (h : x ∉ a) :
    SplitN2 (a ++ x :: b) [x] = (a, some b) := by
  induction a with
  | nil => simp [SplitN2, List.isPrefixOf]
  | cons c cs ih =>
    simp only [List.mem_cons, not_or] at h
    simp [SplitN2, List.isPrefixOf, ih h.2, Ne.symm h.1]
    exact h.1

theorem SplitN2_token (tok rest : Str) (h : ' ' ∉ tok) :
    SplitN2 (tok ++ rest) [' ', ':'] =
      (tok ++ (SplitN2 rest [' ', ':']).1, (SplitN2 rest [' ', ':']).2) := by
  induction tok with
  | nil => simp
  | cons c cs ih =>
    simp only [List.mem_cons, not_or] at h
    simp [SplitN2, List.isPrefixOf, ih h.2, Ne.symm h.1]
    intro e
    exact absurd e h.1

theorem SplitN2_space (c : Char) (rest : Str) (h : c ≠ ':') :
    SplitN2 (' ' :: c :: rest) [' ', ':'] =
      (' ' :: (SplitN2 (c :: rest) [' ', ':']).1, (SplitN2 (c :: rest) [' ', ':']).2) := by
  rw [SplitN2]
  simp [List.isPrefixOf, Ne.symm h]

theorem Index_none (s : Str) (x : Char) (h : x ∉ s) : Index s x = none := by
  induction s with
  | nil => rfl
  | cons c cs ih =>
    simp only [List.mem_cons, not_or] at h
    simp [Index, ih h.2, Ne.symm h.1]

theorem Index_append (a b : Str) (x : Char) (h : x ∉ a) :
    Index (a ++ x :: b) x = some a.length := by
  induction a with
  | nil => simp [Index]
  | cons c cs ih =>
    simp only [List.mem_cons, not_or] at h
    simp [Index, ih h.2, Ne.symm h.1]

theorem Index_some (s : Str) (x : Char) (loc : Nat) (h : Index s x = some loc) :
    ∃ a b, s = a ++ x :: b ∧ x ∉ a ∧ loc = a.length := by
  induction s generalizing loc with
  | nil => simp [Index] at h
  | cons c cs ih =>
    by_cases hc : c = x
    · subst hc
      simp [Index] at h
      exact ⟨[], cs, rfl, by simp, by simp [← h]⟩
    · simp only [Index, hc, if_false, Option.map_eq_some'] at h
      obtain ⟨k, hk, rfl⟩ := h
      obtain ⟨a, b, rfl, hx, rfl⟩ := ih k hk
      exact ⟨c :: a, b, rfl, by simp [hx, Ne.symm hc], rfl⟩

theorem Index_eq_none (s : Str) (x : Char) (h : Index s x = none) : x ∉ s := by
  induction s with
  | nil => simp
  | cons c cs ih =>
    by_cases hc : c = x
    · simp [Index, hc] at h
    · simp only [Index, hc, if_false, Option.map_eq_none'] at h
      simp [ih h, Ne.symm hc]

theorem splitAt_ne_nil (f : Char → Bool) (s : Str) : splitAt f s ≠ [] := by
  induction s with
  | nil => simp [splitAt]
  | cons c cs ih =>
    unfold splitAt
    split
    · simp
    · split <;> simp

theorem splitAt_no_sep (f : Char → Bool) (a : Str) (h : ∀ c ∈ a, f c = false) :
    splitAt f a = [a] := by
  induction a with
  | nil => rfl
  | cons c cs ih =>
    simp only [List.mem_cons, forall_eq_or_imp] at h
    simp [splitAt, h.1, ih h.2]

theorem splitAt_append_sep (f : Char → Bool) (a b : Str) (x : Char)
    (h : ∀ c ∈ a, f c = false) (hx : f x = true) :
    splitAt f (a ++ x :: b) = a :: splitAt f b := by
  induction a with
  | nil => simp [splitAt, hx]
  | cons c cs ih =>
    simp only [List.mem_cons, forall_eq_or_imp] at h
    simp [splitAt, h.1, ih h.2]

theorem mem_splitAt (f : Char → Bool) (s p : Str) (hp : p ∈ splitAt f s) :
    ∀ c ∈ p, f c = false := by
  induction s generalizing p with
  | nil => simp [splitAt] at hp; simp [hp]
  | cons c cs ih =>
    unfold splitAt at hp
    by_cases hc : f c = true
    · simp only [hc, if_true, List.mem_cons] at hp
      rcases hp with rfl | hp
      · simp
      · exact ih p hp
    · simp only [hc] at hp
      cases hs : splitAt f cs with
      | nil => exact absurd hs (splitAt_ne_nil f cs)
      | cons q qs =>
        rw [hs] at hp
        simp only [Bool.false_eq_true, if_false, List.mem_cons] at hp
        rcases hp with rfl | hp
        · intro d hd
          simp only [List.mem_cons] at hd
          rcases hd with rfl | hd
          · simpa using hc
          · exact ih q (by simp [hs]) d hd
        · exact ih p (by simp [hs, hp])

theorem splitAt_intercalate (f : Char → Bool) (x : Char) (hx : f x = true)
    (pieces : List Str) (hne : pieces ≠ []) (h : ∀ p ∈ pieces, ∀ c ∈ p, f c = false) :
    splitAt f (List.intercalate [x] pieces) = pieces := by
  induction pieces with
  | nil => exact absurd rfl hne
  | cons p ps ih =>
    cases ps with
    | nil =>
      simp [List.intercalate, List.intersperse, List.flatten]
      exact splitAt_no_sep f p (h p (by simp))
    | cons q qs =>
      have hq := ih (by simp) (fun r hr => h r (by simp [hr]))
      have : List.intercalate [x] (p :: q :: qs) = p ++ x :: List.intercalate [x] (q :: qs) := by
        simp [List.intercalate, List.intersperse, List.flatten]
      rw [this, splitAt_append_sep f p _ x (h p (by simp)) hx, hq]

theorem splitAt_tokens (f : Char → Bool) (x : Char) (hx : f x = true) (C : Str) (ps : List Str)
    (hC : ∀ c ∈ C, f c = false) (hps : ∀ p ∈ ps, ∀ c ∈ p, f c = false) :
    splitAt f (C ++ (ps.map (fun p => x :: p)).flatten) = C :: ps := by
  induction ps generalizing C with
  | nil => simpa using splitAt_no_sep f C hC
  | cons p ps ih =>
    have e : C ++ (List.map (fun p => x :: p) (p :: ps)).flatten =
        C ++ x :: (p ++ (List.map (fun p => x :: p) ps).flatten) := by simp
    rw [e, splitAt_append_sep f C _ x hC hx, ih p (hps p (by simp)) (fun q hq => hps q (by simp [hq]))]

theorem mem_FieldsFunc (s : Str) (f : Char → Bool) (p : Str) (hp : p ∈ FieldsFunc s f) :
    p ≠ [] ∧ ∀ c ∈ p, f c = false := by
  simp only [FieldsFunc, List.mem_filter] at hp
  refine ⟨?_, mem_splitAt f s p hp.1⟩
  intro e
  simp [e] at hp

theorem FieldsFunc_tokens (C : Str) (ps : List Str) (hC : C ≠ [] ∧ ' ' ∉ C)
    (hps : ∀ p ∈ ps, p ≠ [] ∧ ' ' ∉ p) :
    FieldsFunc (C ++ (ps.map (fun p => ' ' :: p)).flatten) (fun r => decide (r = ' ')) =
      C :: ps := by
  unfold FieldsFunc
  rw [splitAt_tokens _ ' ' (by simp) C ps]
  · rw [List.filter_eq_self]
    intro p hp
    simp only [List.mem_cons] at hp
    rcases hp with rfl | hp
    · simpa using hC.1
    · simpa using (hps p hp).1
  · intro c hc
    simp only [decide_eq_false_iff_not]
    intro e
    exact hC.2 (e ▸ hc)
  · intro p hp c hc
    simp only [decide_eq_false_iff_not]
    intro e
    exact (hps p hp).2 (e ▸ hc)

theorem TrimRight_isPrefix (s cs : Str) : ∃ r, s = TrimRight s cs ++ r := by
  obtain ⟨r, hr⟩ := List.rdropWhile_prefix (fun c => decide (c ∈ cs)) s
  exact ⟨r, hr.symm⟩

theorem TrimRight_concat (s cs : Str) (x : Char) (hx : x ∉ cs) :
    TrimRight (s ++ [x]) cs = s ++ [x] := by
  simp [TrimRight, List.rdropWhile_concat, hx]

theorem TrimRight_append_stop (a r cs : Str) (x : Char) (hx : x ∉ cs) :
    TrimRight (a ++ x :: r) cs = a ++ x :: TrimRight r cs := by
  induction r using List.reverseRecOn with
  | nil =>
    have := TrimRight_concat a cs x hx
    simpa [TrimRight] using this
  | append_singleton r y ih =>
    have e : a ++ x :: (r ++ [y]) = (a ++ x :: r) ++ [y] := by simp
    rw [e]
    unfold TrimRight at ih ⊢
    rw [List.rdropWhile_concat, List.rdropWhile_concat]
    split
    · exact ih
    · simp

theorem TrimRight_of_not_mem (t cs : Str) (h : ∀ c ∈ t, c ∉ cs) : TrimRight t cs = t := by
  unfold TrimRight
  rw [List.rdropWhile_eq_self_iff]
  intro hl
  simpa using h _ (List.getLast_mem hl)

theorem takeWhile_ne_append (a b : Str) (x : Char) (h : x ∉ a) :
    (a ++ x :: b).takeWhile (fun c => decide (c ≠ x)) = a := by
  induction a with
  | nil => simp
  | cons c cs ih =>
    simp only [List.mem_cons, not_or] at h
    simp only [List.cons_append, List.takeWhile_cons, ih h.2]
    simp [h.1, Ne.symm h.1]

theorem append_cons_inj (x : Char) (a a' b b' : Str) (ha : x ∉ a) (ha' : x ∉ a')
    (h : a ++ x :: b = a' ++ x :: b') : a = a' ∧ b = b' := by
  induction a generalizing a' with
  | nil =>
    cases a' with
    | nil => simpa using h
    | cons c cs =>
      simp only [List.nil_append, List.cons_append, List.cons.injEq] at h
      simp [h.1] at ha'
  | cons d ds ih =>
    cases a' with
    | nil =>
      simp only [List.nil_append, List.cons_append, List.cons.injEq] at h
      simp [h.1] at ha
    | cons c cs =>
      simp only [List.cons_append, List.cons.injEq] at h
      simp only [List.mem_cons, not_or] at ha ha'
      obtain ⟨e1, e2⟩ := ih cs ha.2 ha'.2 h.2
      exact ⟨by rw [h.1, e1], e2⟩

theorem not_mem_intercalate (x sep : Char) (hsep : x ≠ sep) (ps : List Str)
    (h : ∀ p ∈ ps, x ∉ p) : x ∉ List.intercalate [sep] ps := by
  induction ps with
  | nil => simp [List.intercalate]
  | cons p ps ih =>
    cases ps with
    | nil => simpa [List.intercalate, List.intersperse] using h p (by simp)
    | cons q qs =>
      have e : List.intercalate [sep] (p :: q :: qs) = p ++ sep :: List.intercalate [sep] (q :: qs) := by
        simp [List.intercalate, List.intersperse, List.flatten]
      rw [e]
      simp only [List.mem_append, List.mem_cons, not_or]
      exact ⟨h p (by simp), hsep, ih (fun r hr => h r (by simp [hr]))⟩

theorem count_intercalate (sep : Char) (p : Str) (ps : List Str)
    (h : ∀ q ∈ p :: ps, sep ∉ q) :
    Count (List.intercalate [sep] (p :: ps)) sep = ps.length := by
  induction ps generalizing p with
  | nil =>
    simp only [List.intercalate, List.intersperse, List.flatten, List.append_nil, Count,
      List.length_nil]
    exact List.count_eq_zero_of_not_mem (h p (by simp))
  | cons q qs ih =>
    have e : List.intercalate [sep] (p :: q :: qs) = p ++ sep :: List.intercalate [sep] (q :: qs) := by
      simp [List.intercalate, List.intersperse, List.flatten]
    have ih' := ih q (fun r hr => h r (by simp at hr ⊢; tauto))
    unfold Count at ih' ⊢
    rw [e, List.count_append, List.count_cons_self, ih',
      List.count_eq_zero_of_not_mem (h p (by simp))]
    simp

theorem asciiUpper_cases (c : Char) :
    (asciiUpper c = c ∧ ¬ (97 ≤ c.toNat ∧ c.toNat ≤ 122)) ∨
      (97 ≤ c.toNat ∧ c.toNat ≤ 122 ∧ asciiUpper (asciiUpper c) = asciiUpper c ∧
        asciiUpper c ≠ ' ') := by
  by_cases h : 97 ≤ c.toNat ∧ c.toNat ≤ 122
  · right
    refine ⟨h.1, h.2, ?_⟩
    generalize hn : c.toNat = n at h
    have hc : c = Char.ofNat n := by rw [← hn]; simp
    subst hc
    obtain ⟨h1, h2⟩ := h
    clear hn
    interval_cases n <;> decide
  · left
    exact ⟨by simp [asciiUpper, h], h⟩

theorem asciiUpper_idem (c : Char) : asciiUpper (asciiUpper c) = asciiUpper c := by
  rcases asciiUpper_cases c with ⟨h, -⟩ | ⟨-, -, h, -⟩
  · rw [h, h]
  · exact h

theorem asciiUpper_ne_space (c : Char) (hc : c ≠ ' ') : asciiUpper c ≠ ' ' := by
  rcases asciiUpper_cases c with ⟨h, -⟩ | ⟨-, -, -, h⟩
  · rw [h]; exact hc
  · exact h

/-! ## Lemmas on Go maps -/

theorem mapSet_new {α : Type} (m : List (Str × α)) (k : Str) (v : α)
    (h : k ∉ m.map Prod.fst) : mapSet m k v = m ++ [(k, v)] := by
  induction m with
  | nil => rfl
  | cons e es ih =>
    obtain ⟨k', v'⟩ := e
    simp only [List.map_cons, List.mem_cons, not_or] at h
    simp [mapSet, Ne.symm h.1, ih h.2]

theorem mapGet_of_mem {α : Type} (m : List (Str × α)) (k : Str) (v : α)
    (hnd : (m.map Prod.fst).Nodup) (h : (k, v) ∈ m) : mapGet m k = some v := by
  induction m with
  | nil => simp at h
  | cons e es ih =>
    obtain ⟨k', v'⟩ := e
    simp only [List.map_cons, List.nodup_cons] at hnd
    simp only [List.mem_cons, Prod.mk.injEq] at h
    rcases h with ⟨rfl, rfl⟩ | h
    · simp [mapGet]
    · have hne : k' ≠ k := by
        intro e
        subst e
        exact hnd.1 (List.mem_map_of_mem Prod.fst h)
      simp [mapGet, hne, ih hnd.2 h]

/-! ## The structure of `parseMessage`

What a successful parse went through, what each block does on a line of the expected
shape, and the lines on which the parser panics. -/

theorem parseFields_ok (up : Char → Char) (c m : Message) (body : Str)
    (h : parseFields up c body = Res.ok m) :
    ∃ first more,
      FieldsFunc (SplitN2 body [' ', ':']).1 (fun r => decide (r = ' ')) = first :: more ∧
      m = { c with Command := ToUpper up first,
                   Params := more ++ (SplitN2 body [' ', ':']).2.toList } := by
  unfold parseFields at h
  simp only [] at h
  cases hf : FieldsFunc (SplitN2 body [' ', ':']).1 (fun r => decide (r = ' ')) with
  | nil => rw [hf] at h; simp at h
  | cons first more =>
    refine ⟨first, more, rfl, ?_⟩
    rw [hf] at h
    simp only [Res.ok.injEq] at h
    rw [← h]
    cases (SplitN2 body [' ', ':']).2 <;> simp

theorem parseFields_keeps (up : Char → Char) (c m : Message) (body : Str)
    (h : parseFields up c body = Res.ok m) :
    m.Tags = c.Tags ∧ m.Prefix = c.Prefix ∧ m.Message = c.Message := by
  obtain ⟨first, more, -, rfl⟩ := parseFields_ok up c m body h
  exact ⟨rfl, rfl, rfl⟩

theorem parseFields_ne_panic (up : Char → Char) (c : Message) (body : Str) :
    parseFields up c body ≠ Res.panic := by
  unfold parseFields
  simp only []
  cases FieldsFunc (SplitN2 body [' ', ':']).1 (fun r => decide (r = ' ')) <;> simp

theorem parseAfterTags_ok (up : Char → Char) (c m : Message) (line : Str)
    (h : parseAfterTags up c line = Res.ok m) :
    (∃ P rest, line = ':' :: (P ++ ' ' :: rest) ∧ ' ' ∉ P ∧
        parseFields up { c with Prefix := parsePrefix P } rest = Res.ok m) ∨
    (line ≠ [] ∧ line.head? ≠ some ':' ∧ parseFields up c line = Res.ok m) := by
  cases line with
  | nil => simp [parseAfterTags] at h
  | cons ch tl =>
    by_cases hc : ch = ':'
    · subst hc
      left
      simp only [parseAfterTags, if_true] at h
      cases hi : Index (':' :: tl) ' ' with
      | none => simp [hi] at h
      | some loc =>
        simp only [hi] at h
        obtain ⟨a, b, hab, hsp, rfl⟩ := Index_some _ _ _ hi
        cases a with
        | nil => simp at hab
        | cons a0 P =>
          simp only [List.cons_append, List.cons.injEq] at hab
          obtain ⟨rfl, rfl⟩ := hab
          refine ⟨P, b, rfl, by simpa using hsp, ?_⟩
          simpa using h
    · right
      simp only [parseAfterTags, hc, if_false] at h
      exact ⟨by simp, by simpa using hc, h⟩

theorem parseAfterTags_keeps (up : Char → Char) (c m : Message) (line : Str)
    (h : parseAfterTags up c line = Res.ok m) :
    m.Tags = c.Tags ∧ m.Message = c.Message := by
  rcases parseAfterTags_ok up c m line h with ⟨P, rest, -, -, h3⟩ | ⟨-, -, h3⟩
  · have := parseFields_keeps up _ m rest h3
    exact ⟨this.1, this.2.2⟩
  · have := parseFields_keeps up _ m line h3
    exact ⟨this.1, this.2.2⟩

theorem parseAfterTags_prefix_block (up : Char → Char) (c : Message) (P body : Str)
    (hP : ' ' ∉ P) :
    parseAfterTags up c (':' :: (P ++ ' ' :: body)) =
      parseFields up { c with Prefix := parsePrefix P } body := by
  have hi : Index (':' :: (P ++ ' ' :: body)) ' ' = some (P.length + 1) := by
    have := Index_append (':' :: P) body ' ' (by simp [hP])
    simpa using this
  simp only [parseAfterTags, if_true, hi]
  simp

theorem parseAfterTags_no_prefix_block (up : Char → Char) (c m : Message) (line : Str)
    (h : parseAfterTags up c line = Res.ok m) (hl : line.head? ≠ some ':') :
    m.Prefix = c.Prefix := by
  rcases parseAfterTags_ok up c m line h with ⟨P, rest, rfl, -, -⟩ | ⟨-, -, h3⟩
  · simp at hl
  · exact (parseFields_keeps up c m line h3).2.1

theorem parseAfterTags_panic_iff (up : Char → Char) (c : Message) (line : Str) :
    parseAfterTags up c line = Res.panic ↔ line = [] := by
  constructor
  · intro h
    cases line with
    | nil => rfl
    | cons ch tl =>
      exfalso
      by_cases hc : ch = ':'
      · subst hc
        simp only [parseAfterTags, if_true] at h
        cases hi : Index (':' :: tl) ' ' with
        | none => simp [hi] at h
        | some loc =>
          simp only [hi] at h
          exact parseFields_ne_panic up _ _ h
      · simp only [parseAfterTags, hc, if_false] at h
        exact parseFields_ne_panic up _ _ h
  · rintro rfl
    rfl

theorem parseMessage_ok (up : Char → Char) (line : Str) (m : Message)
    (h : parseMessage up line = Res.ok m) :
    (∃ T rest, TrimRight line ['\r', '\n'] = '@' :: (T ++ ' ' :: rest) ∧ ' ' ∉ T ∧
        parseAfterTags up { emptyMessage (TrimRight line ['\r', '\n']) with Tags := parseTags T }
          rest = Res.ok m) ∨
    (TrimRight line ['\r', '\n'] ≠ [] ∧ (TrimRight line ['\r', '\n']).head? ≠ some '@' ∧
        parseAfterTags up (emptyMessage (TrimRight line ['\r', '\n']))
          (TrimRight line ['\r', '\n']) = Res.ok m) := by
  unfold parseMessage at h
  simp only at h
  generalize TrimRight line ['\r', '\n'] = t at h ⊢
  by_cases h0 : t.length = 0
  · simp [h0] at h
  · simp only [h0, if_false] at h
    by_cases hat : t.head? = some '@'
    · left
      simp only [hat, if_true] at h
      cases hi : Index t ' ' with
      | none => simp [hi] at h
      | some loc =>
        simp only [hi] at h
        obtain ⟨a, b, rfl, hsp, rfl⟩ := Index_some _ _ _ hi
        cases a with
        | nil => simp at hat
        | cons a0 T =>
          simp only [List.cons_append, List.head?_cons, Option.some.injEq] at hat
          subst hat
          refine ⟨T, b, rfl, by simpa using hsp, ?_⟩
          simpa [emptyMessage] using h
    · right
      simp only [hat, if_false] at h
      exact ⟨by intro e; simp [e] at h0, hat, h⟩

theorem parseMessage_tag_block (up : Char → Char) (line T rest : Str)
    (ht : TrimRight line ['\r', '\n'] = '@' :: (T ++ ' ' :: rest)) (hT : ' ' ∉ T) :
    parseMessage up line =
      parseAfterTags up { emptyMessage (TrimRight line ['\r', '\n']) with Tags := parseTags T }
        rest := by
  have hi : Index ('@' :: (T ++ ' ' :: rest)) ' ' = some (T.length + 1) := by
    have := Index_append ('@' :: T) rest ' ' (by simp [hT])
    simpa using this
  unfold parseMessage
  simp only [ht, hi]
  simp

theorem parseMessage_tags (up : Char → Char) (line : Str) (m : Message)
    (hat : line.head? = some '@') (h : parseMessage up line = Res.ok m) :
    m.Tags = parseTags ((line.drop 1).takeWhile (fun c => decide (c ≠ ' '))) := by
  obtain ⟨r, hr⟩ := TrimRight_isPrefix line ['\r', '\n']
  rcases parseMessage_ok up line m h with ⟨T, rest, ht, hT, h2⟩ | ⟨hne, hat', -⟩
  · rw [(parseAfterTags_keeps up _ m rest h2).1]
    have hl : line.drop 1 = T ++ ' ' :: (rest ++ r) := by
      rw [hr, ht]
      simp
    rw [hl, takeWhile_ne_append T _ ' ' hT]
  · exfalso
    apply hat'
    cases ht : TrimRight line ['\r', '\n'] with
    | nil => exact absurd ht hne
    | cons x xs =>
      rw [ht] at hr
      rw [hr] at hat
      simpa using hat

/-- A line without a prefix block parses to a message whose prefix has three empty fields. -/
theorem parseMessage_no_prefix_block (up : Char → Char) (line : Str) (m : Message)
    (h : parseMessage up line = Res.ok m)
    (hshape : (line.head? ≠ some '@' ∧ line.head? ≠ some ':') ∨
      ∃ T rest, line = '@' :: (T ++ ' ' :: rest) ∧ ' ' ∉ T ∧ rest.head? ≠ some ':') :
    m.Prefix = emptyPrefix := by
  obtain ⟨r, hr⟩ := TrimRight_isPrefix line ['\r', '\n']
  rcases parseMessage_ok up line m h with ⟨T, rest, ht, hT, h2⟩ | ⟨hne, hat, h2⟩
  · -- the trimmed line has a tag block, so the line has the same one
    rcases hshape with ⟨h1, -⟩ | ⟨T', rest', hl, hT', hrest'⟩
    · rw [hr, ht] at h1
      simp at h1
    · have htrim : TrimRight line ['\r', '\n'] =
          '@' :: (T' ++ ' ' :: TrimRight rest' ['\r', '\n']) := by
        rw [hl]
        have := TrimRight_append_stop ('@' :: T') rest' ['\r', '\n'] ' ' (by decide)
        simpa using this
      rw [htrim] at ht
      simp only [List.cons.injEq, true_and] at ht
      obtain ⟨-, hrest⟩ := append_cons_inj ' ' _ _ _ _ hT' hT ht
      obtain ⟨r', hr'⟩ := TrimRight_isPrefix rest' ['\r', '\n']
      have hhead : rest.head? ≠ some ':' := by
        intro hc
        apply hrest'
        rw [hr', hrest]
        cases rest with
        | nil => simp at hc
        | cons x xs => simpa using hc
      exact parseAfterTags_no_prefix_block up _ m rest h2 hhead
  · rcases hshape with ⟨-, h1⟩ | ⟨T', rest', hl, -, -⟩
    · have hhead : (TrimRight line ['\r', '\n']).head? ≠ some ':' := by
        intro hc
        apply h1
        rw [hr]
        cases ht : TrimRight line ['\r', '\n'] with
        | nil => exact absurd ht hne
        | cons x xs => rw [ht] at hc; simpa using hc
      exact parseAfterTags_no_prefix_block up _ m _ h2 hhead
    · exfalso
      apply hat
      cases ht : TrimRight line ['\r', '\n'] with
      | nil => exact absurd ht hne
      | cons x xs =>
        rw [ht, hl] at hr
        simp only [List.cons_append, List.cons.injEq] at hr
        simp [← hr.1]

/-- The lines on which `parseMessage` panics are exactly those that, once the trailing CR and
LF are removed, consist of `@`, a tag block without a space, and one space. -/
theorem parseMessage_panic_iff (up : Char → Char) (line : Str) :
    parseMessage up line = Res.panic ↔
      ∃ T, TrimRight line ['\r', '\n'] = '@' :: (T ++ [' ']) ∧ ' ' ∉ T := by
  constructor
  · intro h
    unfold parseMessage at h
    simp only at h
    generalize TrimRight line ['\r', '\n'] = t at h ⊢
    by_cases h0 : t.length = 0
    · simp [h0] at h
    · simp only [h0, if_false] at h
      by_cases hat : t.head? = some '@'
      · simp only [hat, if_true] at h
        cases hi : Index t ' ' with
        | none => simp [hi] at h
        | some loc =>
          simp only [hi] at h
          obtain ⟨a, b, rfl, hsp, rfl⟩ := Index_some _ _ _ hi
          cases a with
          | nil => simp at hat
          | cons a0 T =>
            simp only [List.cons_append, List.head?_cons, Option.some.injEq] at hat
            subst hat
            have hb : b = [] := by
              rw [← parseAfterTags_panic_iff up _ b]
              simpa using h
            subst hb
            exact ⟨T, rfl, by simpa using hsp⟩
      · simp only [hat, if_false] at h
        rw [parseAfterTags_panic_iff] at h
        simp [h] at h0
  · rintro ⟨T, ht, hT⟩
    rw [parseMessage_tag_block up line T [] ht hT]
    rfl

/-! ## C1: the outcomes of `parseMessage` -/

/-- C1 (fails on the code): on the line `@a=1 `, whose text ends right after the space that
closes the tag block, `parseMessage` neither returns a Message nor one of its four errors:
it reads `line[0]` of the empty remainder and panics. -/
theorem parseMessage_panics_after_closing_space (up : Char → Char) :
    parseMessage up "@a=1 ".toList = Res.panic :=
  rfl

/-! ## C2: round trip of the wire format -/

theorem SplitN2_middle (ps : List Str) (t : Str)
    (hps : ∀ p ∈ ps, p ≠ [] ∧ ' ' ∉ p ∧ p.head? ≠ some ':') :
    SplitN2 ((ps.map (fun p => ' ' :: p)).flatten ++ ' ' :: ':' :: t) [' ', ':'] =
      ((ps.map (fun p => ' ' :: p)).flatten, some t) := by
  induction ps with
  | nil => simp [SplitN2, List.isPrefixOf]
  | cons p ps ih =>
    obtain ⟨hne, hsp, hcol⟩ := hps p (by simp)
    have ih' := ih (fun q hq => hps q (by simp [hq]))
    cases p with
    | nil => exact absurd rfl hne
    | cons c cs =>
      have hc : c ≠ ':' := by simpa using hcol
      have e : ((List.map (fun p => ' ' :: p) ((c :: cs) :: ps)).flatten ++ ' ' :: ':' :: t) =
          ' ' :: c :: (cs ++ ((List.map (fun p => ' ' :: p) ps).flatten ++ ' ' :: ':' :: t)) := by
        simp
      rw [e, SplitN2_space c _ hc]
      have := SplitN2_token (c :: cs) ((List.map (fun p => ' ' :: p) ps).flatten ++ ' ' :: ':' :: t) hsp
      simp only [List.cons_append] at this
      rw [this, ih']
      simp

/-- C2: round trip of the wire format.  For a tag block `T` and a prefix `P` without spaces,
a command token `C` and middle parameters `ps` that are non-empty, without spaces and do
not start with `:`, and a trailing text `t` without CR and LF (it may be empty and may
contain spaces, colons and `" :"`), `parseMessage` succeeds on `@T :P C p1 ... pn :t`
with Command the upper-casing of `C` and Params `p1, ..., pn, t` in that order; the tags
and the prefix are those of `T` and `P`, and the raw text is the line. -/
theorem parseMessage_wire_roundtrip (up : Char → Char) (T P C : Str) (ps : List Str) (t : Str)
    (hT : ' ' ∉ T) (hP : ' ' ∉ P) (hC : C ≠ [] ∧ ' ' ∉ C ∧ C.head? ≠ some ':')
    (hps : ∀ p ∈ ps, p ≠ [] ∧ ' ' ∉ p ∧ p.head? ≠ some ':')
    (ht : '\r' ∉ t ∧ '\n' ∉ t) :
    parseMessage up (wireLine T P C ps t) =
      Res.ok { Tags := parseTags T, Prefix := parsePrefix P, Command := ToUpper up C,
               Params := ps ++ [t], Message := wireLine T P C ps t } := by
  have hline : wireLine T P C ps t =
      '@' :: (T ++ ' ' :: ':' :: (P ++ ' ' :: (C ++ ((ps.map (fun p => ' ' :: p)).flatten ++
        ' ' :: ':' :: t)))) := by
    simp [wireLine]
  have htrim : TrimRight (wireLine T P C ps t) ['\r', '\n'] = wireLine T P C ps t := by
    have e : wireLine T P C ps t =
        ('@' :: (T ++ ' ' :: ':' :: (P ++ ' ' :: (C ++ ((ps.map (fun p => ' ' :: p)).flatten ++
          [' '])))) ) ++ ':' :: t := by
      simp [wireLine]
    rw [e, TrimRight_append_stop _ t _ ':' (by decide), TrimRight_of_not_mem t _ ?_]
    intro c hc hmem
    simp only [List.mem_cons, List.mem_singleton, List.not_mem_nil, or_false] at hmem
    rcases hmem with rfl | rfl
    · exact ht.1 hc
    · exact ht.2 hc
  rw [parseMessage_tag_block up _ T _ (htrim.trans hline) hT, parseAfterTags_prefix_block up _ P _ hP]
  have hsplit : SplitN2 (C ++ ((ps.map (fun p => ' ' :: p)).flatten ++ ' ' :: ':' :: t)) [' ', ':'] =
      (C ++ (ps.map (fun p => ' ' :: p)).flatten, some t) := by
    rw [SplitN2_token C _ hC.2.1, SplitN2_middle ps t hps]
  unfold parseFields
  simp only [hsplit]
  rw [FieldsFunc_tokens C ps ⟨hC.1, hC.2.1⟩ (fun p hp => ⟨(hps p hp).1, (hps p hp).2.1⟩)]
  simp [emptyMessage, htrim]

/-- C2 at the line `@a=1;b :nick!u@h privmsg #chan x :hello :world`. -/
theorem parseMessage_wire_roundtrip_witness :
    parseMessage asciiUpper "@a=1;b :nick!u@h privmsg #chan x :hello :world".toList =
      Res.ok { Tags := [("a".toList, "1".toList), ("b".toList, [])],
               Prefix := { Name := "nick".toList, User := "u".toList, Host := "h".toList },
               Command := "PRIVMSG".toList,
               Params := ["#chan".toList, "x".toList, "hello :world".toList],
               Message := "@a=1;b :nick!u@h privmsg #chan x :hello :world".toList } :=
  parseMessage_wire_roundtrip asciiUpper "a=1;b".toList "nick!u@h".toList "privmsg".toList
    ["#chan".toList, "x".toList] "hello :world".toList
    (by decide) (by decide) (by decide) (by decide) (by decide)

/-! ## C3 and C4: `handleLine` -/

/-- C3 (fails on the code): the line `:tmi.twitch.tv RECONNECT` parses to a message without
parameters, and on every connection `handleLine` then panics: it reads `msg.Params[0]`
whether or not a parameter exists.  A bare `PING` does the same on a connection without
automatic PONG. -/
theorem handleLine_panics_without_params (c : Connection) :
    parseMessage asciiUpper ":tmi.twitch.tv RECONNECT".toList =
        Res.ok { Tags := [], Prefix := { Name := "tmi.twitch.tv".toList, User := [], Host := [] },
                 Command := "RECONNECT".toList, Params := [],
                 Message := ":tmi.twitch.tv RECONNECT".toList } ∧
      (c.handleLine asciiUpper ":tmi.twitch.tv RECONNECT".toList).2 = Res.panic ∧
      (fooConnection.handleLine asciiUpper "PING".toList).2 = Res.panic := by
  have hp : parseMessage asciiUpper ":tmi.twitch.tv RECONNECT".toList =
        Res.ok { Tags := [], Prefix := { Name := "tmi.twitch.tv".toList, User := [], Host := [] },
                 Command := "RECONNECT".toList, Params := [],
                 Message := ":tmi.twitch.tv RECONNECT".toList } := by decide
  refine ⟨hp, ?_, by decide⟩
  unfold Connection.handleLine
  rw [hp]
  have hne : ¬ ("RECONNECT".toList = "PING".toList) := by decide
  simp only [hne, and_false, if_false, Connection.route]

/-- C4 (fails on the code): a whisper addressed to the user `foo`, on a connection on which
the channel `foo` is joined, invokes the generic handler and then also the channel handler
registered under `foo`. -/
theorem handleLine_whisper_reaches_channel_handler :
    (fooConnection.handleLine asciiUpper ":bar!bar@bar.tmi.twitch.tv WHISPER foo :hi".toList).1.trace =
        [Event.ircHandler whisperMessage, Event.channelHandler "foo".toList whisperMessage] ∧
      (fooConnection.handleLine asciiUpper ":bar!bar@bar.tmi.twitch.tv WHISPER foo :hi".toList).2 =
        Res.ok () := by
  decide

/-! ## C5 and C6: `parseEmotes` -/

theorem foldl_digits_ge (ds : Str) (acc : Nat) :
    acc ≤ ds.foldl (fun n c => n * 10 + (c.toNat - 48)) acc := by
  induction ds generalizing acc with
  | nil => simp
  | cons c cs ih =>
    simp only [List.foldl_cons]
    exact Nat.le_trans (by omega) (ih _)

theorem parseUintLoop_digits (ds : Str) (acc : Nat)
    (hd : ∀ c ∈ ds, 48 ≤ c.toNat ∧ c.toNat ≤ 57)
    (hv : ds.foldl (fun n c => n * 10 + (c.toNat - 48)) acc < 2 ^ 64) :
    parseUintLoop ds acc = UintRes.val (ds.foldl (fun n c => n * 10 + (c.toNat - 48)) acc) := by
  induction ds generalizing acc with
  | nil => simp [parseUintLoop]
  | cons c cs ih =>
    simp only [List.mem_cons, forall_eq_or_imp] at hd
    simp only [List.foldl_cons] at hv ⊢
    have hge := foldl_digits_ge cs (acc * 10 + (c.toNat - 48))
    have h1 : ¬ (acc ≥ (2 ^ 64 - 1) / 10 + 1) := by
      norm_num at hv ⊢
      omega
    have h2 : ¬ (acc * 10 + (c.toNat - 48) > 2 ^ 64 - 1) := by
      norm_num at hv ⊢
      omega
    rw [parseUintLoop]
    simp only [hd.1, not_true_eq_false, if_false, h1, h2]
    exact ih _ hd.2 hv

theorem Atoi_decimal (s : Str) (hs : isDecimal s) (hv : decimalValue s < 2 ^ 63) :
    Atoi s = ((decimalValue s : Int), false) := by
  obtain ⟨hne, hd⟩ := hs
  cases s with
  | nil => exact absurd rfl hne
  | cons c cs =>
    have hc := hd c (by simp)
    have hplus : c ≠ '+' := by
      intro e; subst e; revert hc; decide
    have hminus : c ≠ '-' := by
      intro e; subst e; revert hc; decide
    have hloop := parseUintLoop_digits (c :: cs) 0 hd
      (Nat.lt_trans hv (by norm_num))
    unfold Atoi
    simp only [hplus, hminus, or_self, if_false, decide_False, hloop]
    simp only [decimalValue] at hv ⊢
    simp at hv ⊢
    omega

theorem not_mem_decimal (s : Str) (hs : isDecimal s) (x : Char)
    (hx : ¬ (48 ≤ x.toNat ∧ x.toNat ≤ 57)) : x ∉ s :=
  fun h => hx (hs.2 x h)

theorem not_mem_renderRange (r : Str × Str) (h1 : isDecimal r.1) (h2 : isDecimal r.2)
    (x : Char) (hx : ¬ (48 ≤ x.toNat ∧ x.toNat ≤ 57)) (hd : x ≠ '-') : x ∉ renderRange r := by
  simp only [renderRange, List.mem_append, List.mem_cons, not_or]
  exact ⟨not_mem_decimal _ h1 x hx, hd, not_mem_decimal _ h2 x hx⟩

theorem sliceRunes_inside (runes : Str) (spare a b : Nat) (hab : a ≤ b + 1)
    (hb : b + 1 ≤ runes.length) :
    sliceRunes runes spare (a : Int) ((b : Int) + 1) = some ((runes.take (b + 1)).drop a) := by
  have hcond : (0 : Int) ≤ (a : Int) ∧ (a : Int) ≤ (b : Int) + 1 ∧
      (b : Int) + 1 ≤ ((runes.length + spare : Nat) : Int) := by
    refine ⟨by omega, by omega, ?_⟩
    push_cast
    omega
  unfold sliceRunes
  rw [if_pos hcond]
  have h1 : ((b : Int) + 1).toNat = b + 1 := by omega
  have h2 : (a : Int).toNat = a := by omega
  rw [h1, h2, List.take_append_of_le_length hb]

theorem wrapInt_small (i : Int) (h1 : -(2 ^ 63) ≤ i) (h2 : i < 2 ^ 63) : wrapInt i = i := by
  unfold wrapInt
  omega

theorem parseEmote_group (runes : Str) (spare : Nat) (g : EmoteGroup)
    (hid : ':' ∉ g.id) (hs : isDecimal g.first.1) (he : isDecimal g.first.2)
    (hmore : ∀ r ∈ g.more, isDecimal r.1 ∧ isDecimal r.2)
    (hle : decimalValue g.first.1 ≤ decimalValue g.first.2)
    (hlt : decimalValue g.first.2 < runes.length) (hlen : runes.length < 2 ^ 63) :
    parseEmote runes spare (renderGroup g) = some (expectedEmote runes g) := by
  obtain ⟨id, ⟨s, e⟩, more⟩ := g
  simp only at hid hs he hmore hle hlt
  have hcomma : ∀ q ∈ renderRange (s, e) :: more.map renderRange, ',' ∉ q := by
    intro q hq
    simp only [List.mem_cons, List.mem_map] at hq
    rcases hq with rfl | ⟨r, hr, rfl⟩
    · exact not_mem_renderRange _ hs he ',' (by decide) (by decide)
    · exact not_mem_renderRange _ (hmore r hr).1 (hmore r hr).2 ',' (by decide) (by decide)
  have h1 : SplitN2 (renderGroup ⟨id, (s, e), more⟩) [':'] =
      (id, some (List.intercalate [','] (((s, e) :: more).map renderRange))) :=
    SplitN2_char_append id _ ':' hid
  have h2 : (SplitN2 (List.intercalate [','] (((s, e) :: more).map renderRange)) [',']).1 =
      renderRange (s, e) := by
    cases more with
    | nil =>
      simp only [List.map_cons, List.map_nil, List.intercalate, List.intersperse, List.flatten,
        List.append_nil]
      rw [SplitN2_char_none _ ',' (hcomma _ (by simp))]
    | cons r rs =>
      have e1 : List.intercalate [','] (((s, e) :: r :: rs).map renderRange) =
          renderRange (s, e) ++ ',' :: List.intercalate [','] ((r :: rs).map renderRange) := by
        simp [List.intercalate, List.intersperse, List.flatten]
      rw [e1, SplitN2_char_append _ _ ',' (hcomma _ (by simp))]
  have h3 : SplitN2 (renderRange (s, e)) ['-'] = (s, some e) :=
    SplitN2_char_append s e '-' (not_mem_decimal s hs '-' (by decide))
  have h4 : Count (List.intercalate [','] (((s, e) :: more).map renderRange)) ',' =
      more.length := by
    have := count_intercalate ',' (renderRange (s, e)) (more.map renderRange) hcomma
    simpa using this
  have hs' : Atoi s = ((decimalValue s : Int), false) := Atoi_decimal s hs (by omega)
  have he' : Atoi e = ((decimalValue e : Int), false) := Atoi_decimal e he (by omega)
  have hw : wrapInt ((decimalValue e : Int) + 1) = (decimalValue e : Int) + 1 :=
    wrapInt_small _ (by omega) (by omega)
  have hno : ¬ ((decimalValue e : Int) + 1 > (runes.length : Int)) := by omega
  unfold parseEmote
  simp only [h1, h2, h3, h4, hs', he', hw, hno, if_false]
  rw [sliceRunes_inside runes spare _ _ (by omega) (by omega)]
  simp [expectedEmote]

theorem parseEmotesLoop_groups (runes : Str) (spare : Nat) (gs : List EmoteGroup)
    (h : ∀ g ∈ gs, parseEmote runes spare (renderGroup g) = some (expectedEmote runes g)) :
    parseEmotesLoop runes spare (gs.map renderGroup) = some (gs.map (expectedEmote runes)) := by
  induction gs with
  | nil => rfl
  | cons g gs ih =>
    simp only [List.map_cons, parseEmotesLoop, h g (by simp),
      ih (fun x hx => h x (by simp [hx]))]

theorem not_mem_renderGroup (g : EmoteGroup) (hid : '/' ∉ g.id)
    (hfirst : isDecimal g.first.1 ∧ isDecimal g.first.2)
    (hmore : ∀ r ∈ g.more, isDecimal r.1 ∧ isDecimal r.2) : '/' ∉ renderGroup g := by
  simp only [renderGroup, List.mem_append, List.mem_cons, not_or]
  refine ⟨hid, by decide, ?_⟩
  apply not_mem_intercalate '/' ',' (by decide)
  intro p hp
  simp only [List.map_cons, List.mem_cons, List.mem_map] at hp
  rcases hp with rfl | ⟨r, hr, rfl⟩
  · exact not_mem_renderRange _ hfirst.1 hfirst.2 '/' (by decide) (by decide)
  · exact not_mem_renderRange _ (hmore r hr).1 (hmore r hr).2 '/' (by decide) (by decide)

/-- C5: for a message text of `n` code points (`n` within the range of a Go `int`) and an
emotes tag made of `/`-separated groups `id:s1-e1,s2-e2,...,sk-ek` (ids without `/` and
`:`, bounds written as decimal numerals) whose first range satisfies `s1 <= e1 < n`,
`parseEmotes` returns exactly one Emote per group, in tag order, with the group's id, Count
the number `k` of its ranges and Name the code points of the text at positions `s1`
through `e1`, so that Name has `e1 - s1 + 1` code points; the empty tag yields the empty
sequence.  The result does not depend on the spare capacity of the rune slice. -/
theorem parseEmotes_groups (spare : Nat) (message : Str) (gs : List EmoteGroup)
    (hlen : message.length < 2 ^ 63)
    (hid : ∀ g ∈ gs, '/' ∉ g.id ∧ ':' ∉ g.id)
    (hnum : ∀ g ∈ gs, ∀ r ∈ g.first :: g.more, isDecimal r.1 ∧ isDecimal r.2)
    (hfirst : ∀ g ∈ gs, decimalValue g.first.1 ≤ decimalValue g.first.2 ∧
      decimalValue g.first.2 < message.length) :
    parseEmotes spare (renderEmotes gs) message = some (gs.map (expectedEmote message)) ∧
      (∀ g ∈ gs, (expectedEmote message g).Name.length =
        decimalValue g.first.2 - decimalValue g.first.1 + 1) ∧
      parseEmotes spare [] message = some [] := by
  refine ⟨?_, ?_, rfl⟩
  · cases gs with
    | nil => rfl
    | cons g gs =>
      have hne : renderEmotes (g :: gs) ≠ [] := by
        intro e
        have hmem : ':' ∈ renderEmotes (g :: gs) := by
          cases gs with
          | nil => simp [renderEmotes, renderGroup, List.intercalate, List.intersperse]
          | cons g2 gs2 =>
            simp [renderEmotes, renderGroup, List.intercalate, List.intersperse, List.flatten]
        rw [e] at hmem
        simp at hmem
      unfold parseEmotes
      rw [if_neg hne]
      unfold renderEmotes Split
      rw [splitAt_intercalate _ '/' (by simp) _ (by simp)]
      · apply parseEmotesLoop_groups
        intro x hx
        exact parseEmote_group message spare x (hid x hx).2 (hnum x hx _ (by simp)).1
          (hnum x hx _ (by simp)).2 (fun r hr => hnum x hx r (by simp [hr]))
          (hfirst x hx).1 (hfirst x hx).2 hlen
      · intro p hp c hc
        simp only [List.mem_map] at hp
        obtain ⟨x, hx, rfl⟩ := hp
        simp only [decide_eq_false_iff_not]
        intro e
        subst e
        exact not_mem_renderGroup x (hid x hx).1 (hnum x hx _ (by simp))
          (fun r hr => hnum x hx r (by simp [hr])) hc
  · intro g hg
    obtain ⟨h1, h2⟩ := hfirst g hg
    simp only [expectedEmote, List.length_drop, List.length_take]
    omega

/-- C5 at the emotes tag and the text of the repository's test `emotes-and-text`. -/
theorem parseEmotes_groups_witness :
    parseEmotes 0 "302213289:0-11,27-38/302242139:13-25".toList
        "ratirlPickle ratirlPopcorn ratirlPickle test test".toList =
      some [{ Name := "ratirlPickle".toList, ID := "302213289".toList, Count := 2 },
            { Name := "ratirlPopcorn".toList, ID := "302242139".toList, Count := 1 }] :=
  (parseEmotes_groups 0 "ratirlPickle ratirlPopcorn ratirlPickle test test".toList pickleGroups
    (by decide) (by decide) (by decide) (by decide)).1

/-- C6 (fails on the code): on the shaped emotes tag `1:5-2` and the text `abcdefgh`,
`parseEmotes` panics whatever the spare capacity of the rune slice: the slice expression
`runes[5:3]` has its bounds out of order. -/
theorem parseEmotes_panics_on_shaped_input (spare : Nat) :
    parseEmotes spare "1:5-2".toList "abcdefgh".toList = none :=
  rfl

/-! ## C7: the command and the parameters of a parsed message -/

theorem dropWhile_block (P rest : Str) (hP : ' ' ∉ P) :
    (P ++ ' ' :: rest).dropWhile (fun c => decide (c ≠ ' ')) = ' ' :: rest := by
  induction P with
  | nil => simp [List.dropWhile]
  | cons a P ih =>
    have ha : a ≠ ' ' := fun e => hP (by simp [e])
    have hP1 : ' ' ∉ P := fun hm => hP (List.mem_cons_of_mem _ hm)
    simp only [List.cons_append, List.dropWhile_cons, ha, ne_eq, not_false_eq_true,
      decide_True, if_true]
    exact ih hP1

theorem consumeBlock_block (mark : Char) (P rest : Str) (hm : mark ≠ ' ') (hP : ' ' ∉ P) :
    consumeBlock mark (mark :: (P ++ ' ' :: rest)) = rest := by
  unfold consumeBlock
  have hh : (mark :: (P ++ ' ' :: rest)).head? = some mark := rfl
  rw [if_pos hh, List.dropWhile_cons]
  simp only [hm, ne_eq, not_false_eq_true, decide_True, if_true]
  rw [dropWhile_block P rest hP]
  rfl

theorem consumeBlock_other (mark : Char) (s : Str) (h : s.head? ≠ some mark) :
    consumeBlock mark s = s := by
  unfold consumeBlock
  rw [if_neg h]

/-- The text that a successful `parseMessage` hands to the splitting of the fields is the
remainder of the line. -/
theorem parseMessage_remainder (up : Char → Char) (line : Str) (m : Message)
    (h : parseMessage up line = Res.ok m) :
    ∃ c, parseFields up c (remainder line) = Res.ok m := by
  have hafter : ∀ c l, parseAfterTags up c l = Res.ok m →
      ∃ c1, parseFields up c1 (consumeBlock ':' l) = Res.ok m := by
    intro c l hl
    rcases parseAfterTags_ok up c m l hl with ⟨P, rest, rfl, hP, h3⟩ | ⟨-, hh, h3⟩
    · rw [consumeBlock_block ':' P rest (by decide) hP]
      exact ⟨_, h3⟩
    · rw [consumeBlock_other ':' l hh]
      exact ⟨_, h3⟩
  unfold remainder
  rcases parseMessage_ok up line m h with ⟨T, rest, ht, hT, h2⟩ | ⟨-, hh, h2⟩
  · rw [ht, consumeBlock_block '@' T rest (by decide) hT]
    exact hafter _ _ h2
  · rw [consumeBlock_other '@' _ hh]
    exact hafter _ _ h2

/-- C7: on every line that `parseMessage` parses, the command is not empty, contains no
space, is the upper-casing of the first space-delimited token of the field list (the text
after the tag and prefix blocks up to the first `" :"`) and is unchanged by upper-casing
again; the parameters are the other tokens of the field list, each non-empty and without a
space, followed by the trailing parameter when there is one.  The rune map `up` of
`strings.ToUpper` is taken to be idempotent and never to produce a space from another
code point. -/
theorem parseMessage_command_invariant (up : Char → Char)
    (hidem : ∀ c, up (up c) = up c) (hspace : ∀ c, c ≠ ' ' → up c ≠ ' ')
    (line : Str) (m : Message) (h : parseMessage up line = Res.ok m) :
    m.Command ≠ [] ∧ ' ' ∉ m.Command ∧ ToUpper up m.Command = m.Command ∧
      ∃ first more, fieldList line = first :: more ∧
        first ≠ [] ∧ ' ' ∉ first ∧ m.Command = ToUpper up first ∧
        (∀ p ∈ more, p ≠ [] ∧ ' ' ∉ p) ∧
        m.Params = more ++ (trailingParameter line).toList := by
  obtain ⟨c, hf⟩ := parseMessage_remainder up line m h
  obtain ⟨first, more, hfields, rfl⟩ := parseFields_ok up c m (remainder line) hf
  have htok : ∀ p ∈ first :: more, p ≠ [] ∧ ' ' ∉ p := by
    intro p hp
    rw [← hfields] at hp
    obtain ⟨h1, h2⟩ := mem_FieldsFunc _ _ p hp
    refine ⟨h1, fun hsp => ?_⟩
    simpa using h2 ' ' hsp
  obtain ⟨hf1, hf2⟩ := htok first (by simp)
  refine ⟨?_, ?_, ?_, first, more, hfields, hf1, hf2, rfl,
    fun p hp => htok p (by simp [hp]), rfl⟩
  · simpa [ToUpper] using hf1
  · simp only [ToUpper, List.mem_map, not_exists, not_and]
    intro c hc hcs
    exact hspace c (fun e => hf2 (e ▸ hc)) hcs
  · simp [ToUpper, hidem]

/-- C7 at the line `:nick!u@h privmsg  #chan extra :hello :world`, with the ASCII case map:
the field list is `privmsg`, `#chan`, `extra`, the command is `PRIVMSG`, and the parameters
are `#chan`, `extra` and the trailing `hello :world`. -/
theorem parseMessage_command_invariant_witness :
    parseMessage asciiUpper ":nick!u@h privmsg  #chan extra :hello :world\r\n".toList =
        Res.ok lowerCaseCommandMessage ∧
      lowerCaseCommandMessage.Command ≠ [] ∧ ' ' ∉ lowerCaseCommandMessage.Command ∧
      ToUpper asciiUpper lowerCaseCommandMessage.Command = lowerCaseCommandMessage.Command ∧
      fieldList ":nick!u@h privmsg  #chan extra :hello :world\r\n".toList =
        ["privmsg".toList, "#chan".toList, "extra".toList] ∧
      lowerCaseCommandMessage.Command = ToUpper asciiUpper "privmsg".toList ∧
      lowerCaseCommandMessage.Params =
        ["#chan".toList, "extra".toList] ++ ["hello :world".toList] := by
  obtain ⟨h1, h2, h3, first, more, hf, -, -, hcmd, -, hpar⟩ :=
    parseMessage_command_invariant asciiUpper asciiUpper_idem asciiUpper_ne_space
      ":nick!u@h privmsg  #chan extra :hello :world\r\n".toList lowerCaseCommandMessage
      (by decide)
  have hl : fieldList ":nick!u@h privmsg  #chan extra :hello :world\r\n".toList =
      ["privmsg".toList, "#chan".toList, "extra".toList] := by decide
  have ht : trailingParameter ":nick!u@h privmsg  #chan extra :hello :world\r\n".toList =
      some "hello :world".toList := by decide
  rw [hl] at hf
  obtain ⟨rfl, rfl⟩ := List.cons.inj hf
  rw [ht] at hpar
  exact ⟨by decide, h1, h2, h3, hl, hcmd, hpar⟩

/-! ## C8: `parseTagValue` against the reference unescape -/

theorem tagDecodeSlashMap_unescapeChar (c : Char) :
    (match tagDecodeSlashMap c with
      | some replacement => replacement
      | none => c) = unescapeChar c := by
  unfold tagDecodeSlashMap unescapeChar
  by_cases h1 : c = ':'
  · simp [h1]
  by_cases h2 : c = 's'
  · simp [h2]
  by_cases h3 : c = '\\'
  · simp [h3]
  by_cases h4 : c = 'r'
  · simp [h4]
  by_cases h5 : c = 'n'
  · simp [h5]
  simp [h1, h2, h3, h4, h5]

theorem parseTagValue_backslash_cons (c : Char) (rest : Str) :
    parseTagValue ('\\' :: c :: rest) = unescapeChar c :: parseTagValue rest := by
  rw [← tagDecodeSlashMap_unescapeChar]
  simp [parseTagValue]

theorem parseTagValue_cons_of_ne (c : Char) (rest : Str) (hc : c ≠ '\\') :
    parseTagValue (c :: rest) = c :: parseTagValue rest := by
  cases rest <;> simp [parseTagValue, hc]

theorem parseTagValue_scan (v : Str) :
    parseTagValue v = unescapeScan false v ∧
      parseTagValue ('\\' :: v) = unescapeScan true v := by
  induction v with
  | nil => simp [parseTagValue, unescapeScan]
  | cons c cs ih =>
    constructor
    · by_cases hc : c = '\\'
      · subst hc
        rw [ih.2]
        simp [unescapeScan]
      · rw [parseTagValue_cons_of_ne c cs hc, ih.1]
        simp [unescapeScan, hc]
    · rw [parseTagValue_backslash_cons, ih.1]
      simp [unescapeScan]

theorem unescapeScan_length (b : Bool) (v : Str) : (unescapeScan b v).length ≤ v.length := by
  induction v generalizing b with
  | nil => simp [unescapeScan]
  | cons c cs ih =>
    cases b
    · by_cases hc : c = '\\'
      · simp only [unescapeScan, hc, if_true, List.length_cons]
        exact Nat.le_succ_of_le (ih true)
      · simp only [unescapeScan, hc, if_false, List.length_cons]
        exact Nat.succ_le_succ (ih false)
    · simp only [unescapeScan, List.length_cons]
      exact Nat.succ_le_succ (ih false)

/-- C8: `parseTagValue` equals the reference unescape of the specification (a left-to-right
scan in which a backslash turns the next character into its table replacement, or into
itself when the table has no entry; every other character is copied; a lone backslash at
the end is dropped), and so its output never has more code points than its input. -/
theorem parseTagValue_eq_unescapeRef (v : Str) :
    parseTagValue v = unescapeRef v ∧ (parseTagValue v).length ≤ v.length := by
  have h := (parseTagValue_scan v).1
  refine ⟨h, ?_⟩
  rw [h]
  exact unescapeScan_length false v

/-! ## C9: `parseTags` -/

theorem parseTags_nil : parseTags [] = [([], [])] := rfl

theorem parseTagsStep_renderTag (ret : Tags) (e : Str × Option Str) (hk : '=' ∉ e.1) :
    parseTagsStep ret (renderTag e) = mapSet ret (tagEntry e).1 (tagEntry e).2 := by
  obtain ⟨k, _ | v⟩ := e
  · simp only [parseTagsStep, renderTag, tagEntry]
    rw [SplitN2_char_none k '=' hk]
  · simp only [parseTagsStep, renderTag, tagEntry]
    rw [SplitN2_char_append k v '=' hk]

theorem tagEntry_fst (e : Str × Option Str) : (tagEntry e).1 = e.1 := by
  obtain ⟨k, _ | v⟩ := e <;> rfl

theorem foldl_parseTagsStep (es : List (Str × Option Str)) (acc : Tags)
    (hk : ∀ e ∈ es, '=' ∉ e.1) (hnd : (es.map Prod.fst).Nodup)
    (hdis : ∀ e ∈ es, e.1 ∉ acc.map Prod.fst) :
    (es.map renderTag).foldl parseTagsStep acc = acc ++ es.map tagEntry := by
  induction es generalizing acc with
  | nil => simp
  | cons e es ih =>
    simp only [List.map_cons, List.nodup_cons] at hnd
    simp only [List.map_cons, List.foldl_cons]
    rw [parseTagsStep_renderTag acc e (hk e (by simp)),
      mapSet_new acc _ _ (by rw [tagEntry_fst]; exact hdis e (by simp))]
    rw [ih _ (fun x hx => hk x (by simp [hx])) hnd.2]
    · simp
    · intro x hx
      simp only [List.map_append, List.map_cons, List.map_nil, List.mem_append,
        List.mem_singleton, not_or]
      refine ⟨hdis x (by simp [hx]), ?_⟩
      rw [tagEntry_fst]
      intro hxe
      exact hnd.1 (hxe ▸ List.mem_map_of_mem Prod.fst hx)

theorem renderTag_no_semicolon (e : Str × Option Str) (hk : ';' ∉ e.1)
    (hv : ∀ v, e.2 = some v → ';' ∉ v) : ∀ c ∈ renderTag e, decide (c = ';') = false := by
  obtain ⟨k, _ | v⟩ := e
  · intro c hc
    simp only [renderTag] at hc
    simp only [decide_eq_false_iff_not]
    intro e
    exact hk (e ▸ hc)
  · intro c hc
    simp only [renderTag, List.mem_append, List.mem_cons] at hc
    simp only [decide_eq_false_iff_not]
    intro e
    subst e
    rcases hc with hc | hc | hc
    · exact hk hc
    · simp at hc
    · exact hv v rfl hc

theorem parseTags_renderTags (es : List (Str × Option Str)) (hne : es ≠ [])
    (hnd : (es.map Prod.fst).Nodup) (hk : ∀ e ∈ es, ';' ∉ e.1 ∧ '=' ∉ e.1)
    (hv : ∀ e ∈ es, ∀ v, e.2 = some v → ';' ∉ v) :
    parseTags (renderTags es) = es.map tagEntry := by
  unfold parseTags renderTags Split
  rw [splitAt_intercalate _ ';' (by simp) (es.map renderTag) (by simpa using hne)]
  · have := foldl_parseTagsStep es [] (fun e he => (hk e he).2) hnd (by simp)
    simpa using this
  · intro p hp
    simp only [List.mem_map] at hp
    obtain ⟨e, he, rfl⟩ := hp
    exact renderTag_no_semicolon e (hk e he).1 (hv e he)

/-- C9: for a tag block made of at least one entry `key=value` or `key`, joined by `;`,
with pairwise distinct keys that contain neither `;` nor `=` and values that contain no
`;`, `parseTags` returns the map with exactly one entry per written entry, in order: the
key with `parseTagValue` of the value, or with the empty string when the entry has no `=`;
each of them is what `GetTag` finds under its key.  And a message parsed from a line
that starts with `@` carries `parseTags` of the text between the `@` and the first space. -/
theorem parseTags_entries (es : List (Str × Option Str)) (hne : es ≠ [])
    (hnd : (es.map Prod.fst).Nodup) (hk : ∀ e ∈ es, ';' ∉ e.1 ∧ '=' ∉ e.1)
    (hv : ∀ e ∈ es, ∀ v, e.2 = some v → ';' ∉ v) :
    parseTags (renderTags es) = es.map tagEntry ∧
      (∀ e ∈ es, GetTag (parseTags (renderTags es)) e.1 = some (tagEntry e).2) ∧
      ∀ (up : Char → Char) (line : Str) (m : Message), line.head? = some '@' →
        parseMessage up line = Res.ok m →
        m.Tags = parseTags ((line.drop 1).takeWhile (fun c => decide (c ≠ ' '))) := by
  have h1 := parseTags_renderTags es hne hnd hk hv
  refine ⟨h1, ?_, fun up line m hat h => parseMessage_tags up line m hat h⟩
  intro e he
  rw [h1]
  apply mapGet_of_mem
  · have : (es.map tagEntry).map Prod.fst = es.map Prod.fst := by
      rw [List.map_map]
      apply List.map_congr_left
      intro x _
      exact tagEntry_fst x
    rw [this]
    exact hnd
  · have := List.mem_map_of_mem tagEntry he
    rw [← tagEntry_fst e]
    exact this

/-- C9 at the tag block `a=1;b` and the line `@a=1;b PING :tmi.twitch.tv`. -/
theorem parseTags_entries_witness :
    parseTags "a=1;b".toList = [("a".toList, "1".toList), ("b".toList, [])] ∧
      parseMessage asciiUpper "@a=1;b PING :tmi.twitch.tv".toList = Res.ok taggedPingMessage ∧
      taggedPingMessage.Tags = parseTags "a=1;b".toList :=
  have h := parseTags_entries [("a".toList, some "1".toList), ("b".toList, none)]
    (by decide) (by decide) (by decide) (by decide)
  ⟨h.1, by decide,
    h.2.2 asciiUpper "@a=1;b PING :tmi.twitch.tv".toList taggedPingMessage (by decide)
      (by decide)⟩

/-! ## C10: `parsePrefix` -/

theorem parsePrefix_of_splits (line : Str) :
    parsePrefix line =
      match SplitN2 line ['@'] with
      | (n, some h) =>
        (match SplitN2 n ['!'] with
          | (n2, some u) => { Name := n2, User := u, Host := h }
          | (_, none) => { Name := n, User := [], Host := h })
      | (_, none) =>
        (match SplitN2 line ['!'] with
          | (n2, some u) => { Name := n2, User := u, Host := [] }
          | (_, none) => { Name := line, User := [], Host := [] }) := by
  unfold parsePrefix
  simp only []
  rcases h1 : SplitN2 line ['@'] with ⟨n, _ | h⟩ <;> simp only []

theorem parsePrefix_full (name user host : Str) (hn1 : '!' ∉ name) (hn2 : '@' ∉ name)
    (hu : '@' ∉ user) :
    parsePrefix (name ++ '!' :: (user ++ '@' :: host)) =
      { Name := name, User := user, Host := host } := by
  have h1 : SplitN2 (name ++ '!' :: (user ++ '@' :: host)) ['@'] =
      (name ++ '!' :: user, some host) := by
    have := SplitN2_char_append (name ++ '!' :: user) host '@' (by simp [hn2, hu])
    simpa using this
  rw [parsePrefix_of_splits, h1]
  simp only
  rw [SplitN2_char_append name user '!' hn1]

theorem parsePrefix_name_host (name host : Str) (hn1 : '!' ∉ name) (hn2 : '@' ∉ name) :
    parsePrefix (name ++ '@' :: host) = { Name := name, User := [], Host := host } := by
  rw [parsePrefix_of_splits, SplitN2_char_append name host '@' hn2]
  simp only
  rw [SplitN2_char_none name '!' hn1]

theorem parsePrefix_name_user (name user : Str) (hn1 : '!' ∉ name) (hn2 : '@' ∉ name)
    (hu : '@' ∉ user) :
    parsePrefix (name ++ '!' :: user) = { Name := name, User := user, Host := [] } := by
  rw [parsePrefix_of_splits, SplitN2_char_none (name ++ '!' :: user) '@' (by simp [hn2, hu])]
  simp only
  rw [SplitN2_char_append name user '!' hn1]

theorem parsePrefix_name (name : Str) (hn1 : '!' ∉ name) (hn2 : '@' ∉ name) :
    parsePrefix name = { Name := name, User := [], Host := [] } := by
  rw [parsePrefix_of_splits, SplitN2_char_none name '@' hn2]
  simp only
  rw [SplitN2_char_none name '!' hn1]

/-- C10: prefix round trip.  For a name without `!` and `@`, a user without `@` and any host,
`parsePrefix` recovers the three fields from `name!user@host`, and leaves the absent
ones empty for `name@host`, `name!user` and `name`; and a message parsed from a line
without a prefix block (the line, or what follows its tag block, does not start with `:`)
has a prefix whose three fields are empty. -/
theorem parsePrefix_roundtrip (name user host : Str) (hn1 : '!' ∉ name) (hn2 : '@' ∉ name)
    (hu : '@' ∉ user) :
    parsePrefix (name ++ "!".toList ++ user ++ "@".toList ++ host) =
        { Name := name, User := user, Host := host } ∧
      parsePrefix (name ++ "@".toList ++ host) = { Name := name, User := [], Host := host } ∧
      parsePrefix (name ++ "!".toList ++ user) = { Name := name, User := user, Host := [] } ∧
      parsePrefix name = { Name := name, User := [], Host := [] } ∧
      ∀ (up : Char → Char) (line : Str) (m : Message), parseMessage up line = Res.ok m →
        ((line.head? ≠ some '@' ∧ line.head? ≠ some ':') ∨
          ∃ T rest, line = "@".toList ++ T ++ " ".toList ++ rest ∧ ' ' ∉ T ∧
            rest.head? ≠ some ':') →
        m.Prefix = { Name := [], User := [], Host := [] } := by
  refine ⟨?_, ?_, ?_, ?_, ?_⟩
  · have := parsePrefix_full name user host hn1 hn2 hu
    simpa using this
  · have := parsePrefix_name_host name host hn1 hn2
    simpa using this
  · have := parsePrefix_name_user name user hn1 hn2 hu
    simpa using this
  · exact parsePrefix_name name hn1 hn2
  · intro up line m h hshape
    apply parseMessage_no_prefix_block up line m h
    rcases hshape with h1 | ⟨T, rest, hl, hT, hrest⟩
    · exact Or.inl h1
    · exact Or.inr ⟨T, rest, by simpa using hl, hT, hrest⟩

/-- C10 at the prefix `julezdev!jd@julezdev.tmi.twitch.tv` and at the line
`PING :tmi.twitch.tv`, which has no prefix block. -/
theorem parsePrefix_roundtrip_witness :
    ('!' ∉ "julezdev".toList ∧ '@' ∉ "julezdev".toList ∧ '@' ∉ "jd".toList) ∧
      parsePrefix "julezdev!jd@julezdev.tmi.twitch.tv".toList =
        { Name := "julezdev".toList, User := "jd".toList,
          Host := "julezdev.tmi.twitch.tv".toList } ∧
      parseMessage asciiUpper "PING :tmi.twitch.tv".toList = Res.ok pingMessage ∧
      pingMessage.Prefix = { Name := [], User := [], Host := [] } :=
  have h := parsePrefix_roundtrip "julezdev".toList "jd".toList "julezdev.tmi.twitch.tv".toList
    (by decide) (by decide) (by decide)
  ⟨⟨by decide, by decide, by decide⟩, h.1, by decide,
    h.2.2.2.2 asciiUpper "PING :tmi.twitch.tv".toList pingMessage (by decide)
      (Or.inl ⟨by decide, by decide⟩)⟩

/-! ## Lemmas on `strconv.Atoi` -/

theorem parseUintLoop_eq (cs : Str) (acc : Nat) (hacc : acc < 2 ^ 64) :
    parseUintLoop cs acc =
      if (cs.takeWhile isDigitChar).foldl (fun n c => n * 10 + (c.toNat - 48)) acc ≥ 2 ^ 64 then
        UintRes.outOfRange
      else if cs.takeWhile isDigitChar = cs then
        UintRes.val ((cs.takeWhile isDigitChar).foldl (fun n c => n * 10 + (c.toNat - 48)) acc)
      else UintRes.invalid := by
  induction cs generalizing acc with
  | nil =>
    norm_num at hacc
    simp only [parseUintLoop, List.takeWhile_nil, List.foldl_nil]
    norm_num
    rw [if_neg (by omega)]
  | cons c cs ih =>
    by_cases hd : 48 ≤ c.toNat ∧ c.toNat ≤ 57
    · have hdc : isDigitChar c = true := by simp [isDigitChar, hd]
      rw [parseUintLoop]
      simp only [hd, not_true_eq_false, if_false, List.takeWhile_cons, hdc, if_true,
        List.foldl_cons, List.cons.injEq, true_and]
      have hge := foldl_digits_ge (cs.takeWhile isDigitChar) (acc * 10 + (c.toNat - 48))
      by_cases h1 : acc ≥ (2 ^ 64 - 1) / 10 + 1
      · have : (cs.takeWhile isDigitChar).foldl (fun n c => n * 10 + (c.toNat - 48))
            (acc * 10 + (c.toNat - 48)) ≥ 2 ^ 64 := by
          norm_num at h1 ⊢
          omega
        rw [if_pos h1, if_pos this]
      · rw [if_neg h1]
        by_cases h2 : acc * 10 + (c.toNat - 48) > 2 ^ 64 - 1
        · have : (cs.takeWhile isDigitChar).foldl (fun n c => n * 10 + (c.toNat - 48))
              (acc * 10 + (c.toNat - 48)) ≥ 2 ^ 64 := by
            norm_num at h2 ⊢
            omega
          rw [if_pos h2, if_pos this]
        · rw [if_neg h2]
          exact ih _ (by norm_num at h2 ⊢; omega)
    · have hdc : isDigitChar c = false := by simp [isDigitChar, hd]
      norm_num at hacc
      rw [parseUintLoop]
      simp only [hd, not_false_eq_true, if_true, List.takeWhile_cons, hdc, List.foldl_nil]
      norm_num
      rw [if_neg (by omega)]
      simp

theorem takeWhile_isDigitChar_eq_self (s : Str) :
    s.takeWhile isDigitChar = s ↔ ∀ c ∈ s, 48 ≤ c.toNat ∧ c.toNat ≤ 57 := by
  rw [List.takeWhile_eq_self_iff]
  simp [isDigitChar]

theorem Atoi_eq_body (s : Str) :
    (Atoi s).1 =
      match unsignedPart s with
      | [] => 0
      | d :: ds =>
        match parseUintLoop (d :: ds) 0 with
        | UintRes.invalid => 0
        | UintRes.outOfRange => if isNegative s then -(2 ^ 63) else 2 ^ 63 - 1
        | UintRes.val un => nearestInt (if isNegative s then -(un : Int) else (un : Int)) := by
  cases s with
  | nil => rfl
  | cons c cs =>
    simp only [Atoi, unsignedPart, isNegative]
    cases hb : (if c = '+' ∨ c = '-' then cs else c :: cs) with
    | nil => rfl
    | cons d ds =>
      simp only []
      cases parseUintLoop (d :: ds) 0 with
      | invalid => rfl
      | outOfRange =>
        by_cases hn : c = '-' <;> simp [hn]
      | val un =>
        by_cases hn : c = '-'
        · simp only [hn, decide_True, not_true_eq_false, false_and, if_false, true_and, if_true,
            nearestInt]
          by_cases h1 : un > 2 ^ 63
          · rw [if_pos h1, if_pos (by omega)]
          · rw [if_neg h1, if_neg (by omega), if_neg (by omega)]
        · simp only [hn, decide_False, not_false_eq_true, true_and, false_and, if_false,
            Bool.false_eq_true, nearestInt]
          by_cases h1 : un ≥ 2 ^ 63
          · rw [if_pos h1, if_neg (by omega), if_pos (by omega)]
          · rw [if_neg h1, if_neg (by omega), if_neg (by omega)]

theorem isDecimal_iff_takeWhile (body : Str) :
    isDecimal body ↔ body ≠ [] ∧ body.takeWhile isDigitChar = body := by
  unfold isDecimal
  rw [takeWhile_isDigitChar_eq_self]

theorem parseUintLoop_decode (body : Str) (neg : Bool) :
    (match body with
      | [] => (0 : Int)
      | d :: ds =>
        match parseUintLoop (d :: ds) 0 with
        | UintRes.invalid => 0
        | UintRes.outOfRange => if neg then -(2 ^ 63) else 2 ^ 63 - 1
        | UintRes.val un => nearestInt (if neg then -(un : Int) else (un : Int))) =
      if isDecimal body then
        nearestInt (if neg then -(decimalValue body : Int) else (decimalValue body : Int))
      else if decimalValue (body.takeWhile isDigitChar) ≥ 2 ^ 64 then
        (if neg then -(2 ^ 63) else 2 ^ 63 - 1)
      else 0 := by
  cases body with
  | nil =>
    have : ¬ isDecimal [] := fun h => h.1 rfl
    simp [decimalValue, this]
  | cons d ds =>
    simp only []
    rw [parseUintLoop_eq (d :: ds) 0 (by norm_num)]
    have hval : ∀ l : Str, l.foldl (fun n c => n * 10 + (c.toNat - 48)) 0 = decimalValue l :=
      fun _ => rfl
    rw [hval]
    have hdec : isDecimal (d :: ds) ↔ (d :: ds).takeWhile isDigitChar = d :: ds := by
      rw [isDecimal_iff_takeWhile]
      simp
    by_cases hover : decimalValue ((d :: ds).takeWhile isDigitChar) ≥ 2 ^ 64
    · rw [if_pos hover]
      by_cases hall : (d :: ds).takeWhile isDigitChar = d :: ds
      · rw [if_pos (hdec.2 hall)]
        rw [hall] at hover
        unfold nearestInt
        cases neg
        · simp only [if_false, Bool.false_eq_true]
          rw [if_neg (by omega), if_pos (by omega)]
        · simp only [if_true]
          rw [if_pos (by omega)]
      · rw [if_neg (fun h => hall (hdec.1 h)), if_pos hover]
    · rw [if_neg hover]
      by_cases hall : (d :: ds).takeWhile isDigitChar = d :: ds
      · rw [if_pos hall, if_pos (hdec.2 hall)]
        simp only [hall]
      · rw [if_neg hall, if_neg (fun h => hall (hdec.1 h)), if_neg hover]

/-- The value `strconv.Atoi` returns, once its error is dropped, is the decoding described
by `decodeInt`. -/
theorem Atoi_eq_decodeInt (s : Str) : (Atoi s).1 = decodeInt s := by
  rw [Atoi_eq_body, parseUintLoop_decode (unsignedPart s) (isNegative s)]
  unfold decodeInt integerValue leadingDigits
  by_cases h : isInteger s
  · rw [if_pos h, if_pos (show isDecimal (unsignedPart s) from h)]
  · rw [if_neg h, if_neg (show ¬ isDecimal (unsignedPart s) from h)]

theorem decodeInt_integer (s : Str) (hs : isInteger s)
    (hlo : -(2 ^ 63) ≤ integerValue s) (hhi : integerValue s < 2 ^ 63) :
    decodeInt s = integerValue s := by
  unfold decodeInt nearestInt
  rw [if_pos hs, if_neg (by omega), if_neg (by omega)]

theorem decodeInt_not_integer (s : Str) (hs : ¬ isInteger s)
    (hlead : decimalValue (leadingDigits s) < 2 ^ 64) : decodeInt s = 0 := by
  unfold decodeInt
  rw [if_neg hs, if_neg (by omega)]

theorem Atoi_integer (s : Str) (hs : isInteger s)
    (hlo : -(2 ^ 63) ≤ integerValue s) (hhi : integerValue s < 2 ^ 63) :
    Atoi s = (integerValue s, false) := by
  cases s with
  | nil => exact absurd rfl hs.1
  | cons c cs =>
    unfold isInteger at hs
    unfold integerValue at hlo hhi ⊢
    by_cases hsign : c = '+' ∨ c = '-'
    · simp only [unsignedPart, hsign, if_true, isNegative] at hs hlo hhi ⊢
      obtain ⟨hne, hd⟩ := hs
      cases cs with
      | nil => exact absurd rfl hne
      | cons d ds =>
        have hbound : decimalValue (d :: ds) < 2 ^ 64 := by
          by_cases hn : c = '-'
          · simp only [hn, decide_True, if_true] at hlo
            omega
          · simp only [hn, decide_False, Bool.false_eq_true, if_false] at hhi
            omega
        have hloop := parseUintLoop_digits (d :: ds) 0 hd hbound
        simp only [Atoi, hsign, if_true, hloop]
        by_cases hn : c = '-'
        · simp only [hn, decide_True, if_true, not_true_eq_false, false_and, if_false,
            true_and] at hlo ⊢
          unfold decimalValue at hlo
          rw [if_neg (by omega)]
          rfl
        · simp only [hn, decide_False, Bool.false_eq_true, if_false, not_false_eq_true,
            true_and, false_and] at hhi ⊢
          unfold decimalValue at hhi
          rw [if_neg (by omega)]
          rfl
    · have hplus : c ≠ '+' := fun e => hsign (Or.inl e)
      have hminus : c ≠ '-' := fun e => hsign (Or.inr e)
      simp only [unsignedPart, hsign, if_false] at hs hlo hhi ⊢
      simp only [isNegative, hminus, decide_False, Bool.false_eq_true, if_false] at hlo hhi ⊢
      exact Atoi_decimal (c :: cs) hs (by omega)

/-! ## Lemmas on the tag decoders -/

theorem decodeTimeTag_eq (message : Message) :
    decodeTimeTag message = parseTime (tagOrEmpty message "tmi-sent-ts".toList) := by
  unfold decodeTimeTag tagOrEmpty
  cases GetTag message.Tags "tmi-sent-ts".toList <;> rfl

theorem TrimLeft_hash (s : Str) :
    ∃ k, s = List.replicate k '#' ++ TrimLeft s ['#'] ∧ (TrimLeft s ['#']).head? ≠ some '#' := by
  induction s with
  | nil => exact ⟨0, rfl, by simp [TrimLeft]⟩
  | cons c cs ih =>
    by_cases hc : c = '#'
    · subst hc
      obtain ⟨k, hk, hh⟩ := ih
      refine ⟨k + 1, ?_, ?_⟩
      · have : TrimLeft ('#' :: cs) ['#'] = TrimLeft cs ['#'] := by
          simp [TrimLeft, List.dropWhile_cons]
        rw [this, List.replicate_succ, List.cons_append, ← hk]
      · have : TrimLeft ('#' :: cs) ['#'] = TrimLeft cs ['#'] := by
          simp [TrimLeft, List.dropWhile_cons]
        rw [this]
        exact hh
    · have : TrimLeft (c :: cs) ['#'] = c :: cs := by
        simp [TrimLeft, List.dropWhile_cons, hc]
      refine ⟨0, by rw [this]; rfl, ?_⟩
      rw [this]
      simpa using hc

theorem tagOrEmpty_of_absentOrEmpty (message : Message) (key : Str)
    (h : tagAbsentOrEmpty message key) : tagOrEmpty message key = [] := by
  unfold tagOrEmpty
  rcases h with h | h <;> rw [h]

theorem decodeBadgesTag_of_result (message : Message) (b : Option (List (Str × Int)))
    (h : badgesResult message b) : decodeBadgesTag message = some b := by
  unfold badgesResult tagOrEmpty at h
  unfold decodeBadgesTag
  cases hg : GetTag message.Tags "badges".toList with
  | none =>
    rw [hg] at h
    rcases h with ⟨-, rfl⟩ | ⟨hne, -⟩
    · rfl
    · exact absurd rfl hne
  | some t =>
    rw [hg] at h
    simp only at h ⊢
    rcases h with ⟨rfl, rfl⟩ | ⟨hne, m, hm, rfl⟩
    · simp
    · simp [hne, hm]

theorem decodeEmotesTag_of_result (spare : Nat) (message : Message) (p0 p1 : Str)
    (rest : List Str) (hp : message.Params = p0 :: p1 :: rest) (e : Option (List Emote))
    (h : emotesResult spare message p1 e) : decodeEmotesTag spare message = some e := by
  unfold emotesResult tagOrEmpty at h
  unfold decodeEmotesTag
  cases hg : GetTag message.Tags "emotes".toList with
  | none =>
    rw [hg] at h
    rcases h with ⟨-, rfl⟩ | ⟨hne, -⟩
    · rfl
    · exact absurd rfl hne
  | some t =>
    rw [hg] at h
    simp only at h ⊢
    rcases h with ⟨rfl, rfl⟩ | ⟨hne, es, hes, rfl⟩
    · simp
    · simp [hne, hes, hp]

theorem parsePrivateMessage_expected (spare : Nat) (message : Message) (p0 p1 : Str)
    (rest : List Str) (b : Option (List (Str × Int))) (e : Option (List Emote))
    (hp : message.Params = p0 :: p1 :: rest)
    (hb : badgesResult message b) (he : emotesResult spare message p1 e) :
    parsePrivateMessage spare message =
      Res.ok (expectedPrivateMessage message p0 p1 b e) := by
  unfold parsePrivateMessage
  rw [decodeBadgesTag_of_result message b hb,
    decodeEmotesTag_of_result spare message p0 p1 rest hp e he]
  simp only [hp, decodeTimeTag_eq, expectedPrivateMessage]

theorem parseWhisper_fields (spare : Nat) (message : Message) (p0 p1 : Str)
    (rest : List Str) (b : Option (List (Str × Int))) (e : Option (List Emote))
    (hp : message.Params = p0 :: p1 :: rest)
    (hb : badgesResult message b) (he : emotesResult spare message p1 e) :
    parseWhisper spare message = Res.ok (expectedWhisperMessage message p1 b e) := by
  unfold parseWhisper
  rw [decodeBadgesTag_of_result message b hb,
    decodeEmotesTag_of_result spare message p0 p1 rest hp e he]
  simp only [hp, expectedWhisperMessage]

/-! ## Lemmas on `Write` -/

theorem byteLen_append (a b : Str) : byteLen (a ++ b) = byteLen a + byteLen b := by
  simp [byteLen]

theorem byteLen_line (message : Str) : byteLen (message ++ ['\r', '\n']) = byteLen message + 2 := by
  rw [byteLen_append]
  rfl

theorem connWrite_ok (sock : List (Option (Nat × Error))) (len : Nat)
    (h : ∀ o ∈ sock.take 1, o = none) : connWrite sock len = (len, none, sock.drop 1) := by
  cases sock with
  | nil => rfl
  | cons o later =>
    have ho : o = none := h o (by simp)
    subst ho
    rfl

theorem Flush_ok (b : BufWriter) (herr : b.err = none) (hn : b.n ≠ 0)
    (h : ∀ o ∈ b.sock.take 1, o = none) :
    b.Flush = ({ n := 0, err := none, sock := b.sock.drop 1, sent := b.sent + b.n }, none) := by
  unfold BufWriter.Flush
  rw [herr]
  simp only [hn, if_false, connWrite_ok b.sock b.n h]

theorem Flush_fail (b : BufWriter) (herr : b.err = none) (hn : b.n ≠ 0) (k : Nat) (e : Error)
    (later : List (Option (Nat × Error))) (h : b.sock = some (k, e) :: later) :
    b.Flush =
      ({ n := b.n - min k b.n, err := some e, sock := later, sent := b.sent + min k b.n },
        some e) := by
  unfold BufWriter.Flush
  rw [herr]
  simp only [hn, if_false, h, connWrite]

theorem writeLoop_stop (fuel : Nat) (b : BufWriter) (len : Nat)
    (h : b.err ≠ none ∨ len ≤ defaultBufSize - b.n) :
    BufWriter.writeLoop fuel b len = (b, len) := by
  cases fuel with
  | zero => rfl
  | succ fuel =>
    unfold BufWriter.writeLoop
    rw [if_neg]
    rintro ⟨h1, h2⟩
    rcases h with h | h
    · exact h h2
    · omega

theorem writeLoop_skip (j fuel : Nat) (b : BufWriter) (len : Nat) (hn : b.n = 0)
    (herr : b.err = none) (hsock : ∀ o ∈ b.sock.take j, o = none)
    (hlen : defaultBufSize * j < len) :
    BufWriter.writeLoop (fuel + j) b len =
      BufWriter.writeLoop fuel
        { n := 0, err := none, sock := b.sock.drop j, sent := b.sent + defaultBufSize * j }
        (len - defaultBufSize * j) := by
  induction j generalizing b len with
  | zero =>
    obtain ⟨n, err, sock, sent⟩ := b
    simp only at hn herr
    subst hn herr
    simp
  | succ j ih =>
    obtain ⟨n, err, sock, sent⟩ := b
    simp only at hn herr hsock
    subst hn herr
    have hbig : len > defaultBufSize - 0 := by
      simp only [defaultBufSize] at hlen ⊢
      omega
    have hhead : ∀ o ∈ sock.take 1, o = none := by
      intro o ho
      apply hsock o
      cases sock with
      | nil => simp at ho
      | cons x xs =>
        simp only [List.take_succ_cons, List.take_zero, List.mem_singleton] at ho
        simp [ho]
    have e : fuel + (j + 1) = (fuel + j) + 1 := rfl
    rw [e, BufWriter.writeLoop, if_pos ⟨hbig, rfl⟩]
    simp only []
    rw [Flush_ok { n := 0 + (defaultBufSize - 0), err := none, sock := sock, sent := sent } rfl
      (by simp [defaultBufSize]) hhead]
    simp only []
    rw [ih _ _ rfl rfl]
    · simp only [List.drop_drop]
      have e1 : 1 + j = j + 1 := Nat.add_comm 1 j
      have e2 : sent + (0 + (defaultBufSize - 0)) + defaultBufSize * j =
          sent + defaultBufSize * (j + 1) := by
        simp only [defaultBufSize]
        omega
      have e3 : len - (defaultBufSize - 0) - defaultBufSize * j =
          len - defaultBufSize * (j + 1) := by
        simp only [defaultBufSize]
        omega
      rw [e1, e2, e3]
    · intro o ho
      apply hsock o
      simp only at ho
      cases sock with
      | nil => simp at ho
      | cons x xs =>
        simp only [List.drop_succ_cons, List.drop_zero] at ho
        simp [ho]
    · simp only [defaultBufSize] at hlen ⊢
      omega

theorem WriteString_ok (b : BufWriter) (len : Nat) (hn : b.n = 0) (herr : b.err = none)
    (hlen : 1 ≤ len) (hsock : ∀ o ∈ b.sock.take ((len - 1) / defaultBufSize), o = none) :
    b.WriteString len =
      ({ n := len - defaultBufSize * ((len - 1) / defaultBufSize), err := none,
         sock := b.sock.drop ((len - 1) / defaultBufSize),
         sent := b.sent + defaultBufSize * ((len - 1) / defaultBufSize) }, none) := by
  have hq : defaultBufSize * ((len - 1) / defaultBufSize) < len := by
    have := Nat.mul_div_le (len - 1) defaultBufSize
    omega
  have hfuel : len + 1 = (len + 1 - (len - 1) / defaultBufSize) + (len - 1) / defaultBufSize := by
    have : (len - 1) / defaultBufSize ≤ len - 1 := Nat.div_le_self _ _
    omega
  have hrest : len - defaultBufSize * ((len - 1) / defaultBufSize) ≤ defaultBufSize := by
    have := Nat.lt_mul_div_succ (len - 1) (by decide : 0 < defaultBufSize)
    rw [Nat.mul_succ] at this
    omega
  unfold BufWriter.WriteString
  rw [hfuel, writeLoop_skip _ _ b len hn herr hsock hq,
    writeLoop_stop _ _ _ (Or.inr (by simpa using hrest))]
  simp

theorem byteLen_line_pos (message : Str) : 1 ≤ byteLen (message ++ ['\r', '\n']) := by
  rw [byteLen_line]
  omega

theorem chunks_lt (len : Nat) (hlen : 1 ≤ len) :
    defaultBufSize * ((len - 1) / defaultBufSize) < len := by
  have := Nat.mul_div_le (len - 1) defaultBufSize
  omega

theorem rest_le (len : Nat) :
    len - defaultBufSize * ((len - 1) / defaultBufSize) ≤ defaultBufSize := by
  have := Nat.lt_mul_div_succ (len - 1) (by decide : 0 < defaultBufSize)
  rw [Nat.mul_succ] at this
  omega

theorem wireEvents_all (line : Str) (h : 1 ≤ byteLen line) :
    wireEvents line (byteLen line) = [Event.wrote line] := by
  unfold wireEvents
  rw [if_neg (by omega), if_neg (by omega)]

theorem Write_succeeds (c : Connection) (message : Str) (h : writeSucceeds c message) :
    c.Write message =
      ({ c with sock := c.sock.drop (connWrites (message ++ ['\r', '\n'])),
                trace := c.trace ++ [Event.wrote (message ++ ['\r', '\n'])] }, none) := by
  obtain ⟨config, reg, irc, sock, trace, werr⟩ := c
  obtain ⟨hw, hs⟩ := h
  simp only at hw hs
  subst hw
  have hlen := byteLen_line_pos message
  have hq := chunks_lt _ hlen
  unfold connWrites at hs ⊢
  unfold Connection.Write
  simp only []
  rw [WriteString_ok _ _ rfl rfl hlen (fun o ho =>
    hs o (List.take_subset_take_left _ (Nat.le_succ _) ho))]
  simp only []
  rw [Flush_ok _ rfl (by simp only []; omega) (fun o ho => by
    apply hs o
    simp only at ho
    rw [List.take_add]
    exact List.mem_append_right _ ho)]
  simp only [Nat.zero_add, List.drop_drop]
  have e1 : defaultBufSize * ((byteLen (message ++ ['\r', '\n']) - 1) / defaultBufSize) +
      (byteLen (message ++ ['\r', '\n']) -
        defaultBufSize * ((byteLen (message ++ ['\r', '\n']) - 1) / defaultBufSize)) =
      byteLen (message ++ ['\r', '\n']) := by omega
  rw [e1, wireEvents_all _ hlen]

theorem Write_sticky (c : Connection) (message : Str) (e : Error) (h : c.werr = some e) :
    c.Write message = (c, some (Error.wrap e (writeErrorContext message))) := by
  obtain ⟨config, reg, irc, sock, trace, werr⟩ := c
  simp only at h
  subst h
  unfold Connection.Write BufWriter.WriteString
  simp only []
  rw [writeLoop_stop _ _ _ (Or.inl (by simp))]
  simp [wireEvents]

/-- A write fails in `WriteString` when the socket refuses a full buffer of the line that is
not its last part: the calls for the `j` buffers before it were accepted. -/
theorem Write_fails_in_WriteString (c : Connection) (message : Str) (j k : Nat) (e : Error)
    (later : List (Option (Nat × Error))) (hw : c.werr = none)
    (hs : c.sock = List.replicate j none ++ some (k, e) :: later)
    (hj : j + 1 < connWrites (message ++ ['\r', '\n'])) :
    c.Write message =
      ({ c with sock := later, werr := some e,
                trace := c.trace ++
                  wireEvents (message ++ ['\r', '\n'])
                    (defaultBufSize * j + min k defaultBufSize) },
        some (Error.wrap e (writeErrorContext message))) := by
  obtain ⟨config, reg, irc, sock, trace, werr⟩ := c
  simp only at hw hs
  subst hw hs
  unfold connWrites at hj
  have hjq : j < (byteLen (message ++ ['\r', '\n']) - 1) / defaultBufSize := by omega
  have hmul : defaultBufSize * (j + 1) ≤
      defaultBufSize * ((byteLen (message ++ ['\r', '\n']) - 1) / defaultBufSize) :=
    Nat.mul_le_mul_left _ hjq
  have hdiv := Nat.mul_div_le (byteLen (message ++ ['\r', '\n']) - 1) defaultBufSize
  have hq : defaultBufSize * j < byteLen (message ++ ['\r', '\n']) := by
    simp only [defaultBufSize] at hmul hdiv ⊢
    omega
  have hbig : byteLen (message ++ ['\r', '\n']) - defaultBufSize * j > defaultBufSize - 0 := by
    simp only [defaultBufSize] at hmul hdiv ⊢
    omega
  have hle : j ≤ byteLen (message ++ ['\r', '\n']) := by
    simp only [defaultBufSize] at hq
    omega
  have hfuel : byteLen (message ++ ['\r', '\n']) + 1 =
      ((byteLen (message ++ ['\r', '\n']) - j) + 1) + j := by omega
  unfold Connection.Write BufWriter.WriteString
  simp only []
  rw [hfuel, writeLoop_skip j _ _ _ rfl rfl (by
    intro o ho
    simp only [List.take_left' (List.length_replicate _ _)] at ho
    exact List.eq_of_mem_replicate ho) hq]
  simp only [List.drop_left' (List.length_replicate _ _), Nat.zero_add]
  rw [BufWriter.writeLoop, if_pos ⟨hbig, rfl⟩]
  simp only []
  rw [Flush_fail _ rfl (by simp [defaultBufSize]) k e later rfl]
  simp only []
  rw [writeLoop_stop _ _ _ (Or.inl (by simp))]
  simp

/-- A write fails in `Flush` when the socket refuses the last part of the line: the calls
for the full buffers before it were accepted. -/
theorem Write_fails_in_Flush (c : Connection) (message : Str) (k : Nat) (e : Error)
    (later : List (Option (Nat × Error))) (hw : c.werr = none)
    (hs : c.sock =
      List.replicate (connWrites (message ++ ['\r', '\n']) - 1) none ++ some (k, e) :: later) :
    c.Write message =
      ({ c with sock := later, werr := some e,
                trace := c.trace ++
                  wireEvents (message ++ ['\r', '\n'])
                    (defaultBufSize * (connWrites (message ++ ['\r', '\n']) - 1) +
                      min k (byteLen (message ++ ['\r', '\n']) -
                        defaultBufSize * (connWrites (message ++ ['\r', '\n']) - 1))) },
        some (Error.wrap e "connection.write: could not flush buffer")) := by
  obtain ⟨config, reg, irc, sock, trace, werr⟩ := c
  simp only at hw hs
  subst hw
  have hlen := byteLen_line_pos message
  have hq := chunks_lt _ hlen
  have hc : connWrites (message ++ ['\r', '\n']) - 1 =
      (byteLen (message ++ ['\r', '\n']) - 1) / defaultBufSize := by
    unfold connWrites
    exact Nat.add_sub_cancel _ _
  rw [hc] at hs ⊢
  subst hs
  unfold Connection.Write
  simp only []
  rw [WriteString_ok _ _ rfl rfl hlen (by
    intro o ho
    simp only [List.take_left' (List.length_replicate _ _)] at ho
    exact List.eq_of_mem_replicate ho)]
  simp only [List.drop_left' (List.length_replicate _ _), Nat.zero_add]
  rw [Flush_fail _ rfl (by simp only []; omega) k e later rfl]

/-- What a write never touches, and the shape of what it adds to the trace. -/
theorem Write_frame (c : Connection) (message : Str) :
    (c.Write message).1.channelHandler = c.channelHandler ∧
      (c.Write message).1.ircHandler = c.ircHandler ∧
      (c.Write message).1.config = c.config ∧
      ∃ sent, (c.Write message).1.trace = c.trace ++ wireEvents (message ++ ['\r', '\n']) sent := by
  unfold Connection.Write
  simp only []
  split
  · exact ⟨rfl, rfl, rfl, _, rfl⟩
  · split
    · exact ⟨rfl, rfl, rfl, _, rfl⟩
    · exact ⟨rfl, rfl, rfl, _, rfl⟩

theorem mem_wireEvents (line : Str) (sent : Nat) (ev : Event) (h : ev ∈ wireEvents line sent) :
    ev = Event.wrote line ∨ ev = Event.wrotePart sent line := by
  unfold wireEvents at h
  split at h
  · simp at h
  · split at h
    · right
      simpa using h
    · left
      simpa using h

theorem writesOf_wireEvents (line : Str) (sent : Nat) :
    writesOf (wireEvents line sent) = wireEvents line sent := by
  unfold wireEvents
  split
  · rfl
  · split <;> rfl

theorem first_failure (l : List (Option (Nat × Error))) (n : Nat)
    (h : ¬ ∀ o ∈ l.take n, o = none) :
    ∃ j k e later, j < n ∧ l = List.replicate j none ++ some (k, e) :: later := by
  induction l generalizing n with
  | nil => simp at h
  | cons o t ih =>
    cases n with
    | zero => simp at h
    | succ n =>
      cases o with
      | some f => exact ⟨0, f.1, f.2, t, Nat.succ_pos n, rfl⟩
      | none =>
        have ht : ¬ ∀ o ∈ t.take n, o = none := by
          intro hall
          apply h
          intro o ho
          simp only [List.take_succ_cons, List.mem_cons] at ho
          rcases ho with rfl | ho
          · rfl
          · exact hall o ho
        obtain ⟨j, k, e, later, hj, hl⟩ := ih n ht
        exact ⟨j + 1, k, e, later, Nat.succ_lt_succ hj, by rw [hl]; rfl⟩

/-- A write that does not succeed fails: `Write` returns nil exactly when `writeSucceeds`. -/
theorem Write_fails_of_not_succeeds (c : Connection) (message : Str)
    (h : ¬ writeSucceeds c message) : ∃ c1 err, c.Write message = (c1, some err) := by
  cases hw : c.werr with
  | some e => exact ⟨_, _, Write_sticky c message e hw⟩
  | none =>
    have hs : ¬ ∀ o ∈ c.sock.take (connWrites (message ++ ['\r', '\n'])), o = none :=
      fun hall => h ⟨hw, hall⟩
    obtain ⟨j, k, e, later, hj, hl⟩ := first_failure _ _ hs
    by_cases hlast : j + 1 < connWrites (message ++ ['\r', '\n'])
    · exact ⟨_, _, Write_fails_in_WriteString c message j k e later hw hl hlast⟩
    · have hj' : j = connWrites (message ++ ['\r', '\n']) - 1 := by omega
      rw [hj'] at hl
      exact ⟨_, _, Write_fails_in_Flush c message k e later hw hl⟩

theorem byteLen_replicate (n : Nat) (ch : Char) :
    byteLen (List.replicate n ch) = n * RuneLen ch := by
  induction n with
  | zero => simp [byteLen]
  | succ n ih =>
    simp only [byteLen] at ih
    simp only [byteLen, List.replicate_succ, List.map_cons, List.sum_cons, ih]
    rw [Nat.succ_mul, Nat.add_comm]

/-! ## Lemmas on `handleLine` -/

theorem parseMessage_raw (up : Char → Char) (line : Str) (msg : Message)
    (h : parseMessage up line = Res.ok msg) : msg.Message = TrimRight line ['\r', '\n'] := by
  rcases parseMessage_ok up line msg h with ⟨T, rest, -, -, h2⟩ | ⟨-, -, h2⟩
  · exact (parseAfterTags_keeps up _ msg rest h2).2
  · exact (parseAfterTags_keeps up _ msg _ h2).2

theorem route_channel_only (c : Connection) (msg : Message) (p0 : Str) (rest : List Str)
    (hp : msg.Params = p0 :: rest) (hk : routingKey p0 ≠ "tmi.twitch.tv".toList)
    (hw : msg.Command ≠ "WHISPER".toList) :
    c.route msg =
      match mapGet c.channelHandler (routingKey p0) with
      | some h =>
        ({ c with trace := c.trace ++ [Event.channelHandler (routingKey p0) msg] },
          match h msg with
          | some e => Res.err (Error.wrap e
              "connection.handleLine: could not handle message with the provided chat handler")
          | none => Res.ok ())
      | none => (c, Res.ok ()) := by
  unfold routingKey at hk ⊢
  unfold Connection.route
  simp only [hp, hk, hw, or_self, if_false]
  cases mapGet c.channelHandler (TrimPrefix p0 ['#']) with
  | none => rfl
  | some h =>
    simp only []
    cases h msg <;> rfl

theorem connWrites_pong : connWrites ("PONG :tmi.twitch.tv".toList ++ ['\r', '\n']) = 1 := by
  decide

theorem byteLen_pong : byteLen ("PONG :tmi.twitch.tv".toList ++ ['\r', '\n']) = 21 := by
  decide

theorem pongBytes_eq : "PONG :tmi.twitch.tv".toList ++ ['\r', '\n'] = pongBytes := by
  decide

/-- A line that fits the buffer is written when the next write does not fail. -/
theorem writeSucceeds_of_single (c : Connection) (message : Str)
    (h1 : connWrites (message ++ ['\r', '\n']) = 1) (h : ¬ nextWriteFails c) :
    writeSucceeds c message := by
  unfold nextWriteFails at h
  refine ⟨?_, ?_⟩
  · by_contra hw
    exact h (Or.inl hw)
  · rw [h1]
    intro o ho
    cases hs : c.sock with
    | nil => simp [hs] at ho
    | cons x xs =>
      simp only [hs, List.take_succ_cons, List.take_zero, List.mem_singleton] at ho
      subst ho
      cases o with
      | none => rfl
      | some f => exact absurd (Or.inr ⟨f, xs, hs⟩) h

theorem sendPong_ok (c : Connection) (h : ¬ nextWriteFails c) :
    ∃ c1 : Connection, c.sendPong = (c1, none) ∧ c1.trace = c.trace ++ [Event.wrote pongBytes] ∧
      c1.channelHandler = c.channelHandler ∧ c1.ircHandler = c.ircHandler ∧
      c1.config = c.config := by
  unfold Connection.sendPong
  rw [Write_succeeds c _ (writeSucceeds_of_single c _ connWrites_pong h), pongBytes_eq]
  exact ⟨_, rfl, rfl, rfl, rfl, rfl⟩

theorem sendPong_sticky (c : Connection) (e : Error) (h : c.werr = some e) :
    c.sendPong =
      (c, some (Error.wrap e
        "connection.write: could not write message PONG :tmi.twitch.tv")) := by
  unfold Connection.sendPong
  rw [Write_sticky c _ e h]
  rfl

theorem sendPong_refused (c : Connection) (k : Nat) (e : Error)
    (later : List (Option (Nat × Error))) (hw : c.werr = none)
    (h : c.sock = some (k, e) :: later) :
    c.sendPong =
      ({ c with sock := later, werr := some e,
                trace := c.trace ++ wireEvents pongBytes (min k 21) },
        some (Error.wrap e "connection.write: could not flush buffer")) := by
  unfold Connection.sendPong
  rw [Write_fails_in_Flush c _ k e later hw (by rw [connWrites_pong]; exact h)]
  have h1 : connWrites pongBytes = 1 := by decide
  have h2 : byteLen pongBytes = 21 := by decide
  simp only [pongBytes_eq, h1, h2, Nat.sub_self, Nat.mul_zero, Nat.zero_add, Nat.sub_zero]

/-- What `handleLine` does with a line that parses: it sends the PONG when one is due, stops
with the write error when that fails, and routes the message otherwise. -/
theorem handleLine_parsed (up : Char → Char) (c : Connection) (line : Str) (msg : Message)
    (hparse : parseMessage up line = Res.ok msg) :
    (¬ pongDue c msg → c.handleLine up line = c.route msg) ∧
      (pongDue c msg → ¬ nextWriteFails c →
        ∃ c1 : Connection, c.handleLine up line = c1.route msg ∧
          c1.trace = c.trace ++ [Event.wrote pongBytes] ∧
          c1.channelHandler = c.channelHandler ∧ c1.ircHandler = c.ircHandler) ∧
      (pongDue c msg → ∀ c1 e, c.sendPong = (c1, some e) →
        c.handleLine up line = (c1, Res.err e)) := by
  unfold Connection.handleLine
  rw [hparse]
  refine ⟨?_, ?_, ?_⟩
  · intro hdue
    unfold pongDue at hdue
    simp only [hdue, if_false]
  · intro hdue hw
    obtain ⟨c1, h1, h2, h3, h4, -⟩ := sendPong_ok c hw
    unfold pongDue at hdue
    simp only [hdue, and_self, if_true, h1]
    exact ⟨c1, rfl, h2, h3, h4⟩
  · intro hdue c1 e hs
    unfold pongDue at hdue
    simp only [hdue, and_self, if_true, hs]

/-- When the next write fails, the PONG is not sent: the error comes from `WriteString` when
the writer has failed before and from `Flush` when the socket refuses the call. -/
theorem sendPong_fails (c : Connection) (h : nextWriteFails c) :
    ∃ c1 e sent, c.sendPong = (c1, some e) ∧ c1.trace = c.trace ++ wireEvents pongBytes sent := by
  cases hw : c.werr with
  | some e =>
    refine ⟨c, _, 0, sendPong_sticky c e hw, ?_⟩
    simp [wireEvents]
  | none =>
    rcases h with h | ⟨⟨k, e⟩, later, hs⟩
    · exact absurd hw h
    · exact ⟨_, _, min k 21, sendPong_refused c k e later hw hs, rfl⟩

theorem writesOf_append (a b : List Event) : writesOf (a ++ b) = writesOf a ++ writesOf b := by
  induction a with
  | nil => rfl
  | cons e a ih =>
    cases e <;> simp [writesOf, ih]

/-- What `route` adds to the trace: handler invocations only; the generic handler first when
the message is one for it; and a handler that returns an error ends the routing with that
error wrapped. -/
theorem route_events (c : Connection) (msg : Message) :
    ∃ new, (c.route msg).1.trace = c.trace ++ new ∧ writesOf new = [] ∧
      (∀ p0 rest, msg.Params = p0 :: rest →
        (routingKey p0 = "tmi.twitch.tv".toList ∨ msg.Command = "WHISPER".toList) →
        ∃ more, new = Event.ircHandler msg :: more) ∧
      (∀ m e, Event.ircHandler m ∈ new → c.ircHandler m = some e →
        (c.route msg).2 = Res.err (Error.wrap e
          "connection.handleLine: could not handle message with the provided irc handler") ∧
        ∀ k m', Event.channelHandler k m' ∉ new) ∧
      (∀ k m h e, Event.channelHandler k m ∈ new → mapGet c.channelHandler k = some h →
        h m = some e →
        (c.route msg).2 = Res.err (Error.wrap e
          "connection.handleLine: could not handle message with the provided chat handler")) := by
  unfold Connection.route routingKey
  cases hp : msg.Params with
  | nil => exact ⟨[], by simp, rfl, by simp, by simp, by simp⟩
  | cons p0 rest =>
    simp only []
    by_cases hg : TrimPrefix p0 ['#'] = "tmi.twitch.tv".toList ∨ msg.Command = "WHISPER".toList
    · rw [if_pos hg]
      cases hi : c.ircHandler msg with
      | some e =>
        refine ⟨[Event.ircHandler msg], by simp, rfl, ?_, ?_, ?_⟩
        · intro p0' rest' hpp _
          exact ⟨[], rfl⟩
        · intro m e' hm he'
          simp only [List.mem_singleton, Event.ircHandler.injEq] at hm
          subst hm
          rw [hi] at he'
          cases he'
          exact ⟨rfl, by simp⟩
        · intro k m h e' hm
          simp at hm
      | none =>
        simp only []
        cases hm : mapGet c.channelHandler (TrimPrefix p0 ['#']) with
        | none =>
          refine ⟨[Event.ircHandler msg], by simp, rfl, ?_, ?_, ?_⟩
          · intro p0' rest' hpp _
            exact ⟨[], rfl⟩
          · intro m e' hm' he'
            simp only [List.mem_singleton, Event.ircHandler.injEq] at hm'
            subst hm'
            rw [hi] at he'
            cases he'
          · intro k m h e' hm'
            simp at hm'
        | some h =>
          simp only []
          refine ⟨[Event.ircHandler msg, Event.channelHandler (TrimPrefix p0 ['#']) msg],
            ?_, rfl, ?_, ?_, ?_⟩
          · cases h msg <;> simp
          · intro p0' rest' hpp _
            exact ⟨_, rfl⟩
          · intro m e' hm' he'
            simp only [List.mem_cons, Event.ircHandler.injEq, reduceCtorEq, List.mem_singleton,
              or_false, List.not_mem_nil] at hm'
            subst hm'
            rw [hi] at he'
            cases he'
          · intro k m h' e' hm' hreg he'
            simp only [List.mem_cons, reduceCtorEq, List.mem_singleton,
              Event.channelHandler.injEq, false_or, List.not_mem_nil, or_false] at hm'
            obtain ⟨rfl, rfl⟩ := hm'
            rw [hm] at hreg
            cases hreg
            rw [he']
    · rw [if_neg hg]
      simp only []
      cases hm : mapGet c.channelHandler (TrimPrefix p0 ['#']) with
      | none =>
        refine ⟨[], by simp, rfl, ?_, by simp, by simp⟩
        intro p0' rest' hpp hg'
        simp only [List.cons.injEq] at hpp
        rw [← hpp.1] at hg'
        exact absurd hg' hg
      | some h =>
        simp only []
        refine ⟨[Event.channelHandler (TrimPrefix p0 ['#']) msg], ?_, rfl, ?_, ?_, ?_⟩
        · cases h msg <;> simp
        · intro p0' rest' hpp hg'
          simp only [List.cons.injEq] at hpp
          rw [← hpp.1] at hg'
          exact absurd hg' hg
        · intro m e' hm'
          simp at hm'
        · intro k m h' e' hm' hreg he'
          simp only [List.mem_singleton, Event.channelHandler.injEq] at hm'
          obtain ⟨rfl, rfl⟩ := hm'
          rw [hm] at hreg
          cases hreg
          rw [he']

/-- What `handleLine` adds to the trace: what the write of the PONG, when one is due, puts
on the socket, then the handler invocations of the routing. -/
theorem handleLine_events (up : Char → Char) (c : Connection) (line : Str) :
    ∃ pre new, (c.handleLine up line).1.trace = c.trace ++ pre ++ new ∧ writesOf new = [] ∧
      (∃ sent, pre = wireEvents pongBytes sent) ∧
      (pre ≠ [] → ∃ msg, parseMessage up line = Res.ok msg ∧ pongDue c msg) ∧
      ((∃ msg, parseMessage up line = Res.ok msg ∧ pongDue c msg) → ¬ nextWriteFails c →
        pre = [Event.wrote pongBytes]) ∧
      (∀ msg p0 rest, parseMessage up line = Res.ok msg → msg.Params = p0 :: rest →
        (routingKey p0 = "tmi.twitch.tv".toList ∨ msg.Command = "WHISPER".toList) →
        (pongDue c msg → ¬ nextWriteFails c) → ∃ more, new = Event.ircHandler msg :: more) ∧
      (∀ m e, Event.ircHandler m ∈ new → c.ircHandler m = some e →
        (c.handleLine up line).2 = Res.err (Error.wrap e
          "connection.handleLine: could not handle message with the provided irc handler") ∧
        ∀ k m', Event.channelHandler k m' ∉ new) ∧
      (∀ k m h e, Event.channelHandler k m ∈ new → mapGet c.channelHandler k = some h →
        h m = some e →
        (c.handleLine up line).2 = Res.err (Error.wrap e
          "connection.handleLine: could not handle message with the provided chat handler")) := by
  have hnil : ∃ sent, ([] : List Event) = wireEvents pongBytes sent := ⟨0, by simp [wireEvents]⟩
  cases hparse : parseMessage up line with
  | panic =>
    refine ⟨[], [], ?_, rfl, hnil, by simp, ?_, ?_, by simp, by simp⟩
    · simp [Connection.handleLine, hparse]
    · rintro ⟨msg, h, -⟩
      cases h
    · intro msg p0 rest h
      cases h
  | err e0 =>
    refine ⟨[], [], ?_, rfl, hnil, by simp, ?_, ?_, by simp, by simp⟩
    · simp [Connection.handleLine, hparse]
    · rintro ⟨msg, h, -⟩
      cases h
    · intro msg p0 rest h
      cases h
  | ok msg =>
    obtain ⟨hno, hyes, hfail⟩ := handleLine_parsed up c line msg hparse
    by_cases hdue : pongDue c msg
    · by_cases hw : nextWriteFails c
      · obtain ⟨c1, e, sent, hs, htr⟩ := sendPong_fails c hw
        refine ⟨wireEvents pongBytes sent, [], ?_, rfl, ⟨sent, rfl⟩, ?_, ?_, ?_, by simp,
          by simp⟩
        · rw [hfail hdue c1 e hs, htr]
          simp
        · intro _
          exact ⟨msg, rfl, hdue⟩
        · intro _ hnf
          exact absurd hw hnf
        · intro msg' p0 rest h hp hg hpong
          cases h
          exact absurd hw (hpong hdue)
      · obtain ⟨c1, h1, h2, h3, h4⟩ := hyes hdue hw
        obtain ⟨new, r1, r2, r3, r4, r5⟩ := route_events c1 msg
        refine ⟨[Event.wrote pongBytes], new, ?_, r2,
          ⟨21, by rw [← byteLen_pong, ← pongBytes_eq, wireEvents_all _ (by decide)]⟩, ?_, ?_, ?_,
          ?_, ?_⟩
        · rw [h1, r1, h2]
        · intro _
          exact ⟨msg, rfl, hdue⟩
        · intro _ _
          rfl
        · intro msg' p0 rest h hp hg _
          cases h
          exact r3 p0 rest hp hg
        · intro m e hm he
          rw [h1]
          exact r4 m e hm (h4 ▸ he)
        · intro k m h e hm hreg he
          rw [h1]
          exact r5 k m h e hm (h3 ▸ hreg) he
    · obtain ⟨new, r1, r2, r3, r4, r5⟩ := route_events c msg
      refine ⟨[], new, ?_, r2, hnil, ?_, ?_, ?_, ?_, ?_⟩
      · rw [hno hdue, r1]
        simp
      · intro h
        exact absurd rfl h
      · rintro ⟨msg', h, hd⟩ _
        cases h
        exact absurd hd hdue
      · intro msg' p0 rest h hp hg _
        cases h
        exact r3 p0 rest hp hg
      · intro m e hm he
        rw [hno hdue]
        exact r4 m e hm he
      · intro k m h e hm hreg he
        rw [hno hdue]
        exact r5 k m h e hm hreg he

theorem not_handler_of_mem_wireEvents (line : Str) (sent : Nat) (ev : Event)
    (h : ev ∈ wireEvents line sent) :
    (∀ m, ev ≠ Event.ircHandler m) ∧ ∀ k m, ev ≠ Event.channelHandler k m := by
  rcases mem_wireEvents line sent ev h with rfl | rfl
  · exact ⟨fun m e => (by cases e), fun k m e => (by cases e)⟩
  · exact ⟨fun m e => (by cases e), fun k m e => (by cases e)⟩

/-! ## C11: `parsePrivateMessage` -/

/-- C11 as the code has it: for every Message with at least two parameters `p0`, `p1` on
whose badges tag, when not empty, `parseBadges` returns (`b`) and on whose emotes tag, when
not empty, `parseEmotes` returns (`e`), `parsePrivateMessage` returns no error and the
PrivateMessage with Channel = `p0` without one leading `#`, Text = `p1`, ID, RoomID,
User.ID, User.DisplayName and User.Color the tags `id`, `room-id`, `user-id`,
`display-name` and `color` (empty when absent), User.Name the user of the prefix, Time =
`parseTime` of the tag `tmi-sent-ts`, Emotes = `e`, User.Badges = `b` and Raw the
message. -/
theorem parsePrivateMessage_fields (spare : Nat) (message : Message) (p0 p1 : Str)
    (rest : List Str) (b : Option (List (Str × Int))) (e : Option (List Emote))
    (hp : message.Params = p0 :: p1 :: rest)
    (hb : badgesResult message b) (he : emotesResult spare message p1 e) :
    parsePrivateMessage spare message =
      Res.ok { ID := tagOrEmpty message "id".toList,
               RoomID := tagOrEmpty message "room-id".toList,
               User := { ID := tagOrEmpty message "user-id".toList,
                         DisplayName := tagOrEmpty message "display-name".toList,
                         Name := message.Prefix.User,
                         Color := tagOrEmpty message "color".toList,
                         Badges := b },
               Emotes := e,
               Text := p1,
               Channel := TrimPrefix p0 ['#'],
               Time := parseTime (tagOrEmpty message "tmi-sent-ts".toList),
               Raw := message } := by
  unfold parsePrivateMessage
  rw [decodeBadgesTag_of_result message b hb,
    decodeEmotesTag_of_result spare message p0 p1 rest hp e he]
  simp only [hp, decodeTimeTag_eq]

set_option maxRecDepth 100000 in
/-- C11 as the code has it, at the line of the repository's test `as-broadcaster`. -/
theorem parsePrivateMessage_fields_witness :
    parseMessage asciiUpper privEmoteMessage.Message = Res.ok privEmoteMessage ∧
      parsePrivateMessage 0 privEmoteMessage =
        Res.ok { ID := "5bb550d4-bd15-4a96-9de2-c0298b2d01a9".toList,
                 RoomID := "530594933".toList,
                 User := { ID := "530594933".toList, DisplayName := "julezdev".toList,
                           Name := "julezdev".toList, Color := "#FFFFFF".toList,
                           Badges := some [("broadcaster".toList, 1)] },
                 Emotes := some [{ Name := "ratirlPickle".toList, ID := "302213289".toList,
                                   Count := 2 },
                                 { Name := "ratirlPopcorn".toList, ID := "302242139".toList,
                                   Count := 1 }],
                 Text := "ratirlPickle ratirlPopcorn ratirlPickle test test".toList,
                 Channel := "julezdev".toList,
                 Time := Time.unix 1591719487292000000,
                 Raw := privEmoteMessage } :=
  ⟨by decide,
    parsePrivateMessage_fields 0 privEmoteMessage "#julezdev".toList
      "ratirlPickle ratirlPopcorn ratirlPickle test test".toList []
      (some [("broadcaster".toList, 1)])
      (some [{ Name := "ratirlPickle".toList, ID := "302213289".toList, Count := 2 },
             { Name := "ratirlPopcorn".toList, ID := "302242139".toList, Count := 1 }])
      rfl (Or.inr ⟨by decide, _, by decide, rfl⟩) (Or.inr ⟨by decide, _, by decide, rfl⟩)⟩

/-- C11 fails as stated: the Message with the two parameters `#chan`, `hi` and the badges
tag `x` makes `parsePrivateMessage` panic (in `parseBadges`, at `pair[1]`) instead of
returning a PrivateMessage. -/
theorem parsePrivateMessage_panics_on_bad_badges :
    parseMessage asciiUpper "@badges=x :a!b@c PRIVMSG #chan :hi".toList =
        Res.ok badBadgesMessage ∧
      parsePrivateMessage 0 badBadgesMessage = Res.panic := by
  decide

/-! ## C12 and C13: `parseClearChat` -/

/-- C12 as the code has it: for every Message with at least two parameters `p0`, `p1`,
`parseClearChat` returns no error and a ClearChatMessage with Channel = `p0` without all
its leading `#`, TargetUser = `p1`, TargetUserID and RoomID the tags `target-user-id` and
`room-id` (empty when absent), Time = `parseTime` of the tag `tmi-sent-ts` (of the empty
text when absent), Raw the message, and BanDuration = 0 when the tag `ban-duration` is
absent and `decodeInt` of the tag otherwise: the integer the tag denotes when that fits an
`int`, 0 when the tag is not a decimal integer and its leading digits stay below `2^64`. -/
theorem parseClearChat_fields (message : Message) (p0 p1 : Str) (rest : List Str)
    (hp : message.Params = p0 :: p1 :: rest) :
    parseClearChat message =
        Res.ok { TargetUserID := tagOrEmpty message "target-user-id".toList,
                 RoomID := tagOrEmpty message "room-id".toList,
                 TargetUser := p1,
                 Time := parseTime (tagOrEmpty message "tmi-sent-ts".toList),
                 BanDuration :=
                   (match GetTag message.Tags "ban-duration".toList with
                     | some t => decodeInt t
                     | none => 0),
                 Channel := TrimLeft p0 ['#'],
                 Raw := message } ∧
      (∃ k, p0 = List.replicate k '#' ++ TrimLeft p0 ['#'] ∧
        (TrimLeft p0 ['#']).head? ≠ some '#') ∧
      (∀ t, isInteger t → -(2 ^ 63) ≤ integerValue t → integerValue t < 2 ^ 63 →
        decodeInt t = integerValue t) ∧
      (∀ t, ¬ isInteger t → decimalValue (leadingDigits t) < 2 ^ 64 → decodeInt t = 0) := by
  refine ⟨?_, TrimLeft_hash p0, fun t h1 h2 h3 => decodeInt_integer t h1 h2 h3,
    fun t h1 h2 => decodeInt_not_integer t h1 h2⟩
  unfold parseClearChat
  simp only [hp, decodeTimeTag_eq, Atoi_eq_decodeInt]

/-- C12 as the code has it, at the line of the repository's test `timeout-10`. -/
theorem parseClearChat_fields_witness :
    parseMessage asciiUpper
        ("@ban-duration=10;room-id=530594933;target-user-id=12427;" ++
          "tmi-sent-ts=1591726290782 :tmi.twitch.tv CLEARCHAT #julezdev :test").toList =
        Res.ok timeoutMessage ∧
      parseClearChat timeoutMessage =
        Res.ok { TargetUserID := "12427".toList, RoomID := "530594933".toList,
                 TargetUser := "test".toList, Time := Time.unix 1591726290782000000,
                 BanDuration := 10, Channel := "julezdev".toList, Raw := timeoutMessage } :=
  ⟨by decide,
    (parseClearChat_fields timeoutMessage "#julezdev".toList "test".toList [] rfl).1⟩

/-- C12 fails as stated: a ban duration written as the decimal integer
`99999999999999999999` decodes neither to that integer nor to 0 but to the largest `int`. -/
theorem parseClearChat_large_ban_duration :
    parseClearChat largeBanMessage =
        Res.ok { TargetUserID := [], RoomID := [], TargetUser := "test".toList,
                 Time := Time.zero, BanDuration := 9223372036854775807,
                 Channel := "julezdev".toList, Raw := largeBanMessage } ∧
      (9223372036854775807 : Int) ≠ 99999999999999999999 ∧ (9223372036854775807 : Int) ≠ 0 := by
  decide

/-- C13 (fails on the code): the full-channel clear `:tmi.twitch.tv CLEARCHAT #julezdev`
parses to a message with the one parameter `#julezdev`, and `parseClearChat` leaves the
Channel of that message empty instead of setting it to `julezdev`: the channel is filled in
only under the guard `len(message.Params) > 1`. -/
theorem parseClearChat_full_clear_loses_channel :
    parseMessage asciiUpper ":tmi.twitch.tv CLEARCHAT #julezdev".toList =
        Res.ok fullClearMessage ∧
      parseClearChat fullClearMessage =
        Res.ok { TargetUserID := [], RoomID := [], TargetUser := [], Time := Time.zero,
                 BanDuration := 0, Channel := [], Raw := fullClearMessage } := by
  decide

/-! ## C14: `parseBadges` -/

theorem parseBadgesStep_renderBadge (badges : List (Str × Int)) (e : Str × Str)
    (hn : '/' ∉ e.1) :
    parseBadgesStep badges (renderBadge e) = some (mapSet badges e.1 (decodeInt e.2)) := by
  unfold parseBadgesStep renderBadge
  rw [SplitN2_char_append e.1 e.2 '/' hn]
  simp only [Atoi_eq_decodeInt]

theorem parseBadgesLoop_renderBadge (es : List (Str × Str)) (acc : List (Str × Int))
    (hn : ∀ e ∈ es, '/' ∉ e.1) (hnd : (es.map Prod.fst).Nodup)
    (hdis : ∀ e ∈ es, e.1 ∉ acc.map Prod.fst) :
    parseBadgesLoop (es.map renderBadge) acc =
      some (acc ++ es.map (fun e => (e.1, decodeInt e.2))) := by
  induction es generalizing acc with
  | nil => simp [parseBadgesLoop]
  | cons e es ih =>
    simp only [List.map_cons, List.nodup_cons] at hnd
    simp only [List.map_cons, parseBadgesLoop]
    rw [parseBadgesStep_renderBadge acc e (hn e (by simp)),
      mapSet_new acc _ _ (hdis e (by simp))]
    simp only []
    rw [ih _ (fun x hx => hn x (by simp [hx])) hnd.2]
    · simp
    · intro x hx
      simp only [List.map_append, List.map_cons, List.map_nil, List.mem_append,
        List.mem_singleton, not_or]
      refine ⟨hdis x (by simp [hx]), ?_⟩
      intro hxe
      exact hnd.1 (hxe ▸ List.mem_map_of_mem Prod.fst hx)

theorem parseBadges_renderBadges (es : List (Str × Str)) (hne : es ≠ [])
    (hnd : (es.map Prod.fst).Nodup)
    (hn : ∀ e ∈ es, ',' ∉ e.1 ∧ '/' ∉ e.1) (hv : ∀ e ∈ es, ',' ∉ e.2) :
    parseBadges (renderBadges es) = some (es.map (fun e => (e.1, decodeInt e.2))) := by
  unfold parseBadges renderBadges Split
  rw [splitAt_intercalate _ ',' (by simp) (es.map renderBadge) (by simpa using hne)]
  · have := parseBadgesLoop_renderBadge es [] (fun e he => (hn e he).2) hnd (by simp)
    simpa using this
  · intro p hp c hc
    simp only [List.mem_map] at hp
    obtain ⟨e, he, rfl⟩ := hp
    simp only [decide_eq_false_iff_not]
    intro hcc
    subst hcc
    simp only [renderBadge, List.mem_append, List.mem_cons] at hc
    rcases hc with hc | hc | hc
    · exact (hn e he).1 hc
    · simp at hc
    · exact hv e he hc

/-- C14 as the code has it: for pairwise distinct badge names `n1..nk` (`k >= 1`, no `,` and
no `/` in a name) and version texts `v1..vk` without `,`, `parseBadges` of
`n1/v1,...,nk/vk` does not fail and is the map with exactly the `k` entries `ni -> d(vi)`,
where `d` is `decodeInt`: a version written as a decimal integer within the range of
`int` decodes to that integer, and a version that is not a decimal integer decodes to 0
provided its leading digits stay below `2^64`. -/
theorem parseBadges_entries (es : List (Str × Str)) (hne : es ≠ [])
    (hnd : (es.map Prod.fst).Nodup)
    (hn : ∀ e ∈ es, ',' ∉ e.1 ∧ '/' ∉ e.1) (hv : ∀ e ∈ es, ',' ∉ e.2) :
    parseBadges (renderBadges es) = some (es.map (fun e => (e.1, decodeInt e.2))) ∧
      (∀ e ∈ es, isInteger e.2 → -(2 ^ 63) ≤ integerValue e.2 → integerValue e.2 < 2 ^ 63 →
        decodeInt e.2 = integerValue e.2) ∧
      (∀ e ∈ es, ¬ isInteger e.2 → decimalValue (leadingDigits e.2) < 2 ^ 64 →
        decodeInt e.2 = 0) :=
  ⟨parseBadges_renderBadges es hne hnd hn hv,
    fun e _ h1 h2 h3 => decodeInt_integer e.2 h1 h2 h3,
    fun e _ h1 h2 => decodeInt_not_integer e.2 h1 h2⟩

/-- C14 as the code has it, at the tag `subscriber/18,overwatch-league-insider_2019A/1` of
the repository's tests, with a third badge whose version `x1` is not a decimal integer. -/
theorem parseBadges_entries_witness :
    parseBadges "subscriber/18,overwatch-league-insider_2019A/1,vip/x1".toList =
      some [("subscriber".toList, 18), ("overwatch-league-insider_2019A".toList, 1),
            ("vip".toList, 0)] :=
  (parseBadges_entries
    [("subscriber".toList, "18".toList), ("overwatch-league-insider_2019A".toList, "1".toList),
     ("vip".toList, "x1".toList)]
    (by decide) (by decide) (by decide) (by decide)).1

/-- C14 fails as stated: the badge `sub/99999999999999999999`, whose version is written as
a decimal integer, decodes neither to that integer nor to 0 but to the largest `int`. -/
theorem parseBadges_large_version :
    parseBadges "sub/99999999999999999999".toList =
        some [("sub".toList, 9223372036854775807)] ∧
      parseBadges "sub/99999999999999999999".toList ≠
        some [("sub".toList, 99999999999999999999)] ∧
      parseBadges "sub/99999999999999999999".toList ≠ some [("sub".toList, 0)] := by
  decide

/-! ## C15: absent and empty tags -/

/-- C15 as the code has it, for every Message with at least two parameters `p0`, `p1`, as
PRIVMSG and as WHISPER.  When the badges tag is absent or empty, decoding fails only if
`parseEmotes` does: whenever the emotes decode (to `e`), the decoded message has
User.Badges absent.  Likewise, when the emotes tag is absent or empty, decoding fails only
if `parseBadges` does, and whenever the badges decode (to `b`) Emotes is absent.  When both
tags are absent or empty, decoding does not fail.  The whisper has Text = `p1`, MessageID
and ThreadID the tags `message-id` and `thread-id`, and User.Name the user of the
prefix. -/
theorem decode_absent_or_empty_tags (spare : Nat) (message : Message) (p0 p1 : Str)
    (rest : List Str) (hp : message.Params = p0 :: p1 :: rest) :
    (tagAbsentOrEmpty message "badges".toList → ∀ e, emotesResult spare message p1 e →
        parsePrivateMessage spare message =
            Res.ok (expectedPrivateMessage message p0 p1 none e) ∧
          parseWhisper spare message = Res.ok (expectedWhisperMessage message p1 none e)) ∧
      (tagAbsentOrEmpty message "emotes".toList → ∀ b, badgesResult message b →
        parsePrivateMessage spare message =
            Res.ok (expectedPrivateMessage message p0 p1 b none) ∧
          parseWhisper spare message = Res.ok (expectedWhisperMessage message p1 b none)) ∧
      (tagAbsentOrEmpty message "badges".toList → tagAbsentOrEmpty message "emotes".toList →
        parsePrivateMessage spare message =
            Res.ok (expectedPrivateMessage message p0 p1 none none) ∧
          parseWhisper spare message =
            Res.ok (expectedWhisperMessage message p1 none none)) := by
  have hboth : ∀ b e, badgesResult message b → emotesResult spare message p1 e →
      parsePrivateMessage spare message = Res.ok (expectedPrivateMessage message p0 p1 b e) ∧
        parseWhisper spare message = Res.ok (expectedWhisperMessage message p1 b e) :=
    fun b e hb he =>
      ⟨parsePrivateMessage_expected spare message p0 p1 rest b e hp hb he,
        parseWhisper_fields spare message p0 p1 rest b e hp hb he⟩
  refine ⟨?_, ?_, ?_⟩
  · intro hbad e he
    exact hboth none e (Or.inl ⟨tagOrEmpty_of_absentOrEmpty _ _ hbad, rfl⟩) he
  · intro hem b hb
    exact hboth b none hb (Or.inl ⟨tagOrEmpty_of_absentOrEmpty _ _ hem, rfl⟩)
  · intro hbad hem
    exact hboth none none (Or.inl ⟨tagOrEmpty_of_absentOrEmpty _ _ hbad, rfl⟩)
      (Or.inl ⟨tagOrEmpty_of_absentOrEmpty _ _ hem, rfl⟩)

set_option maxRecDepth 100000 in
/-- C15 as the code has it, at the line of the repository's test `with-emote`, a whisper
with an empty badges tag. -/
theorem decode_absent_or_empty_tags_witness :
    parseMessage asciiUpper whisperEmoteMessage.Message = Res.ok whisperEmoteMessage ∧
      parseWhisper 0 whisperEmoteMessage =
        Res.ok { MessageID := "7".toList, ThreadID := "61083508_530594933".toList,
                 User := { ID := "61083508".toList, DisplayName := "shaymin_fakezz".toList,
                           Name := "shaymin_fakezz".toList, Color := "#FFFFFF".toList,
                           Badges := none },
                 Emotes := some [{ Name := "ratirlPickle".toList, ID := "302213289".toList,
                                   Count := 1 }],
                 Text := "ratirlPickle test".toList,
                 Raw := whisperEmoteMessage } :=
  ⟨by decide,
    ((decode_absent_or_empty_tags 0 whisperEmoteMessage "julezdev".toList
      "ratirlPickle test".toList [] rfl).1 (Or.inr (by decide))
      (some [{ Name := "ratirlPickle".toList, ID := "302213289".toList, Count := 1 }])
      (Or.inr ⟨by decide, _, by decide, rfl⟩)).2⟩

/-- C15 fails as stated: the whisper with the two parameters `julezdev`, `hi`, no badges tag
and the emotes tag `x` makes `parseWhisper` panic (in `parseEmotes`, at `split[1]`):
with the badges tag absent, decoding does fail. -/
theorem parseWhisper_panics_on_bad_emotes :
    parseMessage asciiUpper "@emotes=x :a!b@c WHISPER julezdev :hi".toList =
        Res.ok badEmotesWhisper ∧
      GetTag badEmotesWhisper.Tags "badges".toList = none ∧
      parseWhisper 0 badEmotesWhisper = Res.panic := by
  decide

/-! ## C16: `parseTime` -/

/-- C16: `parseTime` of the empty tag is the zero `time.Time`; and for every written decimal
integer `m` (optional sign, decimal digits) with `|m * 1000000| < 2^63`, the integer is
read without error, the 64-bit product `m * 1000000` does not wrap, and `parseTime`
returns the instant exactly `m * 1000000` nanoseconds after the Unix epoch. -/
theorem parseTime_exact :
    parseTime [] = Time.zero ∧
      ∀ s : Str, isInteger s → -(2 ^ 63) < integerValue s * 1000000 →
        integerValue s * 1000000 < 2 ^ 63 →
        ParseInt s = (integerValue s, false) ∧
          wrapInt (integerValue s * 1000000) = integerValue s * 1000000 ∧
          parseTime s = Time.unix (integerValue s * 1000000) := by
  refine ⟨rfl, ?_⟩
  intro s hs hlo hhi
  have hp : ParseInt s = (integerValue s, false) :=
    Atoi_integer s hs (by omega) (by omega)
  have hw : wrapInt (integerValue s * 1000000) = integerValue s * 1000000 :=
    wrapInt_small _ (by omega) hhi
  refine ⟨hp, hw, ?_⟩
  have hne : s ≠ [] := by
    intro e
    subst e
    exact hs.1 rfl
  unfold parseTime
  rw [if_neg hne, hp, hw]

/-- C16 at the tag `1591716679276` of the repository's test `valid-time`. -/
theorem parseTime_exact_witness :
    isInteger "1591716679276".toList ∧
      parseTime "1591716679276".toList = Time.unix 1591716679276000000 :=
  ⟨by decide,
    (parseTime_exact.2 "1591716679276".toList (by decide) (by decide) (by decide)).2.2⟩

/-! ## C17 and C18: dispatch to the channel handler -/

/-- C17 as the code has it: for a line that parses to a message whose command is not WHISPER
and whose routing key `k` (the first parameter without one leading `#`) is not
`tmi.twitch.tv`, and for which the automatic PONG, when one is due, is written
successfully: if a handler is registered under `k`, `handleLine` invokes that handler once
with the parsed message, invokes no other channel handler and not the generic handler
(the trace grows by the PONG, if due, and that one invocation) and returns what the
handler returns, wrapped if it is an error; if no handler is registered under `k`,
`handleLine` invokes nothing and returns nil.  The raw text of the message is the line
without its trailing CR and LF. -/
theorem handleLine_channel_dispatch (up : Char → Char) (c : Connection) (line : Str)
    (msg : Message) (p0 : Str) (rest : List Str)
    (hparse : parseMessage up line = Res.ok msg) (hp : msg.Params = p0 :: rest)
    (hw : msg.Command ≠ "WHISPER".toList) (hk : routingKey p0 ≠ "tmi.twitch.tv".toList)
    (hpong : pongDue c msg → ¬ nextWriteFails c) :
    msg.Message = TrimRight line ['\r', '\n'] ∧
      (∀ h, mapGet c.channelHandler (routingKey p0) = some h →
        (c.handleLine up line).1.trace =
            c.trace ++ pongEvents c msg ++ [Event.channelHandler (routingKey p0) msg] ∧
          (c.handleLine up line).2 =
            match h msg with
            | some e => Res.err (Error.wrap e
                "connection.handleLine: could not handle message with the provided chat handler")
            | none => Res.ok ()) ∧
      (mapGet c.channelHandler (routingKey p0) = none →
        (c.handleLine up line).1.trace = c.trace ++ pongEvents c msg ∧
          (c.handleLine up line).2 = Res.ok ()) := by
  obtain ⟨hno, hyes, -⟩ := handleLine_parsed up c line msg hparse
  refine ⟨parseMessage_raw up line msg hparse, ?_, ?_⟩
  · intro h hreg
    by_cases hdue : pongDue c msg
    · obtain ⟨c1, h1, h2, h3, -⟩ := hyes hdue (hpong hdue)
      rw [h1, route_channel_only c1 msg p0 rest hp hk hw, h3, hreg]
      simp only [pongEvents, hdue, if_true, h2]
      exact ⟨trivial, trivial⟩
    · rw [hno hdue, route_channel_only c msg p0 rest hp hk hw, hreg]
      simp only [pongEvents, hdue, if_false, List.append_nil]
      exact ⟨trivial, trivial⟩
  · intro hreg
    by_cases hdue : pongDue c msg
    · obtain ⟨c1, h1, h2, h3, -⟩ := hyes hdue (hpong hdue)
      rw [h1, route_channel_only c1 msg p0 rest hp hk hw, h3, hreg]
      simp only [pongEvents, hdue, if_true, h2]
      exact ⟨trivial, trivial⟩
    · rw [hno hdue, route_channel_only c msg p0 rest hp hk hw, hreg]
      simp only [pongEvents, hdue, if_false, List.append_nil]
      exact ⟨trivial, trivial⟩

/-- C17 as the code has it, at the line `:bar!bar@bar.tmi.twitch.tv PRIVMSG #foo :hi` on a
connection on which the channel `foo` is joined. -/
theorem handleLine_channel_dispatch_witness :
    parseMessage asciiUpper ":bar!bar@bar.tmi.twitch.tv PRIVMSG #foo :hi".toList =
        Res.ok fooPrivmsg ∧
      (fooConnection.handleLine asciiUpper
          ":bar!bar@bar.tmi.twitch.tv PRIVMSG #foo :hi".toList).1.trace =
        [Event.channelHandler "foo".toList fooPrivmsg] ∧
      (fooConnection.handleLine asciiUpper
          ":bar!bar@bar.tmi.twitch.tv PRIVMSG #foo :hi".toList).2 = Res.ok () :=
  have h := (handleLine_channel_dispatch asciiUpper fooConnection
    ":bar!bar@bar.tmi.twitch.tv PRIVMSG #foo :hi".toList fooPrivmsg "#foo".toList
    ["hi".toList] (by decide) rfl (by decide) (by decide)
    (fun hdue => absurd hdue.1 (by decide))).2.1 (fun _ => none) rfl
  ⟨by decide, h.1, h.2⟩

/-- C17 fails as stated: on a connection with automatic PONG whose socket refuses the write,
the line `PING #foo` (command not WHISPER, routing key `foo`, a handler registered under
`foo`) makes `handleLine` return the write error without invoking the handler. -/
theorem handleLine_skips_handler_on_failed_pong :
    parseMessage asciiUpper "PING #foo".toList = Res.ok channelPingMessage ∧
      (mapGet brokenSocketConnection.channelHandler "foo".toList).isSome = true ∧
      (brokenSocketConnection.handleLine asciiUpper "PING #foo".toList).1.trace = [] ∧
      (brokenSocketConnection.handleLine asciiUpper "PING #foo".toList).2 =
        Res.err (Error.wrap (Error.external "write: broken pipe")
          "connection.write: could not flush buffer") := by
  decide

/-- C18 (fails on the code): after `Join("foo", h)` on a fresh connection the handler is
stored under `foo` and the line `JOIN #foo` has been written.  The inbound line
`PRIVMSG #Foo :x` then parses, but `handleLine` looks the handler up under the key `Foo`
as it came in, finds none and invokes nothing, whereas `PRIVMSG #foo :x` is dispatched to
the handler: `handleLine` does not lower-case the routing key, unlike `Join`. -/
theorem handleLine_keeps_letter_case :
    ((freshConnection.Join asciiLower ["foo".toList] (some (fun _ => none))).1.channelHandler.map
        Prod.fst) = ["foo".toList] ∧
      (freshConnection.Join asciiLower ["foo".toList] (some (fun _ => none))).1.trace =
        [Event.wrote "JOIN #foo\r\n".toList] ∧
      parseMessage asciiUpper "PRIVMSG #Foo :x".toList = Res.ok mixedCasePrivmsg ∧
      ((freshConnection.Join asciiLower ["foo".toList] (some (fun _ => none))).1.handleLine
          asciiUpper "PRIVMSG #Foo :x".toList).1.trace =
        [Event.wrote "JOIN #foo\r\n".toList] ∧
      ((freshConnection.Join asciiLower ["foo".toList] (some (fun _ => none))).1.handleLine
          asciiUpper "PRIVMSG #Foo :x".toList).2 = Res.ok () ∧
      ((freshConnection.Join asciiLower ["foo".toList] (some (fun _ => none))).1.handleLine
          asciiUpper "PRIVMSG #foo :x".toList).1.trace =
        [Event.wrote "JOIN #foo\r\n".toList,
         Event.channelHandler "foo".toList lowerCasePrivmsg] := by
  decide

/-! ## C19: the automatic PONG -/

/-- C19 as the code has it.  For a line that parses to the command PING with first parameter
`tmi.twitch.tv`, with AutoPing on: when the write succeeds, `handleLine` writes exactly the
bytes `PONG :tmi.twitch.tv` CR LF once, and does so before it invokes the generic handler
(the trace grows by the write, then the invocation, then events that are not writes).
When the write fails, no handler is invoked and the error of the write is returned: when
the buffered writer has failed before, that earlier error wrapped with `could not write
message PONG :tmi.twitch.tv`, with nothing written; when the socket refuses the call, the
error of the socket wrapped with `could not flush buffer`, with only the bytes written
that the socket accepted.  With AutoPing off `handleLine` writes nothing, and on a line
whose command is not PING it writes nothing. -/
theorem handleLine_pong (up : Char → Char) (c : Connection) (line : Str) :
    (∀ msg rest, parseMessage up line = Res.ok msg → msg.Command = "PING".toList →
        msg.Params = "tmi.twitch.tv".toList :: rest → c.config.AutoPing = true →
        (¬ nextWriteFails c →
          ∃ more, (c.handleLine up line).1.trace =
              c.trace ++ Event.wrote pongBytes :: Event.ircHandler msg :: more ∧
            writesOf more = []) ∧
        (∀ e, c.werr = some e →
          c.handleLine up line =
            (c, Res.err (Error.wrap e
              "connection.write: could not write message PONG :tmi.twitch.tv"))) ∧
        (c.werr = none → ∀ k e later, c.sock = some (k, e) :: later →
          c.handleLine up line =
            ({ c with sock := later, werr := some e,
                      trace := c.trace ++ wireEvents pongBytes (min k 21) },
              Res.err (Error.wrap e "connection.write: could not flush buffer")))) ∧
      (c.config.AutoPing = false →
        ∃ new, (c.handleLine up line).1.trace = c.trace ++ new ∧ writesOf new = []) ∧
      ((∀ msg, parseMessage up line = Res.ok msg → msg.Command ≠ "PING".toList) →
        ∃ new, (c.handleLine up line).1.trace = c.trace ++ new ∧ writesOf new = []) := by
  obtain ⟨pre, new, htrace, hnew, -, hpre, hok, hgen, -, -⟩ := handleLine_events up c line
  refine ⟨?_, ?_, ?_⟩
  · intro msg rest hparse hcmd hp hauto
    have hdue : pongDue c msg := ⟨hauto, hcmd⟩
    refine ⟨?_, ?_, ?_⟩
    · intro hw
      have hpre' : pre = [Event.wrote pongBytes] := hok ⟨msg, hparse, hdue⟩ hw
      obtain ⟨more, hmore⟩ := hgen msg _ rest hparse hp (Or.inl (by decide)) (fun _ => hw)
      refine ⟨more, ?_, ?_⟩
      · rw [htrace, hpre', hmore]
        simp
      · rw [hmore] at hnew
        simpa [writesOf] using hnew
    · intro e he
      exact (handleLine_parsed up c line msg hparse).2.2 hdue c _ (sendPong_sticky c e he)
    · intro hw k e later hs
      exact (handleLine_parsed up c line msg hparse).2.2 hdue _ _
        (sendPong_refused c k e later hw hs)
  · intro hauto
    have hpre' : pre = [] := by
      by_contra hne
      obtain ⟨msg, -, hdue⟩ := hpre hne
      rw [hdue.1] at hauto
      cases hauto
    exact ⟨new, by rw [htrace, hpre']; simp, hnew⟩
  · intro hcmd
    have hpre' : pre = [] := by
      by_contra hne
      obtain ⟨msg, hparse, hdue⟩ := hpre hne
      exact hcmd msg hparse hdue.2
    exact ⟨new, by rw [htrace, hpre']; simp, hnew⟩

/-- C19 as the code has it, at the line `PING :tmi.twitch.tv`: on a connection with AutoPing
and a working socket the trace is the write of the PONG followed by the invocation of the
generic handler; on a connection whose writer has failed before, nothing is written and
the error comes from `WriteString`. -/
theorem handleLine_pong_witness :
    (autoPingConnection.handleLine asciiUpper "PING :tmi.twitch.tv".toList).1.trace =
        [Event.wrote "PONG :tmi.twitch.tv\r\n".toList, Event.ircHandler pingMessage] ∧
      writesOf (autoPingConnection.handleLine asciiUpper "PING :tmi.twitch.tv".toList).1.trace =
        [Event.wrote "PONG :tmi.twitch.tv\r\n".toList] ∧
      (failedWriterConnection.handleLine asciiUpper "PING :tmi.twitch.tv".toList).1.trace = [] ∧
      (failedWriterConnection.handleLine asciiUpper "PING :tmi.twitch.tv".toList).2 =
        Res.err (Error.wrap (Error.external "write: broken pipe")
          "connection.write: could not write message PONG :tmi.twitch.tv") := by
  obtain ⟨more, h1, h2⟩ :=
    ((handleLine_pong asciiUpper autoPingConnection "PING :tmi.twitch.tv".toList).1
      pingMessage [] (by decide) rfl rfl rfl).1 (by
        rintro (h | ⟨f, later, h⟩)
        · exact h rfl
        · cases h)
  have h3 := ((handleLine_pong asciiUpper failedWriterConnection
    "PING :tmi.twitch.tv".toList).1 pingMessage [] (by decide) rfl rfl rfl).2.1
    (Error.external "write: broken pipe") rfl
  refine ⟨by decide, ?_, ?_, ?_⟩
  · rw [h1]
    simp [writesOf, h2, autoPingConnection, pongBytes]
  · rw [h3]
    rfl
  · rw [h3]

/-- C19 fails as stated: on a connection with AutoPing whose socket refuses the write, the
line `PING :tmi.twitch.tv` leaves the trace empty (the PONG is not written) and
`handleLine` returns the write error. -/
theorem handleLine_pong_not_written_on_broken_socket :
    parseMessage asciiUpper "PING :tmi.twitch.tv".toList = Res.ok pingMessage ∧
      brokenSocketConnection.config.AutoPing = true ∧
      (brokenSocketConnection.handleLine asciiUpper "PING :tmi.twitch.tv".toList).1.trace = [] ∧
      (brokenSocketConnection.handleLine asciiUpper "PING :tmi.twitch.tv".toList).2 =
        Res.err (Error.wrap (Error.external "write: broken pipe")
          "connection.write: could not flush buffer") := by
  decide

/-! ## C20: errors of `handleLine` -/

/-- C20: when `parseMessage` fails on a line with the error `e`, `handleLine` returns an
error that wraps `e` (its cause is `e`) and leaves the connection as it was: no handler is
invoked and nothing is written.  And among the events `handleLine` adds to the trace: if
the generic handler is invoked and returns an error `e`, `handleLine` returns an error
that wraps `e` and no channel handler is invoked; if a channel handler is invoked and
returns an error `e`, `handleLine` returns an error that wraps `e`.  The cause of the
returned error is the cause of `e`. -/
theorem handleLine_error_causes (up : Char → Char) (c : Connection) (line : Str) :
    (∀ e, parseMessage up line = Res.err e →
        c.handleLine up line =
            (c, Res.err (Error.wrap (Error.parse e)
              "connection.handleLine: could not parse message")) ∧
          (Error.wrap (Error.parse e) "connection.handleLine: could not parse message").cause =
            Error.parse e) ∧
      ∃ new, (c.handleLine up line).1.trace = c.trace ++ new ∧
        (∀ m e, Event.ircHandler m ∈ new → c.ircHandler m = some e →
          (c.handleLine up line).2 = Res.err (Error.wrap e
            "connection.handleLine: could not handle message with the provided irc handler") ∧
          (Error.wrap e
            "connection.handleLine: could not handle message with the provided irc handler").cause =
              e.cause ∧
          ∀ k m', Event.channelHandler k m' ∉ new) ∧
        (∀ k m h e, Event.channelHandler k m ∈ new → mapGet c.channelHandler k = some h →
          h m = some e →
          (c.handleLine up line).2 = Res.err (Error.wrap e
            "connection.handleLine: could not handle message with the provided chat handler") ∧
          (Error.wrap e
            "connection.handleLine: could not handle message with the provided chat handler").cause =
              e.cause) := by
  constructor
  · intro e hparse
    refine ⟨?_, rfl⟩
    unfold Connection.handleLine
    rw [hparse]
  · obtain ⟨pre, new, htrace, -, ⟨sent, hpre⟩, -, -, -, hirc, hchan⟩ :=
      handleLine_events up c line
    have hirc' : ∀ m, Event.ircHandler m ∈ pre ++ new → Event.ircHandler m ∈ new := by
      intro m hm
      rcases List.mem_append.1 hm with h | h
      · rw [hpre] at h
        exact absurd rfl ((not_handler_of_mem_wireEvents _ _ _ h).1 m)
      · exact h
    have hchan' : ∀ k m, Event.channelHandler k m ∈ pre ++ new →
        Event.channelHandler k m ∈ new := by
      intro k m hm
      rcases List.mem_append.1 hm with h | h
      · rw [hpre] at h
        exact absurd rfl ((not_handler_of_mem_wireEvents _ _ _ h).2 k m)
      · exact h
    refine ⟨pre ++ new, by rw [htrace, List.append_assoc], ?_, ?_⟩
    · intro m e hm he
      obtain ⟨h1, h2⟩ := hirc m e (hirc' m hm) he
      refine ⟨h1, rfl, ?_⟩
      intro k m' hk
      exact h2 k m' (hchan' k m' hk)
    · intro k m h e hm hreg he
      exact ⟨hchan k m h e (hchan' k m hm) hreg he, rfl⟩

/-- C20 at the empty line, which does not parse, and at the line
`:bar!bar@bar.tmi.twitch.tv PRIVMSG #foo :hi` on a connection whose handler for `foo`
fails with `must fail`. -/
theorem handleLine_error_causes_witness :
    parseMessage asciiUpper [] = Res.err ParseError.ErrZeroLengthMessage ∧
      (fooConnection.handleLine asciiUpper []).2 =
        Res.err (Error.wrap (Error.parse ParseError.ErrZeroLengthMessage)
          "connection.handleLine: could not parse message") ∧
      (failingHandlerConnection.handleLine asciiUpper
          ":bar!bar@bar.tmi.twitch.tv PRIVMSG #foo :hi".toList).2 =
        Res.err (Error.wrap (Error.external "must fail")
          "connection.handleLine: could not handle message with the provided chat handler") := by
  refine ⟨by decide, ?_, ?_⟩
  · have h := ((handleLine_error_causes asciiUpper fooConnection []).1
      ParseError.ErrZeroLengthMessage (by decide)).1
    rw [h]
  · obtain ⟨new, hnew, -, hchan⟩ := (handleLine_error_causes asciiUpper failingHandlerConnection
      ":bar!bar@bar.tmi.twitch.tv PRIVMSG #foo :hi".toList).2
    have hev : (failingHandlerConnection.handleLine asciiUpper
        ":bar!bar@bar.tmi.twitch.tv PRIVMSG #foo :hi".toList).1.trace =
        [Event.channelHandler "foo".toList fooPrivmsg] := by decide
    have hn : new = [Event.channelHandler "foo".toList fooPrivmsg] := by
      rw [hev] at hnew
      simpa [failingHandlerConnection] using hnew.symm
    exact (hchan "foo".toList fooPrivmsg (fun _ => some (Error.external "must fail"))
      (Error.external "must fail") (by rw [hn]; simp) rfl rfl).1

/-! ## Lemmas on the trimming of a line -/

theorem TrimRight_append_run (l run cs : Str) (h : ∀ c ∈ run, c ∈ cs) :
    TrimRight (l ++ run) cs = TrimRight l cs := by
  induction run using List.reverseRecOn with
  | nil => simp
  | append_singleton r y ih =>
    have hy : y ∈ cs := h y (by simp)
    have e : l ++ (r ++ [y]) = (l ++ r) ++ [y] := by simp
    rw [e]
    unfold TrimRight at ih ⊢
    rw [List.rdropWhile_concat]
    simp only [hy, decide_True, if_true]
    exact ih (fun c hc => h c (by simp [hc]))

theorem TrimRight_eq_nil_iff (l cs : Str) : TrimRight l cs = [] ↔ ∀ c ∈ l, c ∈ cs := by
  unfold TrimRight
  rw [List.rdropWhile_eq_nil_iff]
  simp

theorem TrimRight_split (l cs : Str) :
    ∃ run, l = TrimRight l cs ++ run ∧ (∀ c ∈ run, c ∈ cs) ∧
      ∀ c, (TrimRight l cs).getLast? = some c → c ∉ cs := by
  induction l using List.reverseRecOn with
  | nil => exact ⟨[], by simp [TrimRight], by simp, by simp [TrimRight]⟩
  | append_singleton l y ih =>
    by_cases hy : y ∈ cs
    · obtain ⟨run, h1, h2, h3⟩ := ih
      have e : TrimRight (l ++ [y]) cs = TrimRight l cs := by
        unfold TrimRight
        rw [List.rdropWhile_concat]
        simp [hy]
      refine ⟨run ++ [y], ?_, ?_, ?_⟩
      · rw [e, ← List.append_assoc, ← h1]
      · intro c hc
        simp only [List.mem_append, List.mem_singleton] at hc
        rcases hc with hc | rfl
        · exact h2 c hc
        · exact hy
      · rw [e]
        exact h3
    · refine ⟨[], ?_, by simp, ?_⟩
      · rw [TrimRight_concat l cs y hy]
        simp
      · rw [TrimRight_concat l cs y hy]
        intro c hc
        rw [List.getLast?_concat] at hc
        simp only [Option.some.injEq] at hc
        exact hc ▸ hy

theorem parseFields_ne_zero_length (up : Char → Char) (c : Message) (body : Str) :
    parseFields up c body ≠ Res.err ParseError.ErrZeroLengthMessage := by
  unfold parseFields
  simp only []
  cases FieldsFunc (SplitN2 body [' ', ':']).1 (fun r => decide (r = ' ')) <;> simp

theorem parseAfterTags_ne_zero_length (up : Char → Char) (c : Message) (line : Str) :
    parseAfterTags up c line ≠ Res.err ParseError.ErrZeroLengthMessage := by
  cases line with
  | nil => simp [parseAfterTags]
  | cons ch tl =>
    simp only [parseAfterTags]
    split
    · cases Index (ch :: tl) ' ' with
      | none => simp
      | some loc => exact parseFields_ne_zero_length up _ _
    · exact parseFields_ne_zero_length up _ _

theorem parseMessage_zero_length_iff_trim (up : Char → Char) (line : Str) :
    parseMessage up line = Res.err ParseError.ErrZeroLengthMessage ↔
      TrimRight line ['\r', '\n'] = [] := by
  unfold parseMessage
  simp only []
  constructor
  · intro h
    by_contra hne
    have hlen : ¬ (TrimRight line ['\r', '\n']).length = 0 := by
      simpa using hne
    rw [if_neg hlen] at h
    split at h
    · cases hi : Index (TrimRight line ['\r', '\n']) ' ' with
      | none => simp [hi] at h
      | some loc =>
        simp only [hi] at h
        exact parseAfterTags_ne_zero_length up _ _ h
    · exact parseAfterTags_ne_zero_length up _ _ h
  · intro h
    simp [h]

theorem parseMessage_of_trim_eq (up : Char → Char) (a b : Str)
    (h : TrimRight a ['\r', '\n'] = TrimRight b ['\r', '\n']) :
    parseMessage up a = parseMessage up b := by
  unfold parseMessage
  simp only [h]

/-! ## Lemmas on the registry and on `Write` -/

theorem mapGet_eq_none_iff {α : Type} (m : List (Str × α)) (k : Str) :
    mapGet m k = none ↔ k ∉ m.map Prod.fst := by
  induction m with
  | nil => simp [mapGet]
  | cons e es ih =>
    obtain ⟨k', v'⟩ := e
    by_cases hk : k' = k
    · simp only [mapGet, hk, if_true, List.map_cons, List.mem_cons, true_or, not_true_eq_false]
      exact ⟨fun h => (by cases h), fun h => h.elim⟩
    · simp only [mapGet, hk, if_false, List.map_cons, List.mem_cons, not_or, ih]
      exact ⟨fun h => ⟨Ne.symm hk, h⟩, fun h => h.2⟩

theorem mapGet_append_of_some {α : Type} (m extra : List (Str × α)) (k : Str) (v : α)
    (h : mapGet m k = some v) : mapGet (m ++ extra) k = some v := by
  induction m with
  | nil => simp [mapGet] at h
  | cons e es ih =>
    obtain ⟨k', v'⟩ := e
    by_cases hk : k' = k
    · simpa [mapGet, hk] using h
    · simp only [mapGet, hk, if_false] at h
      simp [mapGet, hk, ih h]

theorem mem_take_of_mem_take_drop {α : Type} (l : List α) (m n : Nat) (x : α)
    (h : x ∈ (l.drop m).take n) : x ∈ l.take (m + n) := by
  rw [List.take_add]
  exact List.mem_append_right _ h

theorem writeSucceeds_of_take (c : Connection) (message : Str) (n : Nat) (hw : c.werr = none)
    (hn : connWrites (message ++ ['\r', '\n']) ≤ n) (h : ∀ o ∈ c.sock.take n, o = none) :
    writeSucceeds c message :=
  ⟨hw, fun o ho => h o (List.take_subset_take_left _ hn ho)⟩

theorem writeSucceeds_of_all (c : Connection) (message : Str) (h : allWritesSucceed c) :
    writeSucceeds c message :=
  ⟨h.1, fun o ho => h.2 o (List.mem_of_mem_take ho)⟩

theorem allWritesSucceed_drop (c : Connection) (n : Nat) (reg : List (Str × Handler))
    (tr : List Event) (h : allWritesSucceed c) :
    allWritesSucceed { c with channelHandler := reg, trace := tr, sock := c.sock.drop n } :=
  ⟨h.1, fun o ho => h.2 o (List.mem_of_mem_drop ho)⟩

/-! ## Lemmas on `Join` -/

theorem joinedKeys_spec (low : Char → Char) (names : List Str) (keys : List Str) :
    (joinedKeys low keys names).Nodup ∧
      (∀ k, k ∈ joinedKeys low keys names ↔ k ∉ keys ∧ k ∈ names.map (ToLower low)) := by
  induction names generalizing keys with
  | nil => simp [joinedKeys]
  | cons name rest ih =>
    by_cases hk : ToLower low name ∈ keys
    · obtain ⟨h1, h2⟩ := ih keys
      simp only [joinedKeys, hk, if_true]
      refine ⟨h1, fun k => ?_⟩
      rw [h2 k]
      simp only [List.map_cons, List.mem_cons]
      constructor
      · rintro ⟨a, b⟩
        exact ⟨a, Or.inr b⟩
      · rintro ⟨a, b | b⟩
        · exact absurd (b ▸ hk) a
        · exact ⟨a, b⟩
    · obtain ⟨h1, h2⟩ := ih (keys ++ [ToLower low name])
      simp only [joinedKeys, hk, if_false]
      refine ⟨?_, fun k => ?_⟩
      · rw [List.nodup_cons]
        refine ⟨fun hmem => ?_, h1⟩
        have := ((h2 _).1 hmem).1
        simp at this
      · simp only [List.mem_cons, List.map_cons]
        rw [h2 k]
        simp only [List.mem_append, List.mem_singleton, not_or]
        constructor
        · rintro (rfl | ⟨⟨a, -⟩, b⟩)
          · exact ⟨hk, Or.inl rfl⟩
          · exact ⟨a, Or.inr b⟩
        · rintro ⟨a, rfl | b⟩
          · exact Or.inl rfl
          · by_cases hkk : k = ToLower low name
            · exact Or.inl hkk
            · exact Or.inr ⟨⟨a, hkk⟩, b⟩

theorem joinLoop_append (low : Char → Char) (channels : List Str) (handler : Handler)
    (pre rest : List Str) (c : Connection)
    (hw : (joinedKeys low (c.channelHandler.map Prod.fst) pre).map joinLine ≠ [] →
      c.werr = none)
    (h : ∀ o ∈ c.sock.take
        (connWritesOf ((joinedKeys low (c.channelHandler.map Prod.fst) pre).map joinLine)),
      o = none) :
    joinLoop low channels handler (pre ++ rest) c =
      joinLoop low channels handler rest
        { c with
          channelHandler := c.channelHandler ++
            (joinedKeys low (c.channelHandler.map Prod.fst) pre).map (fun k => (k, handler)),
          trace := c.trace ++
            (joinedKeys low (c.channelHandler.map Prod.fst) pre).map
              (fun k => Event.wrote (joinLine k)),
          sock := c.sock.drop
            (connWritesOf
              ((joinedKeys low (c.channelHandler.map Prod.fst) pre).map joinLine)) } := by
  induction pre generalizing c with
  | nil => simp [joinedKeys, connWritesOf]
  | cons name pre ih =>
    cases hg : mapGet c.channelHandler (ToLower low name) with
    | some h0 =>
      have hk : ToLower low name ∈ c.channelHandler.map Prod.fst := by
        by_contra hn
        rw [(mapGet_eq_none_iff _ _).2 hn] at hg
        cases hg
      simp only [joinedKeys, hk, if_true] at h hw ⊢
      simp only [List.cons_append, joinLoop, hg]
      exact ih c hw h
    | none =>
      have hk : ToLower low name ∉ c.channelHandler.map Prod.fst :=
        (mapGet_eq_none_iff _ _).1 hg
      have hw : c.werr = none := hw (by simp [joinedKeys, hk])
      simp only [joinedKeys, hk, if_false, List.map_cons, connWritesOf, List.sum_cons] at h ⊢
      have hws : writeSucceeds
          { c with channelHandler := mapSet c.channelHandler (ToLower low name) handler }
          ("JOIN #".toList ++ ToLower low name) :=
        writeSucceeds_of_take _ _ _ hw (Nat.le_add_right _ _) h
      simp only [List.cons_append, joinLoop, hg]
      rw [Write_succeeds _ _ hws, mapSet_new _ _ _ hk]
      simp only []
      have e : pre.append rest = pre ++ rest := rfl
      rw [e, ih]
      · simp [joinLine, connWritesOf, List.drop_drop, Nat.add_comm]
      · exact fun _ => hw
      · intro o ho
        apply h o
        simp only [List.map_append, List.map_cons, List.map_nil, connWritesOf] at ho
        exact mem_take_of_mem_take_drop _ _ _ _ ho

theorem joinLoop_ok (low : Char → Char) (channels : List Str) (handler : Handler)
    (names : List Str) (c : Connection) (h : allWritesSucceed c) :
    joinLoop low channels handler names c =
      ({ c with
          channelHandler := c.channelHandler ++
            (joinedKeys low (c.channelHandler.map Prod.fst) names).map (fun k => (k, handler)),
          trace := c.trace ++
            (joinedKeys low (c.channelHandler.map Prod.fst) names).map
              (fun k => Event.wrote (joinLine k)),
          sock := c.sock.drop
            (connWritesOf
              ((joinedKeys low (c.channelHandler.map Prod.fst) names).map joinLine)) },
        none) := by
  have := joinLoop_append low channels handler names [] c (fun _ => h.1)
    (fun o ho => h.2 o (List.mem_of_mem_take ho))
  rw [List.append_nil] at this
  rw [this]
  rfl

theorem mapGet_isSome_of_mem {α : Type} (m : List (Str × α)) (k : Str)
    (h : k ∈ m.map Prod.fst) : ∃ v, mapGet m k = some v := by
  cases hg : mapGet m k with
  | some v => exact ⟨v, rfl⟩
  | none => exact absurd h ((mapGet_eq_none_iff m k).1 hg)

theorem Join_eq_joinLoop (low : Char → Char) (c : Connection) (channels : List Str)
    (handler : Option Handler) :
    c.Join low channels handler =
      joinLoop low channels (handlerOrDefault handler) channels c := by
  cases handler <;> rfl

/-! ## Lemmas on `Depart` and `DepartAll` -/

theorem mapGet_mapDelete_self {α : Type} (m : List (Str × α)) (k : Str) :
    mapGet (mapDelete m k) k = none := by
  induction m with
  | nil => rfl
  | cons e es ih =>
    obtain ⟨k', v'⟩ := e
    by_cases hk : k' = k
    · simpa [mapDelete, List.filter, hk] using ih
    · simpa [mapDelete, List.filter, hk, mapGet] using ih

theorem mapGet_filter_keys {α : Type} (m : List (Str × α)) (p : Str → Bool) (k : Str)
    (hk : p k = true) : mapGet (m.filter (fun e => p e.1)) k = mapGet m k := by
  induction m with
  | nil => rfl
  | cons e es ih =>
    obtain ⟨k', v'⟩ := e
    by_cases hkk : k' = k
    · subst hkk
      simp [List.filter, hk, mapGet]
    · cases hp : p k' with
      | true => simp [List.filter, hp, mapGet, hkk, ih]
      | false => simp [List.filter, hp, mapGet, hkk, ih]

theorem mapGet_mapDelete_of_ne {α : Type} (m : List (Str × α)) (k k' : Str) (h : k' ≠ k) :
    mapGet (mapDelete m k) k' = mapGet m k' := by
  unfold mapDelete
  exact mapGet_filter_keys m (fun x => decide (x ≠ k)) k' (by simpa using h)

theorem mapDelete_append_new {α : Type} (m : List (Str × α)) (k : Str) (v : α)
    (h : k ∉ m.map Prod.fst) : mapDelete (m ++ [(k, v)]) k = m := by
  unfold mapDelete
  rw [List.filter_append, List.filter_eq_self.2]
  · simp
  · intro e he
    simp only [ne_eq, decide_not, Bool.not_eq_eq_eq_not, Bool.not_true, decide_eq_false_iff_not]
    intro hek
    exact h (hek ▸ List.mem_map_of_mem Prod.fst he)

theorem Write_channelHandler (c : Connection) (message : Str) :
    (c.Write message).1.channelHandler = c.channelHandler :=
  (Write_frame c message).1

theorem Depart_ok (low : Char → Char) (c : Connection) (channel : Str)
    (h : writeSucceeds c ("PART #".toList ++ ToLower low channel)) :
    c.Depart low channel =
      ({ c with
          channelHandler := mapDelete c.channelHandler (ToLower low channel),
          trace := c.trace ++ [Event.wrote (partLine (ToLower low channel))],
          sock := c.sock.drop (connWrites (partLine (ToLower low channel))) }, none) := by
  unfold Connection.Depart
  simp only []
  rw [Write_succeeds c _ h]
  rfl

theorem Depart_fail (low : Char → Char) (c c1 : Connection) (channel : Str) (err : Error)
    (h : c.Write ("PART #".toList ++ ToLower low channel) = (c1, some err)) :
    c.Depart low channel =
        (c1, some (Error.wrap err (departErrorContext (ToLower low channel)))) ∧
      c1.channelHandler = c.channelHandler := by
  have hf := Write_channelHandler c ("PART #".toList ++ ToLower low channel)
  rw [h] at hf
  refine ⟨?_, hf⟩
  unfold Connection.Depart
  simp only []
  rw [h]

theorem departAllLoop_append (low : Char → Char) (done rest : List Str) (c : Connection)
    (hnd : done.Nodup) (hreg : ∀ v ∈ done, v ∈ c.channelHandler.map Prod.fst)
    (hlow : ∀ v ∈ done, ToLower low v = v) (hw : c.werr = none)
    (hsock : ∀ o ∈ c.sock.take (connWritesOf (done.map partLine)), o = none) :
    departAllLoop low (done ++ rest) c =
      departAllLoop low rest
        { c with
          channelHandler := c.channelHandler.filter (fun en => decide (en.1 ∉ done)),
          trace := c.trace ++ done.map (fun k => Event.wrote (partLine k)),
          sock := c.sock.drop (connWritesOf (done.map partLine)) } := by
  induction done generalizing c with
  | nil => simp [connWritesOf]
  | cons v done ih =>
    obtain ⟨h0, hv⟩ := mapGet_isSome_of_mem c.channelHandler v (hreg v (by simp))
    simp only [List.map_cons, connWritesOf, List.sum_cons] at hsock ⊢
    have hws : writeSucceeds c ("PART #".toList ++ ToLower low v) := by
      rw [hlow v (by simp)]
      exact writeSucceeds_of_take c _ _ hw (Nat.le_add_right _ _) hsock
    rw [List.nodup_cons] at hnd
    simp only [List.cons_append, departAllLoop, hv]
    rw [Depart_ok low c v hws, hlow v (by simp)]
    simp only []
    have e : done.append rest = done ++ rest := rfl
    have hf : (mapDelete c.channelHandler v).filter (fun en => decide (en.1 ∉ done)) =
        c.channelHandler.filter (fun en => decide (en.1 ∉ v :: done)) := by
      unfold mapDelete
      rw [List.filter_filter]
      apply List.filter_congr
      intro en _
      by_cases h1 : en.1 = v <;> by_cases h2 : en.1 ∈ done <;> simp [h1, h2]
    have hd : (c.sock.drop (connWrites (partLine v))).drop (connWritesOf (done.map partLine)) =
        c.sock.drop (connWrites (partLine v) + (done.map (connWrites ∘ partLine)).sum) := by
      simp [connWritesOf, List.drop_drop, Nat.add_comm]
    have ht : c.trace ++ [Event.wrote (partLine v)] ++
        done.map (fun k => Event.wrote (partLine k)) =
        c.trace ++ (v :: done).map (fun k => Event.wrote (partLine k)) := by
      simp
    rw [e, ih _ hnd.2]
    · simp only [hf, hd, ht, List.map_map, List.map_cons]
    · intro w hw'
      have hne : w ≠ v := fun e => hnd.1 (e ▸ hw')
      have hmem := hreg w (by simp [hw'])
      obtain ⟨h1, hh1⟩ := mapGet_isSome_of_mem c.channelHandler w hmem
      have : mapGet (mapDelete c.channelHandler v) w = some h1 := by
        rw [mapGet_mapDelete_of_ne _ _ _ hne, hh1]
      by_contra hn
      rw [(mapGet_eq_none_iff _ _).2 hn] at this
      cases this
    · intro w hw'
      exact hlow w (by simp [hw'])
    · exact hw
    · intro o ho
      apply hsock o
      simp only [connWritesOf] at ho
      exact mem_take_of_mem_take_drop _ _ _ _ ho

theorem departAllLoop_done (low : Char → Char) (done rest : List Str) (c : Connection)
    (hnd : done.Nodup) (hreg : ∀ v ∈ done, v ∈ c.channelHandler.map Prod.fst)
    (hlow : ∀ v ∈ done, ToLower low v = v) (h : writesSucceed c (done.map partLine)) :
    departAllLoop low (done ++ rest) c =
      departAllLoop low rest
        { c with
          channelHandler := c.channelHandler.filter (fun en => decide (en.1 ∉ done)),
          trace := c.trace ++ done.map (fun k => Event.wrote (partLine k)),
          sock := c.sock.drop (connWritesOf (done.map partLine)) } := by
  cases done with
  | nil => simp [connWritesOf]
  | cons v done =>
    exact departAllLoop_append low (v :: done) rest c hnd hreg hlow (h.1 (by simp)) h.2

theorem Join_one_channelHandler (low : Char → Char) (c : Connection) (channel : Str)
    (handler : Option Handler) (h : ToLower low channel ∉ c.channelHandler.map Prod.fst) :
    (c.Join low [channel] handler).1.channelHandler =
      c.channelHandler ++ [(ToLower low channel, handlerOrDefault handler)] := by
  rw [Join_eq_joinLoop]
  simp only [joinLoop, (mapGet_eq_none_iff _ _).2 h]
  rw [mapSet_new _ _ _ h]
  have hw := Write_channelHandler
    { c with channelHandler :=
        c.channelHandler ++ [(ToLower low channel, handlerOrDefault handler)] }
    ("JOIN #".toList ++ ToLower low channel)
  cases hr : Connection.Write
    { c with channelHandler :=
        c.channelHandler ++ [(ToLower low channel, handlerOrDefault handler)] }
    ("JOIN #".toList ++ ToLower low channel) with
  | mk c1 r =>
    rw [hr] at hw
    cases r <;> exact hw

/-! ## C21: `Join` when every write succeeds -/

/-- C21: on a connection whose writes all succeed, `Join` returns nil; the registry grows by
the entries `k -> handler` for the keys `k` of `joinedKeys` (going through the names in
list order, the lower-casing of each name that is not yet a key), and exactly the lines
`JOIN #k` CR LF for these keys are written, in that order; nothing else changes (the socket
has served the calls of `conn.Write` that these lines take, one per line that fits the
buffer).  The
added keys are pairwise distinct, and they are the lower-casings of the names that were
not registered; a key registered before keeps its handler; when lower-casing is idempotent
every added key is lower-case.  In particular two calls of `Join` with names that have the
same lower-casing, not registered before, leave the one entry of the first call and write
one JOIN line. -/
theorem Join_registers (low : Char → Char) (c : Connection) (channels : List Str)
    (handler : Option Handler) (hw : allWritesSucceed c) :
    c.Join low channels handler =
        ({ c with
            channelHandler := c.channelHandler ++
              (joinedKeys low (c.channelHandler.map Prod.fst) channels).map
                (fun k => (k, handlerOrDefault handler)),
            trace := c.trace ++
              (joinedKeys low (c.channelHandler.map Prod.fst) channels).map
                (fun k => Event.wrote (joinLine k)),
            sock := c.sock.drop
              (connWritesOf
                ((joinedKeys low (c.channelHandler.map Prod.fst) channels).map joinLine)) },
          none) ∧
      (joinedKeys low (c.channelHandler.map Prod.fst) channels).Nodup ∧
      (∀ k, k ∈ joinedKeys low (c.channelHandler.map Prod.fst) channels ↔
        k ∉ c.channelHandler.map Prod.fst ∧ k ∈ channels.map (ToLower low)) ∧
      (∀ k h, mapGet c.channelHandler k = some h →
        mapGet (c.Join low channels handler).1.channelHandler k = some h) ∧
      ((∀ x, low (low x) = low x) →
        ∀ k ∈ joinedKeys low (c.channelHandler.map Prod.fst) channels, ToLower low k = k) ∧
      (∀ (a b : Str) (second : Option Handler), channels = [a] →
        ToLower low a = ToLower low b → ToLower low a ∉ c.channelHandler.map Prod.fst →
        (c.Join low channels handler).1.Join low [b] second =
          ({ c with
              channelHandler := c.channelHandler ++ [(ToLower low a, handlerOrDefault handler)],
              trace := c.trace ++ [Event.wrote (joinLine (ToLower low a))],
              sock := c.sock.drop (connWrites (joinLine (ToLower low a))) }, none)) := by
  have hjoin : ∀ (c : Connection) (names : List Str) (h : Option Handler),
      allWritesSucceed c →
      c.Join low names h =
        ({ c with
            channelHandler := c.channelHandler ++
              (joinedKeys low (c.channelHandler.map Prod.fst) names).map
                (fun k => (k, handlerOrDefault h)),
            trace := c.trace ++
              (joinedKeys low (c.channelHandler.map Prod.fst) names).map
                (fun k => Event.wrote (joinLine k)),
            sock := c.sock.drop
              (connWritesOf
                ((joinedKeys low (c.channelHandler.map Prod.fst) names).map joinLine)) },
          none) := by
    intro c names h hc
    rw [Join_eq_joinLoop, joinLoop_ok low names _ names c hc]
  obtain ⟨hnd, hmem⟩ := joinedKeys_spec low channels (c.channelHandler.map Prod.fst)
  refine ⟨hjoin c channels handler hw, hnd, hmem, ?_, ?_, ?_⟩
  · intro k h hk
    rw [hjoin c channels handler hw]
    exact mapGet_append_of_some _ _ k h hk
  · intro hidem k hk
    obtain ⟨-, hk2⟩ := (hmem k).1 hk
    simp only [List.mem_map] at hk2
    obtain ⟨name, -, rfl⟩ := hk2
    simp [ToLower, hidem]
  · intro a b second hch hab hnew
    subst hch
    rw [hjoin c [a] handler hw]
    have h1 : joinedKeys low (c.channelHandler.map Prod.fst) [a] = [ToLower low a] := by
      simp [joinedKeys, hnew]
    simp only [h1, List.map_cons, List.map_nil, connWritesOf, List.sum_cons, List.sum_nil,
      Nat.add_zero]
    rw [hjoin _ [b] second (allWritesSucceed_drop c _ _ _ hw)]
    have h2 : joinedKeys low
        ((c.channelHandler ++ [(ToLower low a, handlerOrDefault handler)]).map Prod.fst) [b] =
        [] := by
      simp [joinedKeys, hab]
    simp only [h2]
    simp [connWritesOf]

/-- C21 on a fresh connection: `Join("Foo", h1)` then `Join("foo", h2)` leave the one entry
`foo -> h1` (the handler registered under `foo` accepts a message, as `h1` does and `h2`
does not) and write the one line `JOIN #foo`. -/
theorem Join_registers_witness :
    allWritesSucceed freshConnection ∧
      ((freshConnection.Join asciiLower ["Foo".toList] (some firstHandler)).1.Join asciiLower
          ["foo".toList] (some secondHandler)).2 = none ∧
      ((freshConnection.Join asciiLower ["Foo".toList] (some firstHandler)).1.Join asciiLower
          ["foo".toList] (some secondHandler)).1.trace = [Event.wrote "JOIN #foo\r\n".toList] ∧
      ((freshConnection.Join asciiLower ["Foo".toList] (some firstHandler)).1.Join asciiLower
          ["foo".toList] (some secondHandler)).1.channelHandler.map
            (fun e => (e.1, e.2 lowerCasePrivmsg)) = [("foo".toList, none)] := by
  have h := (Join_registers asciiLower freshConnection ["Foo".toList] (some firstHandler)
    (by decide)).2.2.2.2.2 "Foo".toList "foo".toList (some secondHandler) rfl (by decide)
    (by decide)
  rw [h]
  exact ⟨by decide, rfl, by decide, by decide⟩

/-! ## C22: `Depart` -/

/-- C22: when the write succeeds, `Depart` writes exactly the line `PART #` followed by the
lower-cased channel and CR LF, returns nil, and the registry is the old one without the
key lower-case(channel): that key is gone and every other key has the entry it had.  When
the write does not succeed, it fails: `Depart` returns the error of the write wrapped with
its context and the registry is as it was.  Hence `Join` of a channel that is not
registered, followed by a `Depart` of it whose write succeeds, gives back the original
registry; when the write of that `Depart` does not succeed, the channel stays registered
with the handler of the `Join`. -/
theorem Depart_effect (low : Char → Char) (c : Connection) (channel : Str) :
    (writeSucceeds c ("PART #".toList ++ ToLower low channel) →
        c.Depart low channel =
          ({ c with
              channelHandler := mapDelete c.channelHandler (ToLower low channel),
              trace := c.trace ++ [Event.wrote (partLine (ToLower low channel))],
              sock := c.sock.drop (connWrites (partLine (ToLower low channel))) }, none)) ∧
      mapGet (mapDelete c.channelHandler (ToLower low channel)) (ToLower low channel) = none ∧
      (∀ k, k ≠ ToLower low channel →
        mapGet (mapDelete c.channelHandler (ToLower low channel)) k =
          mapGet c.channelHandler k) ∧
      (¬ writeSucceeds c ("PART #".toList ++ ToLower low channel) →
        ∃ c1 err, c.Write ("PART #".toList ++ ToLower low channel) = (c1, some err) ∧
          c.Depart low channel =
            (c1, some (Error.wrap err (departErrorContext (ToLower low channel)))) ∧
          c1.channelHandler = c.channelHandler) ∧
      (∀ handler : Option Handler, ToLower low channel ∉ c.channelHandler.map Prod.fst →
        writeSucceeds (c.Join low [channel] handler).1
          ("PART #".toList ++ ToLower low channel) →
        ((c.Join low [channel] handler).1.Depart low channel).1.channelHandler =
          c.channelHandler) ∧
      (∀ handler : Option Handler, ToLower low channel ∉ c.channelHandler.map Prod.fst →
        ¬ writeSucceeds (c.Join low [channel] handler).1
          ("PART #".toList ++ ToLower low channel) →
        ((c.Join low [channel] handler).1.Depart low channel).1.channelHandler =
          c.channelHandler ++ [(ToLower low channel, handlerOrDefault handler)]) := by
  refine ⟨Depart_ok low c channel, mapGet_mapDelete_self _ _,
    fun k hk => mapGet_mapDelete_of_ne _ _ k hk, ?_, ?_, ?_⟩
  · intro hw
    obtain ⟨c1, err, h⟩ := Write_fails_of_not_succeeds c _ hw
    exact ⟨c1, err, h, Depart_fail low c c1 channel err h⟩
  · intro handler hnew hw
    rw [Depart_ok low _ channel hw]
    simp only []
    rw [Join_one_channelHandler low c channel handler hnew]
    exact mapDelete_append_new _ _ _ hnew
  · intro handler hnew hw
    obtain ⟨c1, err, h⟩ := Write_fails_of_not_succeeds _ _ hw
    have hD := Depart_fail low _ c1 channel err h
    rw [hD.1]
    show c1.channelHandler = _
    rw [hD.2, Join_one_channelHandler low c channel handler hnew]

/-- C22 on a fresh connection: `Join("Foo")` then `Depart("Foo")` leave the registry empty,
as it was; on a connection whose socket refuses the write, and on one whose writer has
failed before, `Depart("foo")` returns an error and `foo` stays registered. -/
theorem Depart_effect_witness :
    ((freshConnection.Join asciiLower ["Foo".toList] none).1.Depart asciiLower
        "Foo".toList).1.channelHandler.map Prod.fst = [] ∧
      (brokenSocketConnection.Depart asciiLower "foo".toList).2.isSome = true ∧
      (brokenSocketConnection.Depart asciiLower "foo".toList).1.channelHandler.map Prod.fst =
        ["foo".toList] ∧
      (failedWriterConnection.Depart asciiLower "foo".toList).2.isSome = true ∧
      (failedWriterConnection.Depart asciiLower "foo".toList).1.channelHandler.map Prod.fst =
        ["foo".toList] := by
  have h1 := (Depart_effect asciiLower freshConnection "Foo".toList).2.2.2.2.1 none
    (by decide) (by decide)
  obtain ⟨c2, err2, -, h2, hr2⟩ :=
    (Depart_effect asciiLower brokenSocketConnection "foo".toList).2.2.2.1 (by decide)
  obtain ⟨c3, err3, -, h3, hr3⟩ :=
    (Depart_effect asciiLower failedWriterConnection "foo".toList).2.2.2.1 (by decide)
  rw [h1, h2, h3]
  simp only [hr2, hr3]
  exact ⟨rfl, rfl, rfl, rfl, rfl⟩

/-- The errors of the two failing departures of the witness: the socket's error comes wrapped
by `Flush`, the writer's earlier error by `WriteString`. -/
theorem Depart_errors :
    (brokenSocketConnection.Depart asciiLower "foo".toList).2 =
        some (Error.wrap
          (Error.wrap (Error.external "write: broken pipe")
            "connection.write: could not flush buffer")
          "connection.Depart could not depart foo") ∧
      (failedWriterConnection.Depart asciiLower "foo".toList).2 =
        some (Error.wrap
          (Error.wrap (Error.external "write: broken pipe")
            "connection.write: could not write message PART #foo")
          "connection.Depart could not depart foo") := by
  decide

/-! ## C23: `DepartAll` -/

/-- C23: for a registry whose keys are pairwise distinct and all lower-case, and for every
order in which the range of `DepartAll` may visit these keys: if every write succeeds,
`DepartAll` returns nil, the registry is empty afterwards, and the lines written are the
lines `PART #k` CR LF of the keys, one for each key (a rearrangement of the list of the
keys) and no other; if the writes for the keys `done` succeed and the write for the next
key `v` does not, that write fails and `DepartAll` returns its error wrapped with the
context of the `Depart` of `v`, has written the lines of `done` and, of the line of `v`,
what the socket accepted of it, and the registry is the old one without the keys of `done`:
`v` and the keys `rest` not yet visited have the entries they had. -/
theorem DepartAll_effect (low : Char → Char) (c : Connection) (order : List Str)
    (hnd : (c.channelHandler.map Prod.fst).Nodup)
    (hperm : order.Perm (c.channelHandler.map Prod.fst))
    (hlow : ∀ k ∈ c.channelHandler.map Prod.fst, ToLower low k = k) :
    (allWritesSucceed c →
        c.DepartAll low order =
          ({ c with
              channelHandler := [],
              trace := c.trace ++ order.map (fun k => Event.wrote (partLine k)),
              sock := c.sock.drop (connWritesOf (order.map partLine)) }, none)) ∧
      (order.map (fun k => Event.wrote (partLine k))).Perm
        ((c.channelHandler.map Prod.fst).map (fun k => Event.wrote (partLine k))) ∧
      (∀ (done : List Str) (v : Str) (rest : List Str),
        order = done ++ v :: rest →
        writesSucceed c (done.map partLine) →
        ¬ writeSucceeds { c with sock := c.sock.drop (connWritesOf (done.map partLine)) }
            ("PART #".toList ++ v) →
        ∃ (c1 : Connection) (err : Error) (sent : Nat),
          Connection.Write
              { c with
                channelHandler := c.channelHandler.filter (fun en => decide (en.1 ∉ done)),
                trace := c.trace ++ done.map (fun k => Event.wrote (partLine k)),
                sock := c.sock.drop (connWritesOf (done.map partLine)) }
              ("PART #".toList ++ v) = (c1, some err) ∧
            c.DepartAll low order = (c1, some (Error.wrap err (departErrorContext v))) ∧
            c1.channelHandler = c.channelHandler.filter (fun en => decide (en.1 ∉ done)) ∧
            c1.trace = c.trace ++ done.map (fun k => Event.wrote (partLine k)) ++
              wireEvents (partLine v) sent ∧
            ∀ k ∈ v :: rest,
              mapGet c1.channelHandler k = mapGet c.channelHandler k ∧
                (mapGet c.channelHandler k).isSome = true) := by
  have hond : order.Nodup := hperm.nodup_iff.2 hnd
  refine ⟨?_, hperm.map _, ?_⟩
  · intro hw
    unfold Connection.DepartAll
    have := departAllLoop_append low order [] c hond (fun v hv => hperm.subset hv)
      (fun v hv => hlow v (hperm.subset hv)) hw.1
      (fun o ho => hw.2 o (List.mem_of_mem_take ho))
    rw [List.append_nil] at this
    rw [this]
    simp only [departAllLoop]
    have hf : c.channelHandler.filter (fun en => decide (en.1 ∉ order)) = [] := by
      rw [List.filter_eq_nil_iff]
      intro en hen
      simp only [decide_not, Bool.not_eq_eq_eq_not, Bool.not_true, decide_eq_false_iff_not,
        not_not]
      exact hperm.symm.subset (List.mem_map_of_mem Prod.fst hen)
    rw [hf]
  · intro done v rest hord hdone hfail
    subst hord
    have hdn : done.Nodup := (List.nodup_append.1 hond).1
    have hvd : ∀ k ∈ v :: rest, k ∉ done := by
      intro k hk hkd
      exact (List.nodup_append.1 hond).2.2 hkd hk
    have hfilter : ∀ k ∈ v :: rest,
        mapGet (c.channelHandler.filter (fun en => decide (en.1 ∉ done))) k =
          mapGet c.channelHandler k := by
      intro k hk
      exact mapGet_filter_keys c.channelHandler (fun x => decide (x ∉ done)) k
        (by simpa using hvd k hk)
    have hsome : ∀ k ∈ v :: rest, ∃ h0, mapGet c.channelHandler k = some h0 := by
      intro k hk
      exact mapGet_isSome_of_mem _ _ (hperm.subset (List.mem_append_right _ hk))
    obtain ⟨c1, err, hW⟩ := Write_fails_of_not_succeeds
      { c with
        channelHandler := c.channelHandler.filter (fun en => decide (en.1 ∉ done)),
        trace := c.trace ++ done.map (fun k => Event.wrote (partLine k)),
        sock := c.sock.drop (connWritesOf (done.map partLine)) }
      ("PART #".toList ++ v) hfail
    have hv : ToLower low v = v := hlow v (hperm.subset (by simp))
    have hD := Depart_fail low _ c1 v err (by rw [hv]; exact hW)
    obtain ⟨sent, hsent⟩ := (Write_frame
      { c with
        channelHandler := c.channelHandler.filter (fun en => decide (en.1 ∉ done)),
        trace := c.trace ++ done.map (fun k => Event.wrote (partLine k)),
        sock := c.sock.drop (connWritesOf (done.map partLine)) }
      ("PART #".toList ++ v)).2.2.2
    rw [hW] at hsent
    refine ⟨c1, err, sent, hW, ?_, hD.2, hsent, fun k hk => ⟨?_, ?_⟩⟩
    · unfold Connection.DepartAll
      rw [departAllLoop_done low done (v :: rest) c hdn
        (fun w hw => hperm.subset (List.mem_append_left _ hw))
        (fun w hw => hlow w (hperm.subset (List.mem_append_left _ hw))) hdone]
      obtain ⟨h0, hh0⟩ := hsome v (by simp)
      simp only [departAllLoop, hfilter v (by simp), hh0]
      rw [hD.1, hv]
    · rw [hD.2]
      exact hfilter k hk
    · obtain ⟨h0, hh0⟩ := hsome k hk
      rw [hh0]
      rfl

/-- C23 on a connection with the channels `foo` and `bar`, visited in the order `bar`,
`foo`: with a working socket both PART lines are written and the registry ends empty; when
the second write fails, `bar` is departed, an error is returned and `foo` stays
registered. -/
theorem DepartAll_effect_witness :
    (twoChannelConnection.DepartAll asciiLower ["bar".toList, "foo".toList]).2 = none ∧
      (twoChannelConnection.DepartAll asciiLower
          ["bar".toList, "foo".toList]).1.channelHandler.map Prod.fst = [] ∧
      (twoChannelConnection.DepartAll asciiLower ["bar".toList, "foo".toList]).1.trace =
        [Event.wrote "PART #bar\r\n".toList, Event.wrote "PART #foo\r\n".toList] ∧
      (twoChannelBrokenConnection.DepartAll asciiLower
          ["bar".toList, "foo".toList]).2.isSome = true ∧
      (twoChannelBrokenConnection.DepartAll asciiLower
          ["bar".toList, "foo".toList]).1.channelHandler.map Prod.fst = ["foo".toList] := by
  have h1 := (DepartAll_effect asciiLower twoChannelConnection ["bar".toList, "foo".toList]
    (by decide) (by decide) (by decide)).1 (by decide)
  obtain ⟨c1, err, sent, -, h2, hreg, -, -⟩ := (DepartAll_effect asciiLower
    twoChannelBrokenConnection ["bar".toList, "foo".toList] (by decide) (by decide)
    (by decide)).2.2 ["bar".toList] "foo".toList [] rfl (by decide) (by decide)
  rw [h1, h2]
  refine ⟨rfl, rfl, by decide, rfl, ?_⟩
  show c1.channelHandler.map Prod.fst = ["foo".toList]
  rw [hreg]
  decide

/-- The failing run of the witness in full: the error is the socket's, wrapped by `Flush`
and by `Depart`, and only the line of `bar` is on the wire. -/
theorem DepartAll_second_write_fails :
    (twoChannelBrokenConnection.DepartAll asciiLower ["bar".toList, "foo".toList]).2 =
        some (Error.wrap
          (Error.wrap (Error.external "write: broken pipe")
            "connection.write: could not flush buffer")
          "connection.Depart could not depart foo") ∧
      (twoChannelBrokenConnection.DepartAll asciiLower ["bar".toList, "foo".toList]).1.trace =
        [Event.wrote "PART #bar\r\n".toList] := by
  decide

/-! ## C24: `Say` and the parser -/

theorem asciiLower_ne_space (c : Char) (hc : c ≠ ' ') : asciiLower c ≠ ' ' := by
  by_cases h : 65 ≤ c.toNat ∧ c.toNat ≤ 90
  · generalize hn : c.toNat = n at h
    have hcn : c = Char.ofNat n := by rw [← hn]; simp
    subst hcn
    obtain ⟨h1, h2⟩ := h
    clear hn hc
    interval_cases n <;> decide
  · simpa [asciiLower, h] using hc

theorem parsePrivateMessage_sayMessage (spare : Nat) (lc text : Str) :
    parsePrivateMessage spare (sayMessage lc text) = Res.ok (sayPrivateMessage lc text) := by
  rw [parsePrivateMessage_expected spare (sayMessage lc text) ('#' :: lc) text [] none none rfl
    (Or.inl ⟨rfl, rfl⟩) (Or.inl ⟨rfl, rfl⟩)]
  simp [expectedPrivateMessage, sayPrivateMessage, sayMessage, tagOrEmpty, GetTag, mapGet,
    TrimPrefix, parseTime, List.isPrefixOf]

theorem parseMessage_sayBytes (up : Char → Char) (lc text : Str)
    (hup : ToUpper up "PRIVMSG".toList = "PRIVMSG".toList) (hlc : ' ' ∉ lc)
    (htext : '\r' ∉ text ∧ '\n' ∉ text) :
    parseMessage up (sayBytes lc text) = Res.ok (sayMessage lc text) := by
  have hline : sayBytes lc text =
      ('P' :: 'R' :: 'I' :: 'V' :: 'M' :: 'S' :: 'G' :: ' ' :: '#' :: (lc ++ [' '])) ++
        ':' :: (text ++ ['\r', '\n']) := by
    simp [sayBytes]
  have htrim : TrimRight (sayBytes lc text) ['\r', '\n'] =
      'P' :: 'R' :: 'I' :: 'V' :: 'M' :: 'S' :: 'G' :: ' ' :: '#' ::
        (lc ++ ' ' :: ':' :: text) := by
    rw [hline, TrimRight_append_stop _ _ _ ':' (by decide),
      TrimRight_append_run text ['\r', '\n'] _ (by simp), TrimRight_of_not_mem text _ ?_]
    · simp
    · intro c hc hmem
      simp only [List.mem_cons, List.mem_singleton, List.not_mem_nil, or_false] at hmem
      rcases hmem with rfl | rfl
      · exact htext.1 hc
      · exact htext.2 hc
  have hsplit : SplitN2 ("PRIVMSG".toList ++
      ((['#' :: lc].map (fun p => ' ' :: p)).flatten ++ ' ' :: ':' :: text)) [' ', ':'] =
      ("PRIVMSG".toList ++ (['#' :: lc].map (fun p => ' ' :: p)).flatten, some text) := by
    rw [SplitN2_token _ _ (by decide), SplitN2_middle ['#' :: lc] text (by simp [hlc])]
  have hfields := FieldsFunc_tokens "PRIVMSG".toList ['#' :: lc] (by decide) (by simp [hlc])
  have hbody : 'P' :: 'R' :: 'I' :: 'V' :: 'M' :: 'S' :: 'G' :: ' ' :: '#' ::
      (lc ++ ' ' :: ':' :: text) =
      "PRIVMSG".toList ++
        ((['#' :: lc].map (fun p => ' ' :: p)).flatten ++ ' ' :: ':' :: text) := by
    simp
  unfold parseMessage
  simp only [htrim]
  rw [if_neg (by simp), if_neg (by simp)]
  simp only [parseAfterTags]
  rw [if_neg (by decide), hbody]
  unfold parseFields
  simp only [hsplit, hfields, hup]
  simp [emptyMessage, sayMessage]

theorem byteLen_sayBytes_letters (n : Nat) :
    byteLen (sayBytes "foo".toList (List.replicate n 'a')) = n + 16 := by
  unfold sayBytes
  rw [byteLen_append, byteLen_append, byteLen_replicate]
  have h1 : byteLen ("PRIVMSG #".toList ++ "foo".toList ++ " :".toList) = 14 := by decide
  have h2 : byteLen ['\r', '\n'] = 2 := by decide
  have h3 : RuneLen 'a' = 1 := by decide
  rw [h1, h2, h3]
  omega

/-- C24 as the code has it.  `Say` hands to `Write` the text `PRIVMSG #`, the lower-cased
channel, ` :` and the text.  When the write succeeds, exactly these bytes followed by CR LF
are written, once, and `Say` returns nil.  When it does not succeed, `Say` returns the
error of the write, and of the line only the bytes are written that the socket accepted
before it failed: nothing, with the earlier error of the buffered writer in the context
`could not write message`, when the writer had failed before; the full buffers accepted so
far and the accepted part of the refused one, with the error of the socket in the context
`could not write message` when a buffer other than the last is refused and in the context
`could not flush buffer` when the last one is.  For a channel name without a space and a
text without CR and LF, `parseMessage` parses the bytes of the line to a Message with
command `PRIVMSG`, and `parsePrivateMessage` decodes that Message to Channel = the
lower-cased channel and Text = the text.  The case maps are taken to leave `PRIVMSG` alone
(`up`) and never to produce a space from another code point (`low`). -/
theorem Say_roundtrip (up low : Char → Char) (c : Connection) (channel text : Str)
    (hup : ToUpper up "PRIVMSG".toList = "PRIVMSG".toList)
    (hlow : ∀ x, x ≠ ' ' → low x ≠ ' ')
    (hch : ' ' ∉ channel) (htext : '\r' ∉ text ∧ '\n' ∉ text) :
    (writeSucceeds c ("PRIVMSG #".toList ++ ToLower low channel ++ " :".toList ++ text) →
        c.Say low channel text =
          ({ c with sock := c.sock.drop (connWrites (sayBytes (ToLower low channel) text)),
                    trace := c.trace ++ [Event.wrote (sayBytes (ToLower low channel) text)] },
            none)) ∧
      (¬ writeSucceeds c ("PRIVMSG #".toList ++ ToLower low channel ++ " :".toList ++ text) →
        ∃ (c1 : Connection) (err : Error) (sent : Nat),
          c.Say low channel text = (c1, some err) ∧
            c1.trace = c.trace ++ wireEvents (sayBytes (ToLower low channel) text) sent) ∧
      (∀ e, c.werr = some e →
        c.Say low channel text =
          (c, some (Error.wrap e (writeErrorContext
            ("PRIVMSG #".toList ++ ToLower low channel ++ " :".toList ++ text))))) ∧
      (c.werr = none → ∀ j k e later,
        c.sock = List.replicate j none ++ some (k, e) :: later →
        j + 1 < connWrites (sayBytes (ToLower low channel) text) →
        c.Say low channel text =
          ({ c with
              sock := later, werr := some e,
              trace := c.trace ++ wireEvents (sayBytes (ToLower low channel) text)
                (defaultBufSize * j + min k defaultBufSize) },
            some (Error.wrap e (writeErrorContext
              ("PRIVMSG #".toList ++ ToLower low channel ++ " :".toList ++ text))))) ∧
      (c.werr = none → ∀ k e later,
        c.sock = List.replicate (connWrites (sayBytes (ToLower low channel) text) - 1) none ++
          some (k, e) :: later →
        c.Say low channel text =
          ({ c with
              sock := later, werr := some e,
              trace := c.trace ++ wireEvents (sayBytes (ToLower low channel) text)
                (defaultBufSize * (connWrites (sayBytes (ToLower low channel) text) - 1) +
                  min k (byteLen (sayBytes (ToLower low channel) text) -
                    defaultBufSize *
                      (connWrites (sayBytes (ToLower low channel) text) - 1))) },
            some (Error.wrap e "connection.write: could not flush buffer"))) ∧
      parseMessage up (sayBytes (ToLower low channel) text) =
        Res.ok (sayMessage (ToLower low channel) text) ∧
      (sayMessage (ToLower low channel) text).Command = "PRIVMSG".toList ∧
      ∀ spare, parsePrivateMessage spare (sayMessage (ToLower low channel) text) =
        Res.ok (sayPrivateMessage (ToLower low channel) text) := by
  have hlc : ' ' ∉ ToLower low channel := by
    simp only [ToLower, List.mem_map, not_exists, not_and]
    intro x hx hxs
    exact hlow x (fun e => hch (e ▸ hx)) hxs
  refine ⟨fun hw => ?_, fun hw => ?_, fun e he => ?_, fun hw j k e later hs hj => ?_,
    fun hw k e later hs => ?_, parseMessage_sayBytes up _ text hup hlc htext,
    rfl, fun spare => parsePrivateMessage_sayMessage spare _ text⟩
  · unfold Connection.Say
    simp only []
    rw [Write_succeeds c _ hw]
    rfl
  · obtain ⟨c1, err, h⟩ := Write_fails_of_not_succeeds c _ hw
    obtain ⟨sent, hsent⟩ := (Write_frame c
      ("PRIVMSG #".toList ++ ToLower low channel ++ " :".toList ++ text)).2.2.2
    rw [h] at hsent
    exact ⟨c1, err, sent, h, hsent⟩
  · unfold Connection.Say
    simp only []
    rw [Write_sticky c _ e he]
  · unfold Connection.Say
    simp only []
    rw [Write_fails_in_WriteString c _ j k e later hw hs hj]
    rfl
  · unfold Connection.Say
    simp only []
    rw [Write_fails_in_Flush c _ k e later hw hs]
    rfl

/-- C24 as the code has it, at `Say("Foo", "hi there")` on a fresh connection: the bytes
`PRIVMSG #foo :hi there` CR LF are written and parse back to the channel `foo` and the text
`hi there`.  On a connection whose socket accepts one call and refuses the next, a text of
9000 letters `a` makes a line of three buffers: the first 4096 bytes reach the wire, the
second buffer is refused, and `Say` returns the error of the socket in the context
`could not write message`. -/
theorem Say_roundtrip_witness :
    (freshConnection.Say asciiLower "Foo".toList "hi there".toList).2 = none ∧
      (freshConnection.Say asciiLower "Foo".toList "hi there".toList).1.trace =
        [Event.wrote "PRIVMSG #foo :hi there\r\n".toList] ∧
      parseMessage asciiUpper "PRIVMSG #foo :hi there\r\n".toList =
        Res.ok (sayMessage "foo".toList "hi there".toList) ∧
      parsePrivateMessage 0 (sayMessage "foo".toList "hi there".toList) =
        Res.ok (sayPrivateMessage "foo".toList "hi there".toList) ∧
      (secondWriteFailsConnection.Say asciiLower "foo".toList (List.replicate 9000 'a')).2 =
        some (Error.wrap (Error.external "write: broken pipe")
          (writeErrorContext
            ("PRIVMSG #".toList ++ "foo".toList ++ " :".toList ++ List.replicate 9000 'a'))) ∧
      (secondWriteFailsConnection.Say asciiLower "foo".toList
          (List.replicate 9000 'a')).1.trace =
        [Event.wrotePart 4096 (sayBytes "foo".toList (List.replicate 9000 'a'))] := by
  have h := Say_roundtrip asciiUpper asciiLower freshConnection "Foo".toList "hi there".toList
    (by decide)
    asciiLower_ne_space
    (by decide) (by decide)
  have hfoo : ToLower asciiLower "foo".toList = "foo".toList := by decide
  have hlen : byteLen (sayBytes "foo".toList (List.replicate 9000 'a')) = 9016 :=
    byteLen_sayBytes_letters 9000
  have hn : connWrites (sayBytes "foo".toList (List.replicate 9000 'a')) = 3 := by
    unfold connWrites
    rw [hlen]
    decide
  have hev : wireEvents (sayBytes "foo".toList (List.replicate 9000 'a')) 4096 =
      [Event.wrotePart 4096 (sayBytes "foo".toList (List.replicate 9000 'a'))] := by
    unfold wireEvents
    rw [hlen, if_neg (by decide), if_pos (by decide)]
  have h2 := (Say_roundtrip asciiUpper asciiLower secondWriteFailsConnection "foo".toList
    (List.replicate 9000 'a') (by decide) asciiLower_ne_space (by decide)
    ⟨fun hm => absurd (List.eq_of_mem_replicate hm) (by decide),
      fun hm => absurd (List.eq_of_mem_replicate hm) (by decide)⟩).2.2.2.1 rfl 1 0
    (Error.external "write: broken pipe") [] rfl (by rw [hfoo, hn]; decide)
  rw [hfoo] at h2
  rw [h.1 (by decide), h2]
  refine ⟨rfl, by decide, h.2.2.2.2.2.1, h.2.2.2.2.2.2.2 0, rfl, ?_⟩
  show [] ++ wireEvents (sayBytes "foo".toList (List.replicate 9000 'a')) 4096 = _
  rw [List.nil_append, hev]

/-- C24 fails as stated: on a connection whose socket refuses the write, `Say("foo", "hi")`
writes nothing and returns the write error. -/
theorem Say_writes_nothing_on_broken_socket :
    (brokenSocketConnection.Say asciiLower "foo".toList "hi".toList).1.trace = [] ∧
      (brokenSocketConnection.Say asciiLower "foo".toList "hi".toList).2 =
        some (Error.wrap (Error.external "write: broken pipe")
          "connection.write: could not flush buffer") := by
  decide

/-! ## C25: empty lines and trailing line ends -/

/-- C25: `parseMessage` fails with `ErrZeroLengthMessage` exactly on the lines that consist
only of CR and LF (the empty line among them); appending a run of CR and LF to a line does
not change the result of `parseMessage`; and when a line parses, the raw text of the
Message is the line without all its trailing CR and LF: the line is the raw text followed
by a run of CR and LF, and the raw text does not end in CR or LF. -/
theorem parseMessage_line_ends (up : Char → Char) (line : Str) :
    (parseMessage up line = Res.err ParseError.ErrZeroLengthMessage ↔
        ∀ c ∈ line, c = '\r' ∨ c = '\n') ∧
      (∀ run : Str, (∀ c ∈ run, c = '\r' ∨ c = '\n') →
        parseMessage up (line ++ run) = parseMessage up line) ∧
      (∀ m, parseMessage up line = Res.ok m →
        (∃ run : Str, line = m.Message ++ run ∧ ∀ c ∈ run, c = '\r' ∨ c = '\n') ∧
          m.Message.getLast? ≠ some '\r' ∧ m.Message.getLast? ≠ some '\n') := by
  refine ⟨?_, ?_, ?_⟩
  · rw [parseMessage_zero_length_iff_trim, TrimRight_eq_nil_iff]
    simp
  · intro run hrun
    apply parseMessage_of_trim_eq
    exact TrimRight_append_run line run _ (fun c hc => by simpa using hrun c hc)
  · intro m hm
    rw [parseMessage_raw up line m hm]
    obtain ⟨run, h1, h2, h3⟩ := TrimRight_split line ['\r', '\n']
    refine ⟨⟨run, h1, fun c hc => by simpa using h2 c hc⟩, ?_, ?_⟩
    · intro h
      exact h3 _ h (by simp)
    · intro h
      exact h3 _ h (by simp)

/-- C25 at the lines `PING :tmi.twitch.tv`, with and without a line end, and at the line
that is only a line end. -/
theorem parseMessage_line_ends_witness :
    parseMessage asciiUpper "\r\n".toList = Res.err ParseError.ErrZeroLengthMessage ∧
      parseMessage asciiUpper "PING :tmi.twitch.tv\r\n".toList =
        parseMessage asciiUpper "PING :tmi.twitch.tv".toList ∧
      parseMessage asciiUpper "PING :tmi.twitch.tv".toList = Res.ok pingMessage :=
  ⟨(parseMessage_line_ends asciiUpper "\r\n".toList).1.2 (by decide),
    (parseMessage_line_ends asciiUpper "PING :tmi.twitch.tv".toList).2.1 "\r\n".toList
      (by decide),
    by decide⟩

/-! ## C26: lines that end inside the tag block or the prefix -/

/-- C26: a line that starts with `@` and contains no space fails with
`ErrMissingDataAfterTags`; a line that is `:` followed by text without a space, alone or
after a tag block without a space and its separating space, fails with
`ErrMissingDataAfterPrefix`.  Trailing CR and LF make no difference: they are part of the
text `rest`, `P` here. -/
theorem parseMessage_missing_data (up : Char → Char) :
    (∀ rest : Str, ' ' ∉ rest →
        parseMessage up ('@' :: rest) = Res.err ParseError.ErrMissingDataAfterTags) ∧
      (∀ P : Str, ' ' ∉ P →
        parseMessage up (':' :: P) = Res.err ParseError.ErrMissingDataAfterPrefix) ∧
      (∀ T P : Str, ' ' ∉ T → ' ' ∉ P →
        parseMessage up ('@' :: (T ++ ' ' :: ':' :: P)) =
          Res.err ParseError.ErrMissingDataAfterPrefix) := by
  have hsub : ∀ s : Str, ' ' ∉ s → ' ' ∉ TrimRight s ['\r', '\n'] := by
    intro s hs hmem
    obtain ⟨r, hr⟩ := TrimRight_isPrefix s ['\r', '\n']
    apply hs
    rw [hr]
    exact List.mem_append_left _ hmem
  refine ⟨?_, ?_, ?_⟩
  · intro rest hrest
    have ht : TrimRight ('@' :: rest) ['\r', '\n'] = '@' :: TrimRight rest ['\r', '\n'] := by
      have := TrimRight_append_stop [] rest ['\r', '\n'] '@' (by decide)
      simpa using this
    have hi : Index ('@' :: TrimRight rest ['\r', '\n']) ' ' = none :=
      Index_none _ _ (by simp [hsub rest hrest])
    unfold parseMessage
    simp only [ht, hi]
    simp
  · intro P hP
    have ht : TrimRight (':' :: P) ['\r', '\n'] = ':' :: TrimRight P ['\r', '\n'] := by
      have := TrimRight_append_stop [] P ['\r', '\n'] ':' (by decide)
      simpa using this
    have hi : Index (':' :: TrimRight P ['\r', '\n']) ' ' = none :=
      Index_none _ _ (by simp [hsub P hP])
    unfold parseMessage
    simp only [ht]
    simp [parseAfterTags, hi]
  · intro T P hT hP
    have ht : TrimRight ('@' :: (T ++ ' ' :: ':' :: P)) ['\r', '\n'] =
        '@' :: (T ++ ' ' :: ':' :: TrimRight P ['\r', '\n']) := by
      have := TrimRight_append_stop ('@' :: (T ++ [' '])) P ['\r', '\n'] ':' (by decide)
      simpa using this
    have hi : Index (':' :: TrimRight P ['\r', '\n']) ' ' = none :=
      Index_none _ _ (by simp [hsub P hP])
    rw [parseMessage_tag_block up _ T _ ht hT]
    simp [parseAfterTags, hi]

/-- C26 at the three lines of the claim: `@tag=1`, `:nick` and `@t=1 :nick`. -/
theorem parseMessage_missing_data_witness :
    parseMessage asciiUpper "@tag=1".toList = Res.err ParseError.ErrMissingDataAfterTags ∧
      parseMessage asciiUpper ":nick".toList = Res.err ParseError.ErrMissingDataAfterPrefix ∧
      parseMessage asciiUpper "@t=1 :nick".toList =
        Res.err ParseError.ErrMissingDataAfterPrefix :=
  ⟨(parseMessage_missing_data asciiUpper).1 "tag=1".toList (by decide),
    (parseMessage_missing_data asciiUpper).2.1 "nick".toList (by decide),
    (parseMessage_missing_data asciiUpper).2.2 "t=1".toList "nick".toList (by decide)
      (by decide)⟩

/-! ## C27: lines without a command -/

/-- C27 (fails on the code): the line `@t=1 ` is a tag block and its separating space with
nothing behind, so its field list is empty; `parseMessage` does not fail with
`ErrMissingCommand` on it but panics, reading `line[0]` of the empty remainder.  On the
line `@t=1 :nick ` of the claim, where the empty field list follows a prefix block, and on
`@t=1  `, where it is one space, the error is `ErrMissingCommand`. -/
theorem parseMessage_panics_on_empty_field_list (up : Char → Char) :
    parseMessage up "@t=1 ".toList = Res.panic ∧
      parseMessage up "@t=1 :nick ".toList = Res.err ParseError.ErrMissingCommand ∧
      parseMessage up "@t=1  ".toList = Res.err ParseError.ErrMissingCommand :=
  ⟨rfl, rfl, rfl⟩

/-! ## C28: the capability request -/

/-- C28: whatever the client (credentials, the other configuration fields) and the writer,
`sendCaptures` passes to the writer exactly the lines of `captureRequest` of the three
capture flags: nothing when no flag is set, otherwise one line `CAP REQ :` with the names
of the enabled extensions in the order tags, commands, membership, joined by single
spaces, and CR LF; the eight cases are listed.  It returns nil when it writes nothing or
the writer accepts the line, and the writer's error, wrapped, otherwise.  Two clients
whose three flags agree pass the same lines to the same writer. -/
theorem sendCaptures_lines :
    (∀ (c : Client) (w : Writer),
        (c.sendCaptures w).1.calls =
            w.calls ++ captureRequest c.config.CaptureTags c.config.CaptureCommands
              c.config.CaptureMembership ∧
          (c.sendCaptures w).2 =
            match captureRequest c.config.CaptureTags c.config.CaptureCommands
              c.config.CaptureMembership, w.results with
            | _ :: _, some err :: _ =>
              some (Error.wrap err "client.sendCaptures: could not send captures")
            | _, _ => none) ∧
      captureRequest false false false = [] ∧
      captureRequest true false false = ["CAP REQ :twitch.tv/tags\r\n".toList] ∧
      captureRequest false true false = ["CAP REQ :twitch.tv/commands\r\n".toList] ∧
      captureRequest false false true = ["CAP REQ :twitch.tv/membership\r\n".toList] ∧
      captureRequest true true false =
        ["CAP REQ :twitch.tv/tags twitch.tv/commands\r\n".toList] ∧
      captureRequest true false true =
        ["CAP REQ :twitch.tv/tags twitch.tv/membership\r\n".toList] ∧
      captureRequest false true true =
        ["CAP REQ :twitch.tv/commands twitch.tv/membership\r\n".toList] ∧
      captureRequest true true true =
        ["CAP REQ :twitch.tv/tags twitch.tv/commands twitch.tv/membership\r\n".toList] ∧
      (∀ (c1 c2 : Client) (w : Writer), c1.config.CaptureTags = c2.config.CaptureTags →
        c1.config.CaptureCommands = c2.config.CaptureCommands →
        c1.config.CaptureMembership = c2.config.CaptureMembership →
        c1.sendCaptures w = c2.sendCaptures w) := by
  refine ⟨?_, by decide, by decide, by decide, by decide, by decide, by decide, by decide,
    by decide, ?_⟩
  · intro c w
    obtain ⟨nick, pass, ⟨tls, ap, t, cm, m⟩⟩ := c
    obtain ⟨results, calls⟩ := w
    cases t <;> cases cm <;> cases m <;>
      rcases results with _ | ⟨_ | e, later⟩ <;>
      simp [Client.sendCaptures, Join, Writer.Write, captureRequest, enabledExtensions]
  · intro c1 c2 w h1 h2 h3
    simp only [Client.sendCaptures, h1, h2, h3]

/-- C28 at the configurations of the repository's test, with the anonymous client and a
writer that accepts every write, and for a named and the anonymous client with the same
flags. -/
theorem sendCaptures_lines_witness :
    ((NewAnonymousClient (captureConfig true true true)).sendCaptures emptyWriter).1.calls =
        ["CAP REQ :twitch.tv/tags twitch.tv/commands twitch.tv/membership\r\n".toList] ∧
      ((NewAnonymousClient (captureConfig false true false)).sendCaptures emptyWriter).1.calls =
        ["CAP REQ :twitch.tv/commands\r\n".toList] ∧
      ((NewAnonymousClient (captureConfig false false false)).sendCaptures emptyWriter).1.calls =
        [] ∧
      (NewClient "testnick".toList "testpass".toList
          { UseTLS := true, AutoPing := true, CaptureTags := true, CaptureCommands := false,
            CaptureMembership := true }).sendCaptures emptyWriter =
        (NewAnonymousClient (captureConfig true false true)).sendCaptures emptyWriter :=
  ⟨((sendCaptures_lines.1 (NewAnonymousClient (captureConfig true true true))
      emptyWriter).1).trans (by decide),
    ((sendCaptures_lines.1 (NewAnonymousClient (captureConfig false true false))
      emptyWriter).1).trans (by decide),
    ((sendCaptures_lines.1 (NewAnonymousClient (captureConfig false false false))
      emptyWriter).1).trans (by decide),
    sendCaptures_lines.2.2.2.2.2.2.2.2.2 _ _ emptyWriter rfl rfl rfl⟩

/-! ## C30: `Join` when a write fails -/

/-- C30: when `Join` reaches a name `ch` whose lower-casing is not registered (neither
before the call nor by an earlier name of the list), after the earlier names `pre` of the
list were joined with successful writes, and the write of its JOIN line does not succeed,
that write fails: `Join` returns its error wrapped with the context of `Join`, and the
registry already holds `lower(ch) -> handler` behind the entries added for `pre`; the
lines of `pre` are written and, of the line of `ch`, what the socket accepted of it;
nothing is registered or written for the later names `post`.  A subsequent `Join` of `ch`
alone then returns nil and changes nothing: it writes no line. -/
theorem Join_not_atomic (low : Char → Char) (c : Connection) (pre post : List Str) (ch : Str)
    (handler : Option Handler)
    (hpre : writesSucceed c
      ((joinedKeys low (c.channelHandler.map Prod.fst) pre).map joinLine))
    (hold : ToLower low ch ∉ c.channelHandler.map Prod.fst)
    (hnew : ToLower low ch ∉ pre.map (ToLower low))
    (hfail : ¬ writeSucceeds
      { c with
        sock := c.sock.drop
          (connWritesOf ((joinedKeys low (c.channelHandler.map Prod.fst) pre).map joinLine)) }
      ("JOIN #".toList ++ ToLower low ch)) :
    ∃ (c1 : Connection) (err : Error) (sent : Nat),
      Connection.Write
          { c with
            channelHandler := c.channelHandler ++
              (joinedKeys low (c.channelHandler.map Prod.fst) pre).map
                (fun k => (k, handlerOrDefault handler)) ++
              [(ToLower low ch, handlerOrDefault handler)],
            trace := c.trace ++
              (joinedKeys low (c.channelHandler.map Prod.fst) pre).map
                (fun k => Event.wrote (joinLine k)),
            sock := c.sock.drop
              (connWritesOf
                ((joinedKeys low (c.channelHandler.map Prod.fst) pre).map joinLine)) }
          ("JOIN #".toList ++ ToLower low ch) = (c1, some err) ∧
        c.Join low (pre ++ ch :: post) handler =
          (c1, some (Error.wrap err (joinErrorContext (pre ++ ch :: post)))) ∧
        c1.channelHandler = c.channelHandler ++
          (joinedKeys low (c.channelHandler.map Prod.fst) pre).map
            (fun k => (k, handlerOrDefault handler)) ++
          [(ToLower low ch, handlerOrDefault handler)] ∧
        c1.trace = c.trace ++
          (joinedKeys low (c.channelHandler.map Prod.fst) pre).map
            (fun k => Event.wrote (joinLine k)) ++
          wireEvents (joinLine (ToLower low ch)) sent ∧
        ∀ second : Option Handler, c1.Join low [ch] second = (c1, none) := by
  obtain ⟨c1, err, hW⟩ := Write_fails_of_not_succeeds
    { c with
      channelHandler := c.channelHandler ++
        (joinedKeys low (c.channelHandler.map Prod.fst) pre).map
          (fun k => (k, handlerOrDefault handler)) ++
        [(ToLower low ch, handlerOrDefault handler)],
      trace := c.trace ++
        (joinedKeys low (c.channelHandler.map Prod.fst) pre).map
          (fun k => Event.wrote (joinLine k)),
      sock := c.sock.drop
        (connWritesOf ((joinedKeys low (c.channelHandler.map Prod.fst) pre).map joinLine)) }
    ("JOIN #".toList ++ ToLower low ch) hfail
  have hframe := Write_frame
    { c with
      channelHandler := c.channelHandler ++
        (joinedKeys low (c.channelHandler.map Prod.fst) pre).map
          (fun k => (k, handlerOrDefault handler)) ++
        [(ToLower low ch, handlerOrDefault handler)],
      trace := c.trace ++
        (joinedKeys low (c.channelHandler.map Prod.fst) pre).map
          (fun k => Event.wrote (joinLine k)),
      sock := c.sock.drop
        (connWritesOf ((joinedKeys low (c.channelHandler.map Prod.fst) pre).map joinLine)) }
    ("JOIN #".toList ++ ToLower low ch)
  rw [hW] at hframe
  obtain ⟨hreg, -, -, sent, hsent⟩ := hframe
  have hkeys : ToLower low ch ∉
      (c.channelHandler ++ (joinedKeys low (c.channelHandler.map Prod.fst) pre).map
        (fun k => (k, handlerOrDefault handler))).map Prod.fst := by
    simp only [List.map_append, List.map_map, List.mem_append, not_or]
    refine ⟨hold, fun hmem => ?_⟩
    have hid : (Prod.fst ∘ fun k : Str => (k, handlerOrDefault handler)) = id := rfl
    rw [hid, List.map_id] at hmem
    exact hnew (((joinedKeys_spec low pre _).2 _).1 hmem).2
  refine ⟨c1, err, sent, hW, ?_, hreg, hsent, fun second => ?_⟩
  · rw [Join_eq_joinLoop, joinLoop_append low _ _ pre (ch :: post) c hpre.1 hpre.2]
    simp only [joinLoop, (mapGet_eq_none_iff _ _).2 hkeys]
    rw [mapSet_new _ _ _ hkeys, hW]
  · obtain ⟨v, hv⟩ := mapGet_isSome_of_mem c1.channelHandler (ToLower low ch)
      (by rw [hreg]; simp)
    rw [Join_eq_joinLoop]
    simp only [joinLoop, hv]

/-- C30 on a connection whose socket accepts one write and refuses the next: `Join` of
`A`, `B`, `C` fails on `B` with `b` already registered and `c` not, and a second `Join` of
`B` returns nil and leaves the connection as it is. -/
theorem Join_not_atomic_witness :
    (secondWriteFailsConnection.Join asciiLower ["A".toList, "B".toList, "C".toList]
        none).2.isSome = true ∧
      (secondWriteFailsConnection.Join asciiLower ["A".toList, "B".toList, "C".toList]
        none).1.channelHandler.map Prod.fst = ["a".toList, "b".toList] ∧
      ((secondWriteFailsConnection.Join asciiLower ["A".toList, "B".toList, "C".toList]
        none).1.Join asciiLower ["B".toList] none).2 = none ∧
      ((secondWriteFailsConnection.Join asciiLower ["A".toList, "B".toList, "C".toList]
        none).1.Join asciiLower ["B".toList] none).1.trace =
          (secondWriteFailsConnection.Join asciiLower ["A".toList, "B".toList, "C".toList]
            none).1.trace := by
  obtain ⟨c1, err, sent, -, h, hreg, -, hsecond⟩ := Join_not_atomic asciiLower
    secondWriteFailsConnection ["A".toList] ["C".toList] "B".toList none (by decide)
    (by decide) (by decide) (by decide)
  have h1 : ["A".toList] ++ "B".toList :: ["C".toList] =
      ["A".toList, "B".toList, "C".toList] := rfl
  rw [h1] at h
  rw [h]
  refine ⟨rfl, ?_, ?_, ?_⟩
  · show c1.channelHandler.map Prod.fst = ["a".toList, "b".toList]
    rw [hreg]
    decide
  · show (c1.Join asciiLower ["B".toList] none).2 = none
    rw [hsecond none]
  · show (c1.Join asciiLower ["B".toList] none).1.trace = c1.trace
    rw [hsecond none]

/-- The failing `Join` of the witness in full: the error is the socket's, wrapped by `Flush`
and by `Join`, and only the line of `a` is on the wire; on a connection whose writer has
failed before, the error of a `Join` is the writer's, wrapped by `WriteString`, and the
channel is registered all the same. -/
theorem Join_write_errors :
    (secondWriteFailsConnection.Join asciiLower ["A".toList, "B".toList, "C".toList] none).2 =
        some (Error.wrap
          (Error.wrap (Error.external "write: broken pipe")
            "connection.write: could not flush buffer")
          "connection.Join: could not join channel [A B C]") ∧
      (secondWriteFailsConnection.Join asciiLower ["A".toList, "B".toList, "C".toList]
        none).1.trace = [Event.wrote "JOIN #a\r\n".toList] ∧
      (failedWriterConnection.Join asciiLower ["Bar".toList] none).2 =
        some (Error.wrap
          (Error.wrap (Error.external "write: broken pipe")
            "connection.write: could not write message JOIN #bar")
          "connection.Join: could not join channel [Bar]") ∧
      (failedWriterConnection.Join asciiLower ["Bar".toList] none).1.channelHandler.map
        Prod.fst = ["foo".toList, "bar".toList] := by
  decide

end TwitchIRC
